import Mathlib

/-!
# SyncKode: the real-time relay (`backend/socket.js`) and its store (`backend/store.js`)

A shallow embedding of the socket handlers.

* Presence: the shared state (`db.rooms`, `roomSessions`, `voiceRooms`, `colorIdx`, the
  socket.io room subscriptions) and the closure variables of every connection (`currentRoomId`,
  `sessionUser`) are one explicit `State`; the `connection` callback and the handlers of
  `join-room`, `code-change`, `request-code`, `voice:join`, `voice:leave` and `disconnect` are
  functions from a state to a new state and the list of events emitted, each with the
  connections it is delivered to. The
  handlers that only forward a payload and touch no state (`cursor-move`, `chat-message`,
  `voice:offer`, `voice:answer`, `voice:ice`) are left out.
* Terminal: `terminal:run` is a function from the closure variable `_activeProc` and the
  payload to the new `_activeProc` and the list of actions taken (kill, emit, write file,
  spawn, arm timer). Its regular expressions are values of a small expression type run by a
  backtracking matcher.

Definitions come first, theorems after them.
-/

namespace SyncKode

/-! ## JavaScript values -/

/-- JavaScript truthiness of a string-valued field that may be missing: `undefined`, `null`
and the empty string are falsy. -/
def truthy : Option String → Bool
  | some s => s != ""
  | none => false

/-- The expression `x || d` for a string-valued field `x` and a string default `d`. -/
def jsOr (x : Option String) (d : String) : String :=
  match x with
  | some s => if s != "" then s else d
  | none => d

/-- The expression `x || null`. -/
def jsOrNull (x : Option String) : Option String :=
  if truthy x then x else none

/-! ## JavaScript `Map`, as an insertion-ordered association list -/

/-- `m.get(k)`. -/
def mapGet {V : Type} : List (String × V) → String → Option V
  | [], _ => none
  | (k', v) :: m, k => if k' = k then some v else mapGet m k

/-- `m.has(k)`. -/
def mapHas {V : Type} (m : List (String × V)) (k : String) : Bool :=
  (mapGet m k).isSome

/-- `m.set(k, v)`: an existing key keeps its position, a new key is appended. -/
def mapSet {V : Type} : List (String × V) → String → V → List (String × V)
  | [], k, v => [(k, v)]
  | (k', v') :: m, k, v => if k' = k then (k', v) :: m else (k', v') :: mapSet m k v

/-- `m.delete(k)`. -/
def mapDelete {V : Type} (m : List (String × V)) (k : String) : List (String × V) :=
  m.filter (fun e => decide (e.1 ≠ k))

/-- `Array.from(m.values())`. -/
def mapValues {V : Type} (m : List (String × V)) : List V :=
  m.map Prod.snd

/-- The keys of a map, in insertion order. -/
def mapKeys {V : Type} (m : List (String × V)) : List String :=
  m.map Prod.fst

/-! ## Data model -/

/-- The record stored in `roomSessions` for a connection (`sessionUser`). -/
structure SessionUser where
  socketId : String
  userId : String
  name : String
  avatar : Option String
  color : String
deriving DecidableEq, Repr

/-- The record stored in `voiceRooms` for a connection. -/
structure VoiceEntry where
  socketId : String
  userId : Option String
  name : String
deriving DecidableEq, Repr

/-- A room of `db.rooms`, with the fields the socket layer reads or writes. -/
structure Room where
  id : String
  code : Option String
  language : Option String
  members : List String
deriving DecidableEq, Repr

/-- The closure variables of one connection. -/
structure Conn where
  currentRoomId : Option String
  sessionUser : Option SessionUser
deriving DecidableEq, Repr

/-- Events the server sends. -/
inductive Msg where
  | error (message : String)
  | roomJoined (roomId code language : String) (members : List SessionUser)
  | userJoined (user : SessionUser)
  | userLeft (user : SessionUser)
  | roomMembers (members : List SessionUser)
  | codeUpdate (code language fromUserId : Option String)
  | voiceCurrentUsers (users : List VoiceEntry)
  | voiceUserJoined (entry : VoiceEntry)
  | voiceUserLeft (entry : VoiceEntry)
deriving DecidableEq, Repr

/-- The three ways a handler addresses an event: `socket.emit`, `socket.to(room).emit`
(everyone subscribed to the room but the sender) and `io.to(room).emit`. -/
inductive Target where
  | self (socketId : String)
  | others (room sender : String)
  | all (room : String)
deriving DecidableEq, Repr

/-- One emitted event, with the connections socket.io delivers it to at that moment. -/
structure Emit where
  target : Target
  recipients : List String
  msg : Msg
deriving DecidableEq, Repr

/-- The server state. `subs` is the socket.io adapter: the pairs (socket id, room) made when a
socket connects (socket.io puts every socket in the room of its own id) and by `socket.join`,
and removed by `socket.leave` or by the disconnect of the socket. -/
structure State where
  rooms : List Room
  roomSessions : List (String × List (String × SessionUser))
  voiceRooms : List (String × List (String × VoiceEntry))
  colorIdx : Nat
  subs : List (String × String)
  conns : List (String × Conn)
deriving DecidableEq, Repr

/-- The state of a freshly started server over the stored rooms `db`. -/
def State.init (db : List Room) : State :=
  { rooms := db, roomSessions := [], voiceRooms := [], colorIdx := 0, subs := [], conns := [] }

/-- The closure variables of connection `c`; both are `null` until a handler sets them. -/
def State.conn (s : State) (c : String) : Conn :=
  (mapGet s.conns c).getD { currentRoomId := none, sessionUser := none }

/-- Assignment to `currentRoomId` in the closure of `c`. -/
def State.setCurrentRoomId (s : State) (c : String) (r : Option String) : State :=
  { s with conns := mapSet s.conns c { s.conn c with currentRoomId := r } }

/-- Assignment to `sessionUser` in the closure of `c`. -/
def State.setSessionUser (s : State) (c : String) (u : Option SessionUser) : State :=
  { s with conns := mapSet s.conns c { s.conn c with sessionUser := u } }

/-! ## store.js: `rooms` -/

/-- `rooms.findById(id)`. -/
def rooms.findById : List Room → String → Option Room
  | [], _ => none
  | r :: rs, id => if r.id = id then some r else rooms.findById rs id

/-- `rooms.update(id, { code, ...(language && { language }) })`: the first room with that id
gets the new `code`, and the new `language` when it is truthy. -/
def rooms.update : List Room → String → Option String → Option String → List Room
  | [], _, _, _ => []
  | r :: rs, id, code, language =>
    if r.id = id then
      { r with code := code, language := if truthy language then language else r.language } :: rs
    else r :: rooms.update rs id code language

/-- `rooms.addMember(roomId, userId)`. -/
def rooms.addMember : List Room → String → String → List Room
  | [], _, _ => []
  | r :: rs, id, userId =>
    if r.id = id then
      (if userId ∈ r.members then r else { r with members := r.members ++ [userId] }) :: rs
    else r :: rooms.addMember rs id userId

/-- `rooms.removeMember(roomId, userId)`. -/
def rooms.removeMember : List Room → String → String → List Room
  | [], _, _ => []
  | r :: rs, id, userId =>
    if r.id = id then
      { r with members := r.members.filter (fun m => decide (m ≠ userId)) } :: rs
    else r :: rooms.removeMember rs id userId

/-! ## socket.io rooms -/

/-- `socket.join(room)`. -/
def sioJoin (subs : List (String × String)) (c room : String) : List (String × String) :=
  if (c, room) ∈ subs then subs else subs ++ [(c, room)]

/-- `socket.leave(room)`. -/
def sioLeave (subs : List (String × String)) (c room : String) : List (String × String) :=
  subs.filter (fun p => decide (p ≠ (c, room)))

/-- What socket.io does to a socket that disconnects: it leaves every room. -/
def sioLeaveAll (subs : List (String × String)) (c : String) : List (String × String) :=
  subs.filter (fun p => decide (p.1 ≠ c))

/-- The sockets subscribed to `room`. -/
def subscribers (subs : List (String × String)) (room : String) : List String :=
  (subs.filter (fun p => decide (p.2 = room))).map Prod.fst

/-- `socket.emit(msg)`. -/
def emitSelf (c : String) (msg : Msg) : Emit :=
  { target := .self c, recipients := [c], msg := msg }

/-- `socket.to(room).emit(msg)`. -/
def emitOthers (s : State) (c room : String) (msg : Msg) : Emit :=
  { target := .others room c,
    recipients := (subscribers s.subs room).filter (fun x => decide (x ≠ c)),
    msg := msg }

/-- `io.to(room).emit(msg)`. -/
def emitAll (s : State) (room : String) (msg : Msg) : Emit :=
  { target := .all room, recipients := subscribers s.subs room, msg := msg }

/-! ## socket.js: presence handlers -/

/-- The palette `COLORS`. -/
def COLORS : List String :=
  ["#FFD700", "#8B5CF6", "#00D4FF", "#00FF9F", "#FF6B1A", "#FF2D78", "#00BFFF", "#7CFC00"]

/-- `nextColor()`: the palette entry `COLORS[colorIdx % COLORS.length]`, and the incremented
`colorIdx`. -/
def nextColor (colorIdx : Nat) : String × Nat :=
  (COLORS.getD (colorIdx % COLORS.length) "", colorIdx + 1)

/-- `_memberList(roomId)`. -/
def _memberList (s : State) (roomId : String) : List SessionUser :=
  match mapGet s.roomSessions roomId with
  | none => []
  | some session => mapValues session

/-- `_leaveRoom(roomId)` in the closure of connection `c`. -/
def _leaveRoom (s : State) (c roomId : String) : State × List Emit :=
  let s1 := { s with subs := sioLeave s.subs c roomId }
  let r : State × List Emit :=
    match mapGet s1.roomSessions roomId with
    | none => (s1, [])
    | some session =>
      let user := mapGet session c
      let session1 := mapDelete session c
      let s2 : State :=
        { s1 with roomSessions :=
            if session1.length = 0 then mapDelete s1.roomSessions roomId
            else mapSet s1.roomSessions roomId session1 }
      match user with
      | none => (s2, [])
      | some u =>
        let e1 := emitOthers s2 c roomId (.userLeft u)
        let e2 := emitAll s2 roomId (.roomMembers (_memberList s2 roomId))
        let s3 : State :=
          if u.userId ≠ "" ∧ u.userId ≠ c then
            { s2 with rooms := rooms.removeMember s2.rooms roomId u.userId }
          else s2
        (s3, [e1, e2])
  let s4 :=
    if (r.1.conn c).currentRoomId = some roomId then r.1.setCurrentRoomId c none else r.1
  (s4, r.2)

/-- The handler of `join-room` for connection `c` and payload
`{ roomId, userId, name, avatar }`. -/
def joinRoom (s : State) (c : String) (roomId userId name avatar : Option String) :
    State × List Emit :=
  if !truthy roomId then (s, [])
  else
    let rid := roomId.getD ""
    let cur := (s.conn c).currentRoomId
    let l : State × List Emit := if truthy cur then _leaveRoom s c (cur.getD "") else (s, [])
    match rooms.findById l.1.rooms rid with
    | none => (l.1, l.2 ++ [emitSelf c (.error "Room not found.")])
    | some room =>
      let s1 := l.1.setCurrentRoomId c (some rid)
      let s2 : State := { s1 with subs := sioJoin s1.subs c rid }
      let user : SessionUser :=
        { socketId := c, userId := jsOr userId c, name := jsOr name "Anonymous",
          avatar := jsOrNull avatar, color := (nextColor s2.colorIdx).1 }
      let s3 : State :=
        ({ s2 with colorIdx := (nextColor s2.colorIdx).2 }).setSessionUser c (some user)
      let s4 : State :=
        if mapHas s3.roomSessions rid then s3
        else { s3 with roomSessions := mapSet s3.roomSessions rid [] }
      let s5 : State :=
        { s4 with roomSessions :=
            mapSet s4.roomSessions rid (mapSet ((mapGet s4.roomSessions rid).getD []) c user) }
      let s6 : State :=
        if truthy userId then
          { s5 with rooms := rooms.addMember s5.rooms rid (userId.getD "") }
        else s5
      let e1 := emitSelf c
        (.roomJoined rid (jsOr room.code "") (jsOr room.language "javascript")
          (_memberList s6 rid))
      let e2 := emitOthers s6 c rid (.userJoined user)
      let e3 := emitAll s6 rid (.roomMembers (_memberList s6 rid))
      (s6, l.2 ++ [e1, e2, e3])

/-- The handler of `code-change` for connection `c` and payload `{ roomId, code, language }`. -/
def codeChange (s : State) (c : String) (roomId code language : Option String) :
    State × List Emit :=
  if !truthy roomId then (s, [])
  else
    let rid := roomId.getD ""
    let s1 : State := { s with rooms := rooms.update s.rooms rid code language }
    (s1, [emitOthers s1 c rid
      (.codeUpdate code language ((s1.conn c).sessionUser.map (fun u => u.userId)))])

/-- The handler of `request-code` for connection `c` and payload `{ roomId }`. -/
def requestCode (s : State) (c : String) (roomId : Option String) : State × List Emit :=
  match roomId with
  | none => (s, [])
  | some rid =>
    match rooms.findById s.rooms rid with
    | none => (s, [])
    | some room =>
      (s, [emitSelf c
        (.codeUpdate (some (jsOr room.code "")) (some (jsOr room.language "javascript")) none)])

/-- The entry `{ socketId, userId: sessionUser?.userId, name: sessionUser?.name || 'Anonymous' }`
built by `voice:join`. -/
def voiceEntryOf (s : State) (c : String) : VoiceEntry :=
  { socketId := c,
    userId := (s.conn c).sessionUser.map (fun u => u.userId),
    name := jsOr ((s.conn c).sessionUser.map (fun u => u.name)) "Anonymous" }

/-- The handler of `voice:join` for connection `c` and payload `{ roomId }`. -/
def voiceJoin (s : State) (c : String) (roomId : Option String) : State × List Emit :=
  if !truthy roomId then (s, [])
  else
    let rid := roomId.getD ""
    let s1 : State :=
      if mapHas s.voiceRooms rid then s
      else { s with voiceRooms := mapSet s.voiceRooms rid [] }
    let vRoom := (mapGet s1.voiceRooms rid).getD []
    let e1 := emitSelf c (.voiceCurrentUsers (mapValues vRoom))
    let e2 := emitOthers s1 c rid (.voiceUserJoined (voiceEntryOf s1 c))
    let s2 : State :=
      { s1 with voiceRooms := mapSet s1.voiceRooms rid (mapSet vRoom c (voiceEntryOf s1 c)) }
    (s2, [e1, e2])

/-- `_leaveVoice(roomId)` in the closure of connection `c`. -/
def _leaveVoice (s : State) (c : String) (roomId : Option String) : State × List Emit :=
  match roomId with
  | none => (s, [])
  | some rid =>
    match mapGet s.voiceRooms rid with
    | none => (s, [])
    | some vRoom =>
      let entry := mapGet vRoom c
      let vRoom1 := mapDelete vRoom c
      let s1 : State :=
        { s with voiceRooms :=
            if vRoom1.length = 0 then mapDelete s.voiceRooms rid
            else mapSet s.voiceRooms rid vRoom1 }
      match entry with
      | none => (s1, [])
      | some e =>
        (s1, [emitOthers s1 c rid
          (.voiceUserLeft { socketId := c, userId := e.userId, name := e.name })])

/-- The disconnect of connection `c`: socket.io takes the socket out of every room it had
joined, then the `disconnect` handler runs. -/
def disconnect (s : State) (c : String) : State × List Emit :=
  let s0 : State := { s with subs := sioLeaveAll s.subs c }
  let cur := (s0.conn c).currentRoomId
  if truthy cur then
    let v := _leaveVoice s0 c cur
    let l := _leaveRoom v.1 c (cur.getD "")
    (l.1, v.2 ++ l.2)
  else (s0, [])

/-- The `connection` event of socket `c` (`io.on('connection', socket => …)`): socket.io has
put the socket in the room of its own id, and the callback declares the closure variables
`currentRoomId` and `sessionUser` as `null` and registers the listeners. Socket ids are not
reused, so the closure is a new one: `State.conn` gives `null` for both variables of a socket
no listener has run for. -/
def connect (s : State) (c : String) : State × List Emit :=
  ({ s with subs := sioJoin s.subs c c }, [])

/-- Events the server handles: the connection of a socket, the events a connection sends, and
its disconnect. -/
inductive Event where
  | connect (c : String)
  | joinRoom (c : String) (roomId userId name avatar : Option String)
  | codeChange (c : String) (roomId code language : Option String)
  | requestCode (c : String) (roomId : Option String)
  | voiceJoin (c : String) (roomId : Option String)
  | voiceLeave (c : String) (roomId : Option String)
  | disconnect (c : String)
deriving DecidableEq, Repr

/-- One event handled by the server. -/
def step (s : State) : Event → State × List Emit
  | .connect c => connect s c
  | .joinRoom c roomId userId name avatar => joinRoom s c roomId userId name avatar
  | .codeChange c roomId code language => codeChange s c roomId code language
  | .requestCode c roomId => requestCode s c roomId
  | .voiceJoin c roomId => voiceJoin s c roomId
  | .voiceLeave c roomId => _leaveVoice s c roomId
  | .disconnect c => disconnect s c

/-- The state after a sequence of events, handled one at a time in arrival order. -/
def run (s : State) : List Event → State
  | [] => s
  | e :: es => run (step s e).1 es

/-- The presence map of room `r`: `roomSessions.get(r)`, and the empty map when
`roomSessions` has no entry for `r`. -/
def sessionOf (s : State) (r : String) : List (String × SessionUser) :=
  (mapGet s.roomSessions r).getD []

/-- Connection `c` is a key of room `r`'s map in `roomSessions`. -/
def isMember (s : State) (c r : String) : Prop :=
  c ∈ mapKeys (sessionOf s r)

instance (s : State) (c r : String) : Decidable (isMember s c r) :=
  inferInstanceAs (Decidable (c ∈ mapKeys (sessionOf s r)))

/-! ## The presence statements of the specification, in its own words -/

/-- A store with two rooms, used for concrete traces. -/
def exampleDb : List Room :=
  [{ id := "A", code := some "let a", language := some "javascript", members := [] },
   { id := "B", code := some "", language := some "python", members := [] }]

/-- Connections `s1` and `s2` both join room `A`. -/
def exampleJoins : List Event :=
  [.joinRoom "s1" (some "A") none none none, .joinRoom "s2" (some "A") (some "u2") none none]

/-- `P` is the list of the records of exactly the members of room `r` in state `s`: every
member appears once, with the record stored for it, and no other connection appears. -/
def ListsMembers (s : State) (r : String) (P : List SessionUser) : Prop :=
  (P.map (fun u => u.socketId)).Nodup ∧
  (∀ c, c ∈ P.map (fun u => u.socketId) ↔ isMember s c r) ∧
  (∀ c, c ∈ P.map (fun u => u.socketId) ↔ (s.conn c).currentRoomId = some r) ∧
  (∀ u, u ∈ P → mapGet (sessionOf s r) u.socketId = some u)

/-- One `code-change` of a sequence: the sending connection, the code and the language. -/
structure Change where
  conn : String
  code : Option String
  language : Option String
deriving DecidableEq, Repr

/-- The `code-change` event of `ch` naming room `r`. -/
def Change.event (r : String) (ch : Change) : Event :=
  .codeChange ch.conn (some r) ch.code ch.language

/-- The code of the last change of a sequence. -/
def lastCode (changes : List Change) : Option String :=
  match changes.getLast? with
  | some ch => ch.code
  | none => none

/-- The language of the last change that carried a non-empty language, and `earlier` when no
change did. -/
def lastLanguage (earlier : Option String) (changes : List Change) : Option String :=
  match (changes.filter (fun ch => truthy ch.language)).getLast? with
  | some ch => ch.language
  | none => earlier

/-- Two changes to room `A`, the second without a language. -/
def exampleChanges : List Change :=
  [{ conn := "s1", code := some "x = 1", language := some "python" },
   { conn := "s2", code := some "x = 2", language := none }]

/-! ## Proof-side decomposition of the handlers and the presence invariant -/

/-- The part of the `join-room` handler after the room was found (from `currentRoomId = roomId`
to the last emit), on the state the lookup left. -/
def joinCore (s : State) (c rid : String) (userId name avatar : Option String) (room : Room) :
    State × List Emit :=
  let s1 := s.setCurrentRoomId c (some rid)
  let s2 : State := { s1 with subs := sioJoin s1.subs c rid }
  let user : SessionUser :=
    { socketId := c, userId := jsOr userId c, name := jsOr name "Anonymous",
      avatar := jsOrNull avatar, color := (nextColor s2.colorIdx).1 }
  let s3 : State :=
    ({ s2 with colorIdx := (nextColor s2.colorIdx).2 }).setSessionUser c (some user)
  let s4 : State :=
    if mapHas s3.roomSessions rid then s3
    else { s3 with roomSessions := mapSet s3.roomSessions rid [] }
  let s5 : State :=
    { s4 with roomSessions :=
        mapSet s4.roomSessions rid (mapSet ((mapGet s4.roomSessions rid).getD []) c user) }
  let s6 : State :=
    if truthy userId then
      { s5 with rooms := rooms.addMember s5.rooms rid (userId.getD "") }
    else s5
  let e1 := emitSelf c
    (.roomJoined rid (jsOr room.code "") (jsOr room.language "javascript")
      (_memberList s6 rid))
  let e2 := emitOthers s6 c rid (.userJoined user)
  let e3 := emitAll s6 rid (.roomMembers (_memberList s6 rid))
  (s6, [e1, e2, e3])

/-- The state and emits of the implicit leave at the start of the `join-room` handler. -/
def joinLeave (s : State) (c : String) : State × List Emit :=
  if truthy (s.conn c).currentRoomId then _leaveRoom s c ((s.conn c).currentRoomId.getD "")
  else (s, [])

/-- The record `join-room` builds for the connection. -/
def joinUser (s : State) (c : String) (userId name avatar : Option String) : SessionUser :=
  { socketId := c, userId := jsOr userId c, name := jsOr name "Anonymous",
    avatar := jsOrNull avatar, color := (nextColor s.colorIdx).1 }

/-- The presence invariant: membership in `roomSessions` mirrors `currentRoomId`, a current
room id is never the empty string, every presence map has distinct keys and stores under a
socket id the record of that socket. -/
structure InvCore (s : State) : Prop where
  member_iff : ∀ c r, c ∈ mapKeys (sessionOf s r) ↔ (s.conn c).currentRoomId = some r
  cur_ne : ∀ c, (s.conn c).currentRoomId ≠ some ""
  nodup : ∀ r, (mapKeys (sessionOf s r)).Nodup
  recId : ∀ r e, e ∈ sessionOf s r → e.2.socketId = e.1

/-- Every member of a room is subscribed to the socket.io room of the same id. -/
def InvSubs (s : State) : Prop :=
  ∀ c r, c ∈ mapKeys (sessionOf s r) → (c, r) ∈ s.subs

/-- The state in which the `disconnect` handler calls `_leaveRoom`. -/
def disconnectMid (s : State) (c : String) : State :=
  (_leaveVoice { s with subs := sioLeaveAll s.subs c } c (s.conn c).currentRoomId).1

/-- The invariant of the presence state, with the socket.io subscriptions. -/
def Inv (s : State) : Prop := InvCore s ∧ InvSubs s

/-- The fields `rooms.update` writes for one change. -/
def applyChange (room : Room) (ch : Change) : Room :=
  { room with code := ch.code,
              language := if truthy ch.language then ch.language else room.language }

/-! ## JavaScript strings and regular expressions

Strings are lists of characters. The regular expressions of `socket.js` use literal
characters, character classes, `?`, `+` on a class, alternation, one capture group, `^` and
`\b`; `Rx` has exactly these, and `ends` lists the positions a backtracking matcher reaches, in
the order it tries them. -/

/-- The class `\s`, which is also what `trim()` strips: white space and line terminators. -/
def isSpace (c : Char) : Bool :=
  c.toNat ∈ [9, 10, 11, 12, 13, 32, 160, 5760, 8232, 8233, 8239, 8287, 12288, 65279] ||
    (8192 ≤ c.toNat && c.toNat ≤ 8202)

/-- The class `\w`: `[A-Za-z0-9_]`. -/
def isWord (c : Char) : Bool :=
  (48 ≤ c.toNat && c.toNat ≤ 57) || (65 ≤ c.toNat && c.toNat ≤ 90) || c.toNat = 95 ||
    (97 ≤ c.toNat && c.toNat ≤ 122)

/-- The class `[a-z0-9+]`. -/
def isKeyChar (c : Char) : Bool :=
  (97 ≤ c.toNat && c.toNat ≤ 122) || (48 ≤ c.toNat && c.toNat ≤ 57) || c.toNat = 43

/-- `Canonicalize` of a regular expression with the `i` flag and without the `u` flag, as a
code point: ASCII letters are upper-cased; a character from U+0080 on never canonicalizes to
an ASCII character, which is all a comparison with an ASCII pattern character needs, and is
left as it is. -/
def canonicalize (c : Char) : Nat :=
  if 97 ≤ c.toNat ∧ c.toNat ≤ 122 then c.toNat - 32 else c.toNat

/-- A position of the matcher: the characters before it (nearest first), the characters after
it, and the text captured by group 1. -/
structure Pos where
  before : List Char
  after : List Char
  cap : Option (List Char)
deriving DecidableEq, Repr

/-- Regular expressions. -/
inductive Rx where
  | lit (cs : List Char)
  | cls (p : Char → Bool)
  | plus (p : Char → Bool)
  | opt (a : Rx)
  | seq (a b : Rx)
  | alt (a b : Rx)
  | group (a : Rx)
  | bol
  | wordB

/-- Matching the pattern characters `cs` one after the other; `ic` is the `i` flag. -/
def litEnds (ic : Bool) : List Char → Pos → List Pos
  | [], pos => [pos]
  | c :: cs, pos =>
    match pos.after with
    | [] => []
    | x :: rest =>
      if (if ic then canonicalize x = canonicalize c else x = c) then
        litEnds ic cs { pos with before := x :: pos.before, after := rest }
      else []

/-- The positions `[class]+` reaches, greedy: the longest run first. -/
def plusEnds (p : Char → Bool) (before : List Char) (cap : Option (List Char)) :
    List Char → List Pos
  | [] => []
  | x :: rest =>
    if p x then
      plusEnds p (x :: before) cap rest ++ [{ before := x :: before, after := rest, cap := cap }]
    else []

/-- The positions a backtracking match of the expression from `pos` reaches, in the order the
matcher tries them. -/
def ends (ic : Bool) : Rx → Pos → List Pos
  | .lit cs, pos => litEnds ic cs pos
  | .cls p, pos =>
    match pos.after with
    | [] => []
    | x :: rest => if p x then [{ pos with before := x :: pos.before, after := rest }] else []
  | .plus p, pos => plusEnds p pos.before pos.cap pos.after
  | .opt a, pos => ends ic a pos ++ [pos]
  | .seq a b, pos => (ends ic a pos).flatMap (ends ic b)
  | .alt a b, pos => ends ic a pos ++ ends ic b pos
  | .group a, pos =>
    (ends ic a pos).map
      (fun q => { q with cap := some (pos.after.take (pos.after.length - q.after.length)) })
  | .bol, pos => if pos.before = [] then [pos] else []
  | .wordB, pos =>
    if (pos.before.head?.map isWord).getD false ≠ (pos.after.head?.map isWord).getD false
    then [pos] else []

/-- The first match at the current position or at a later one: what `exec` finds for an
expression without the `g` and `y` flags. -/
def search (ic : Bool) (rx : Rx) : List Char → List Char → Option Pos
  | before, [] => (ends ic rx { before := before, after := [], cap := none }).head?
  | before, x :: rest =>
    match (ends ic rx { before := before, after := x :: rest, cap := none }).head? with
    | some q => some q
    | none => search ic rx (x :: before) rest

/-- `rx.test(s)`. -/
def test (ic : Bool) (rx : Rx) (s : List Char) : Bool :=
  (search ic rx [] s).isSome

/-- The loop of `s.replace(rx, repl)` for an expression with the `g` flag; `skip` counts the
characters of the current match still to pass. -/
def replaceGo (rx : Rx) (repl : List Char) : Nat → List Char → List Char → List Char
  | _, before, [] =>
    match (ends false rx { before := before, after := [], cap := none }).head? with
    | some _ => repl
    | none => []
  | skip + 1, before, x :: rest => replaceGo rx repl skip (x :: before) rest
  | 0, before, x :: rest =>
    match (ends false rx { before := before, after := x :: rest, cap := none }).head? with
    | none => x :: replaceGo rx repl 0 (x :: before) rest
    | some q =>
      if (x :: rest).length - q.after.length = 0 then
        repl ++ x :: replaceGo rx repl 0 (x :: before) rest
      else repl ++ replaceGo rx repl ((x :: rest).length - q.after.length - 1) (x :: before) rest

/-- `s.replace(rx, repl)` for an expression with the `g` flag. -/
def replaceAll (rx : Rx) (repl : List Char) (s : List Char) : List Char :=
  replaceGo rx repl 0 [] s

/-- The loop of `s.split(rx)`; `seg` is the piece being collected (last character first) and
`skip` counts the characters of the current separator still to pass. -/
def splitGo (rx : Rx) : Nat → List Char → List Char → List Char → List (List Char)
  | _, seg, _, [] => [seg.reverse]
  | skip + 1, seg, before, x :: rest => splitGo rx skip seg (x :: before) rest
  | 0, seg, before, x :: rest =>
    match (ends false rx { before := before, after := x :: rest, cap := none }).head? with
    | none => splitGo rx 0 (x :: seg) (x :: before) rest
    | some q =>
      if (x :: rest).length - q.after.length = 0 then
        if seg = [] then splitGo rx 0 [x] (x :: before) rest
        else seg.reverse :: splitGo rx 0 [x] (x :: before) rest
      else
        seg.reverse :: splitGo rx ((x :: rest).length - q.after.length - 1) [] (x :: before) rest

/-- `s.split(rx)`. -/
def split (rx : Rx) (s : List Char) : List (List Char) :=
  match s with
  | [] =>
    match (ends false rx { before := [], after := [], cap := none }).head? with
    | some _ => []
    | none => [[]]
  | _ => splitGo rx 0 [] [] s

/-- `s.trim()`. -/
def jsTrim (s : List Char) : List Char :=
  ((s.dropWhile isSpace).reverse.dropWhile isSpace).reverse

/-- `s.toLowerCase()` on one character. Only `A`–`Z`, U+0130 and U+212A lower-case to text with
an ASCII character in it; every other character from U+0080 on lower-cases to characters from
U+0080 on, which the only caller deletes, and is left as it is. -/
def lowerChar (c : Char) : List Char :=
  if c.isUpper then [c.toLower]
  else if c.toNat = 304 then ['i', Char.ofNat 775]
  else if c.toNat = 8490 then ['k']
  else [c]

/-- `s.toLowerCase()`. -/
def toLowerCase (s : List Char) : List Char :=
  s.flatMap lowerChar

/-- `s.split(' ')[0]`. -/
def beforeFirstBlank (s : List Char) : List Char :=
  s.takeWhile (fun c => c ≠ ' ')

/-- `s.replace(pat, '')` for a string pattern: the first occurrence of `pat` is removed. -/
def removeFirst (pat : List Char) : List Char → List Char
  | [] => []
  | x :: rest =>
    if pat.isPrefixOf (x :: rest) then (x :: rest).drop pat.length
    else x :: removeFirst pat rest

/-! ## socket.js: the terminal -/

/-- What the handler takes from Node: `process.platform === 'win32'`, `os.tmpdir()`,
`path.join`, `path.dirname`, and the two textual rewrites `pre` of the `typescript` and `tsx`
recipes, whose result no statement below depends on. -/
structure Env where
  win32 : Bool
  tmpDir : String
  pathJoin : String → String → String
  pathDirname : String → String
  tsPre : String → String
  tsxPre : String → String

/-- An entry of `LANG_MAP`: `{ ext, cmd, pre }`. -/
structure Recipe where
  ext : String
  cmd : Env → String → String × List String
  pre : Option (Env → String → String)

/-- The `cmd` of the recipes that compile with `cc` and run the binary (`c`, `c++`, `cpp`). -/
def compileCmd (cc ext : String) (env : Env) (f : String) : String × List String :=
  let out := String.mk (removeFirst ext.toList f.toList)
  if env.win32 then
    ("cmd", ["/c", cc ++ " \"" ++ f ++ "\" -o \"" ++ out ++ ".exe\" && \"" ++ out ++ ".exe\""])
  else
    ("bash", ["-c", cc ++ " \"" ++ f ++ "\" -o \"" ++ out ++ "\" && \"" ++ out ++ "\""])

/-- The own properties of `LANG_MAP`, in source order. -/
def LANG_MAP : List (String × Recipe) :=
  [("javascript", { ext := "js", cmd := fun _ f => ("node", [f]), pre := none }),
   ("typescript", { ext := "ts", cmd := fun _ f => ("node", ["--input-type=module", f]),
                    pre := some (fun env c => env.tsPre c) }),
   ("tsx", { ext := "js", cmd := fun _ f => ("node", [f]),
             pre := some (fun env c => env.tsxPre c) }),
   ("jsx", { ext := "js", cmd := fun _ f => ("node", [f]), pre := none }),
   ("python", { ext := "py",
                cmd := fun env f => (if env.win32 then "python" else "python3", [f]),
                pre := none }),
   ("python3", { ext := "py",
                 cmd := fun env f => (if env.win32 then "python" else "python3", [f]),
                 pre := none }),
   ("go", { ext := "go", cmd := fun _ f => ("go", ["run", f]), pre := none }),
   ("java", { ext := "java",
              cmd := fun env f =>
                ("bash", ["-c", "cd \"" ++ env.pathDirname f ++ "\" && javac \"" ++ f ++
                  "\" && java -cp \"" ++ env.pathDirname f ++ "\" $(basename \"" ++ f ++
                  "\" .java)"]),
              pre := none }),
   ("c", { ext := "c", cmd := compileCmd "gcc" ".c", pre := none }),
   ("c++", { ext := "cpp", cmd := compileCmd "g++" ".cpp", pre := none }),
   ("cpp", { ext := "cpp", cmd := compileCmd "g++" ".cpp", pre := none }),
   ("rust", { ext := "rs",
              cmd := fun _ f =>
                ("bash", ["-c", "rustc \"" ++ f ++ "\" -o \"" ++
                  String.mk (removeFirst ".rs".toList f.toList) ++ "\" && \"" ++
                  String.mk (removeFirst ".rs".toList f.toList) ++ "\""]),
              pre := none }),
   ("php", { ext := "php", cmd := fun _ f => ("php", [f]), pre := none }),
   ("ruby", { ext := "rb", cmd := fun _ f => ("ruby", [f]), pre := none }),
   ("bash", { ext := "sh", cmd := fun _ f => ("bash", [f]), pre := none }),
   ("shell", { ext := "sh", cmd := fun _ f => ("bash", [f]), pre := none }),
   ("powershell", { ext := "ps1",
                    cmd := fun _ f => ("powershell", ["-ExecutionPolicy", "Bypass", "-File", f]),
                    pre := none }),
   ("lua", { ext := "lua", cmd := fun _ f => ("lua", [f]), pre := none }),
   ("r", { ext := "r", cmd := fun _ f => ("Rscript", [f]), pre := none }),
   ("kotlin", { ext := "kts", cmd := fun _ f => ("kotlinc", ["-script", f]), pre := none }),
   ("swift", { ext := "swift", cmd := fun _ f => ("swift", [f]), pre := none }),
   ("perl", { ext := "pl", cmd := fun _ f => ("perl", [f]), pre := none })]

/-- The property names every object literal inherits from `Object.prototype`. -/
def OBJECT_PROTOTYPE : List String :=
  ["constructor", "__defineGetter__", "__defineSetter__", "hasOwnProperty", "__lookupGetter__",
   "__lookupSetter__", "isPrototypeOf", "propertyIsEnumerable", "toString", "valueOf",
   "__proto__", "toLocaleString"]

/-- The value of a property read `LANG_MAP[key]`. -/
inductive Looked where
  | own (r : Recipe)
  | inherited
  | undefined

/-- `LANG_MAP[key]`: an own property, else a property inherited from `Object.prototype` (a
function or an object, truthy, without `ext`, `cmd` or `pre`), else `undefined`. -/
def langMapGet (key : String) : Looked :=
  match mapGet LANG_MAP key with
  | some r => .own r
  | none => if key ∈ OBJECT_PROTOTYPE then .inherited else .undefined

/-- The alternatives of `SAFE_CMD`:
`node|nodemon|npm|npx|python3?|go|java|javac|gcc|g\+\+|rustc|cargo|php|ruby|bash|sh|lua|Rscript|perl|swift|echo|dir|ls|pwd|cat|type|git|pip3?|mvn|gradle`. -/
def SAFE_NAMES : Rx :=
  .alt (.lit "node".toList) <| .alt (.lit "nodemon".toList) <| .alt (.lit "npm".toList) <|
  .alt (.lit "npx".toList) <| .alt (.seq (.lit "python".toList) (.opt (.lit "3".toList))) <|
  .alt (.lit "go".toList) <| .alt (.lit "java".toList) <| .alt (.lit "javac".toList) <|
  .alt (.lit "gcc".toList) <| .alt (.lit "g++".toList) <| .alt (.lit "rustc".toList) <|
  .alt (.lit "cargo".toList) <| .alt (.lit "php".toList) <| .alt (.lit "ruby".toList) <|
  .alt (.lit "bash".toList) <| .alt (.lit "sh".toList) <| .alt (.lit "lua".toList) <|
  .alt (.lit "Rscript".toList) <| .alt (.lit "perl".toList) <| .alt (.lit "swift".toList) <|
  .alt (.lit "echo".toList) <| .alt (.lit "dir".toList) <| .alt (.lit "ls".toList) <|
  .alt (.lit "pwd".toList) <| .alt (.lit "cat".toList) <| .alt (.lit "type".toList) <|
  .alt (.lit "git".toList) <| .alt (.seq (.lit "pip".toList) (.opt (.lit "3".toList))) <|
  .alt (.lit "mvn".toList) (.lit "gradle".toList)

/-- `SAFE_CMD`: `/^(…)\b/i` over the alternatives `SAFE_NAMES`. -/
def SAFE_CMD : Rx :=
  .seq .bol (.seq (.group SAFE_NAMES) .wordB)

/-- The separator `/\s+/` of `command.trim().split(/\s+/)`. -/
def WHITESPACE : Rx := .plus isSpace

/-- The expression `/[^a-z0-9+]/g` of the language key. -/
def NOT_KEY_CHAR : Rx := .cls (fun c => !isKeyChar c)

/-- The expression `/public\s+class\s+(\w+)/`. -/
def PUBLIC_CLASS : Rx :=
  .seq (.lit "public".toList) <| .seq (.plus isSpace) <| .seq (.lit "class".toList) <|
    .seq (.plus isSpace) (.group (.plus isWord))

/-- `(language || 'javascript').toLowerCase().replace(/[^a-z0-9+]/g, '')`. -/
def langKey (language : Option String) : String :=
  String.mk (replaceAll NOT_KEY_CHAR [] (toLowerCase (jsOr language "javascript").toList))

/-- The name stem of the temp file: `sk_${socket.id}`, and for the key `java` the text captured
by `src.match(/public\s+class\s+(\w+)/)`, or `Main` without a match. -/
def filename (socketId key src : String) : String :=
  if key = "java" then
    match search false PUBLIC_CLASS [] src.toList with
    | some m => String.mk (m.cap.getD "undefined".toList)
    | none => "Main"
  else "sk_" ++ socketId

/-- The closure variable `_activeProc` (a process handle), and the handle the next `spawn`
returns. -/
structure Term where
  _activeProc : Option Nat
  nextPid : Nat
deriving DecidableEq, Repr

/-- What a terminal handler or listener does, in order. `spawn` carries the temp file its
`close` listener unlinks, `setTimeout` the process whose timer is armed; `throwTypeError` ends a
handler that called something that is not a function. `exit code` is the event
`terminal:exit { code }` with a number, `exitNull` the same event with `code: null` (what
`close` reports for a process ended by a signal). -/
inductive Action where
  | kill (pid : Nat) (signal : String)
  | output (data type : String)
  | exit (code : Int)
  | writeFile (file data : String)
  | spawn (pid : Nat) (bin : String) (args : List String) (cwd : String) (shell : Bool)
      (unlinkOnClose : Option String)
  | setTimeout (pid ms : Nat)
  | throwTypeError
  | exitNull
  | unlink (file : String)
  | clearTimeout (pid : Nat)
  | stdinWrite (pid : Nat) (data : String)
deriving DecidableEq, Repr

/-- The first statement of `terminal:run`: a running process is sent `SIGTERM`. -/
def killPrevious (t : Term) : List Action :=
  match t._activeProc with
  | some p => [.kill p "SIGTERM"]
  | none => []

/-- The text of the `terminal:output` event of a rejected command. -/
def deniedMessage (command : String) : String :=
  "Permission denied: \"" ++ String.mk (beforeFirstBlank (jsTrim command.toList)) ++
    "\" is not in the allowed list.\nAllowed: node, python, go, java, gcc, g++, php, ruby, " ++
    "bash, git, pip, npm, npx…\n"

/-- The handler of `terminal:run` for connection `socketId` and payload
`{ code, language, command }`. -/
def terminalRun (env : Env) (socketId : String) (t : Term)
    (code language command : Option String) : Term × List Action :=
  let killed := killPrevious t
  let t0 : Term := { t with _activeProc := none }
  if truthy command then
    let cmd := command.getD ""
    if !test true SAFE_CMD (jsTrim cmd.toList) then
      (t0, killed ++ [.output (deniedMessage cmd) "stderr", .exit 1])
    else
      let parts := (split WHITESPACE (jsTrim cmd.toList)).map String.mk
      ({ _activeProc := some t0.nextPid, nextPid := t0.nextPid + 1 },
        killed ++ [.spawn t0.nextPid (parts.headD "") parts.tail env.tmpDir env.win32 none,
          .setTimeout t0.nextPid 30000])
  else if truthy code then
    let key := langKey language
    let looked : Looked :=
      match langMapGet key with
      | .undefined => langMapGet "javascript"
      | l => l
    match looked with
    | .own d =>
      let src :=
        match d.pre with
        | some pre => pre env (code.getD "")
        | none => code.getD ""
      let file := env.pathJoin env.tmpDir (filename socketId key src ++ "." ++ d.ext)
      ({ _activeProc := some t0.nextPid, nextPid := t0.nextPid + 1 },
        killed ++ [.writeFile file src,
          .spawn t0.nextPid (d.cmd env file).1 (d.cmd env file).2 env.tmpDir env.win32
            (some file),
          .setTimeout t0.nextPid 30000])
    | _ =>
      let src := code.getD ""
      let file := env.pathJoin env.tmpDir (filename socketId key src ++ "." ++ "undefined")
      (t0, killed ++ [.writeFile file src, .throwTypeError])
  else (t0, killed ++ [.exit 0])

/-- A Linux host with `/tmp` as the scratch directory. -/
def exampleEnv : Env :=
  { win32 := false, tmpDir := "/tmp", pathJoin := fun d f => d ++ "/" ++ f,
    pathDirname := fun _ => "/tmp", tsPre := fun c => c, tsxPre := fun c => c }

/-- No process is running. -/
def idle : Term := { _activeProc := none, nextPid := 0 }

/-! ## The terminal statements of the specification, in its own words -/

/-- The program names the specification lists as allowed. -/
def ALLOWLIST : List String :=
  ["node", "nodemon", "npm", "npx", "python", "python3", "go", "java", "javac", "gcc", "g++",
   "rustc", "cargo", "php", "ruby", "bash", "sh", "lua", "Rscript", "perl", "swift", "echo",
   "dir", "ls", "pwd", "cat", "type", "git", "pip", "pip3", "mvn", "gradle"]

/-- Two texts are equal when compared case-insensitively. -/
def sameIgnoringCase (a b : List Char) : Bool :=
  a.map canonicalize = b.map canonicalize

/-- The first whitespace-delimited token of a command line, after trimming. -/
def firstToken (command : String) : List Char :=
  (jsTrim command.toList).takeWhile (fun c => !isSpace c)

/-- The first token of the command line is, compared case-insensitively, an allowlisted
program name. -/
def firstTokenAllowed (command : String) : Bool :=
  ALLOWLIST.any (fun name => sameIgnoringCase name.toList (firstToken command))

/-- The leading name of a command line: the longest run of letters, digits and underscores at
the start of the trimmed line. -/
def leadingName (command : String) : List Char :=
  (jsTrim command.toList).takeWhile isWord

/-- The leading name of the command line is, compared case-insensitively, an allowlisted
program name. -/
def leadingNameAllowed (command : String) : Bool :=
  ALLOWLIST.any (fun name => sameIgnoringCase name.toList (leadingName command))

/-- The trimmed command line starts with `g++` followed by a letter, digit or underscore. -/
def gppThenWord (command : String) : Bool :=
  match jsTrim command.toList with
  | g :: p1 :: p2 :: w :: _ => canonicalize g = 71 && p1 = '+' && p2 = '+' && isWord w
  | _ => false

/-- A language label after lower-casing and deleting every character that is not a letter
or a digit. -/
def alphanumericKey (label : String) : List Char :=
  (toLowerCase label.toList).filter (fun c => isWord c && c ≠ '_')

/-- A language label after lower-casing and deleting every character that is not a lower-case
letter, a digit or a plus sign. -/
def plusKey (label : String) : List Char :=
  (toLowerCase label.toList).filter isKeyChar

/-- The source `src` has, after the text `pre`, an occurrence of `public`, whitespace,
`class`, whitespace, identifier, whose identifier is `ident`. -/
def PublicClassAt (src pre ident : List Char) : Prop :=
  ∃ ws1 ws2 rest,
    src = pre ++ ("public".toList ++ (ws1 ++ ("class".toList ++ (ws2 ++ (ident ++ rest))))) ∧
    ws1 ≠ [] ∧ (∀ c ∈ ws1, isSpace c = true) ∧ ws2 ≠ [] ∧ (∀ c ∈ ws2, isSpace c = true) ∧
    ident ≠ [] ∧ (∀ c ∈ ident, isWord c = true) ∧ (∀ c ∈ rest.head?, isWord c = false)

/-! ## Proof-side definitions for the matcher -/

/-- The pattern characters `cs` match at the start of `s`; `ic` is the `i` flag. -/
def startsWith (ic : Bool) : List Char → List Char → Bool
  | [], _ => true
  | _ :: _, [] => false
  | c :: cs, x :: rest =>
    (if ic then decide (canonicalize x = canonicalize c) else decide (x = c)) &&
      startsWith ic cs rest

/-- The texts an expression without classes, `+`, `^` and `\b` can match. -/
def words : Rx → List (List Char)
  | .lit cs => [cs]
  | .opt a => words a ++ [[]]
  | .seq a b => (words a).flatMap (fun u => (words b).map (fun v => u ++ v))
  | .alt a b => words a ++ words b
  | .group a => words a
  | _ => []

/-- The expression has no class, `+`, `^` or `\b`. -/
def plain : Rx → Bool
  | .lit _ => true
  | .opt a => plain a
  | .seq a b => plain a && plain b
  | .alt a b => plain a && plain b
  | .group a => plain a
  | _ => false

/-- Position `q` is `pos` after the text `w` was matched. -/
def Advanced (ic : Bool) (pos q : Pos) (w : List Char) : Prop :=
  startsWith ic w pos.after = true ∧
    q.before = (pos.after.take w.length).reverse ++ pos.before ∧
    q.after = pos.after.drop w.length

/-- The `\b` test after the first `n` characters of `s`. -/
def boundaryAfter (s : List Char) (n : Nat) : Prop :=
  (((s.take n).reverse.head?).map isWord).getD false ≠
    (((s.drop n).head?).map isWord).getD false

/-- The identifier `/public\s+class\s+(\w+)/` captures when it matches at the very start of
`after`, computed by a direct scan. -/
def classNameAt (after : List Char) : Option (List Char) :=
  if startsWith false "public".toList after then
    if ((after.drop 6).takeWhile isSpace) = [] then none
    else if startsWith false "class".toList ((after.drop 6).dropWhile isSpace) then
      if ((((after.drop 6).dropWhile isSpace).drop 5).takeWhile isSpace) = [] then none
      else if
        (((((after.drop 6).dropWhile isSpace).drop 5).dropWhile isSpace).takeWhile isWord) = []
      then none
      else
        some (((((after.drop 6).dropWhile isSpace).drop 5).dropWhile isSpace).takeWhile isWord)
    else none
  else none

/-! ## socket.js: the processes of a connection -/

/-- A process `terminal:run` spawned, with what its listeners and timer close over: the temp
file of the `close` listener of a code run, whether the timer `killer` is still pending,
whether `close` was emitted, and whether Node has destroyed the `stdin` stream. -/
structure Proc where
  pid : Nat
  file : Option String
  timer : Bool
  closed : Bool
  stdinDestroyed : Bool
deriving DecidableEq, Repr

/-- The terminal side of one connection: the closure variable `_activeProc` and the processes
spawned so far. -/
structure TermState where
  term : Term
  procs : List Proc
deriving DecidableEq, Repr

/-- A connection that has run nothing yet. -/
def TermState.init : TermState := { term := idle, procs := [] }

/-- The process with handle `pid`. -/
def TermState.proc? (ts : TermState) (pid : Nat) : Option Proc :=
  ts.procs.find? (fun p => p.pid == pid)

/-- The process `pid` is replaced by `f pid`. -/
def TermState.update (ts : TermState) (pid : Nat) (f : Proc → Proc) : TermState :=
  { ts with procs := ts.procs.map (fun p => if p.pid = pid then f p else p) }

/-- Assignment to `_activeProc`. -/
def TermState.setActive (ts : TermState) (a : Option Nat) : TermState :=
  { ts with term := { ts.term with _activeProc := a } }

/-- The processes a run of the handler spawned, each with its timer pending. -/
def spawned : List Action → List Proc
  | [] => []
  | .spawn pid _ _ _ _ file :: as =>
    { pid := pid, file := file, timer := true, closed := false, stdinDestroyed := false } ::
      spawned as
  | _ :: as => spawned as

/-- What happens on the terminal side of a connection: the three client events, and what Node
reports about a spawned process (data on `stdout` or `stderr`, the exit that destroys `stdin`,
`close` with the exit code or `null`, `error` with the fields `code`, `path` and `message` of
the error object) and the expiry of the timer armed for it. -/
inductive TermEvent where
  | run (code language command : Option String)
  | input (data : String)
  | kill
  | stdout (pid : Nat) (data : String)
  | stderr (pid : Nat) (data : String)
  | exited (pid : Nat)
  | close (pid : Nat) (code : Option Int)
  | error (pid : Nat) (code path message : String)
  | timeout (pid : Nat)
deriving DecidableEq, Repr

/-- The event `terminal:exit { code: c }` of the `close` listener. -/
def exitOf : Option Int → Action
  | some c => .exit c
  | none => .exitNull

/-- The text after `e.message` in the `error` listener. -/
def errorHint (code path : String) : String :=
  if code = "ENOENT" then " — \"" ++ path ++ "\" is not installed or not in PATH." else ""

/-- The handler of `terminal:input`. -/
def terminalInput (ts : TermState) (data : String) : TermState × List Action :=
  match ts.term._activeProc with
  | none => (ts, [])
  | some p =>
    match ts.proc? p with
    | some pr => if pr.stdinDestroyed then (ts, []) else (ts, [.stdinWrite p data])
    | none => (ts, [])

/-- The handler of `terminal:kill`. -/
def terminalKill (ts : TermState) : TermState × List Action :=
  match ts.term._activeProc with
  | some p =>
    (ts.setActive none, [.kill p "SIGTERM", .output "\n^C\n" "system", .exit 130])
  | none => (ts, [])

/-- The `close` listeners of process `pr`, in the order they were registered: the unlink of
the temp file (code runs only), the listener that empties `_activeProc` and sends
`terminal:exit`, and `clearTimeout(killer)`. -/
def onClose (ts : TermState) (pr : Proc) (code : Option Int) : TermState × List Action :=
  (((ts.setActive none).update pr.pid
      (fun p => { p with closed := true, timer := false })),
    (match pr.file with
      | some f => [.unlink f]
      | none => []) ++ [exitOf code, .clearTimeout pr.pid])

/-- The `error` listener. -/
def onError (ts : TermState) (code path message : String) : TermState × List Action :=
  (ts.setActive none,
    [.output ("Error: " ++ message ++ errorHint code path ++ "\n") "stderr", .exit 1])

/-- The callback of the timer `killer` armed for process `pid`; `kill()` without an argument
sends `SIGTERM`. -/
def onTimeout (ts : TermState) (pid : Nat) : TermState × List Action :=
  let msg : Action := .output "\n[Killed: 30s timeout]\n" "system"
  let ts1 := ts.update pid (fun p => { p with timer := false })
  match ts.term._activeProc with
  | some q => (ts1.setActive none, [.kill q "SIGTERM", msg])
  | none => (ts1, [msg])

/-- One event on the terminal side of connection `socketId`. An event of a process that was
never spawned or has closed, and the expiry of a timer that was cleared or has fired, do not
happen: the state stays as it is. -/
def termStep (env : Env) (socketId : String) (ts : TermState) :
    TermEvent → TermState × List Action
  | .run code language command =>
    let r := terminalRun env socketId ts.term code language command
    ({ term := r.1, procs := ts.procs ++ spawned r.2 }, r.2)
  | .input data => terminalInput ts data
  | .kill => terminalKill ts
  | .stdout pid data =>
    match ts.proc? pid with
    | some pr => if pr.closed then (ts, []) else (ts, [.output data "stdout"])
    | none => (ts, [])
  | .stderr pid data =>
    match ts.proc? pid with
    | some pr => if pr.closed then (ts, []) else (ts, [.output data "stderr"])
    | none => (ts, [])
  | .exited pid => (ts.update pid (fun p => { p with stdinDestroyed := true }), [])
  | .close pid code =>
    match ts.proc? pid with
    | some pr => if pr.closed then (ts, []) else onClose ts pr code
    | none => (ts, [])
  | .error pid code path message =>
    match ts.proc? pid with
    | some pr => if pr.closed then (ts, []) else onError ts code path message
    | none => (ts, [])
  | .timeout pid =>
    match ts.proc? pid with
    | some pr => if pr.timer then onTimeout ts pid else (ts, [])
    | none => (ts, [])

/-- A sequence of terminal events of one connection, with everything done along the way. -/
def termRun (env : Env) (socketId : String) (ts : TermState) :
    List TermEvent → TermState × List Action
  | [] => (ts, [])
  | e :: es =>
    let r := termStep env socketId ts e
    let rest := termRun env socketId r.1 es
    (rest.1, r.2 ++ rest.2)

/-- The server: the presence state and the terminal side of every connection. -/
structure Server where
  state : State
  terms : List (String × TermState)

/-- The terminal side of connection `c`. -/
def Server.term (sv : Server) (c : String) : TermState :=
  (mapGet sv.terms c).getD TermState.init

/-- An event the server handles: a presence event, or an event on the terminal side of
connection `c`. -/
inductive ServerEvent where
  | presence (e : Event)
  | terminal (c : String) (e : TermEvent)
deriving DecidableEq, Repr

/-- What the server did for one event: the events it sent and the actions of the terminal
handlers. -/
structure Done where
  emits : List Emit
  actions : List Action
deriving DecidableEq, Repr

/-- One event handled by the server. The presence handlers, `disconnect` among them, have no
statement that reads or writes `_activeProc`. -/
def serverStep (env : Env) (sv : Server) : ServerEvent → Server × Done
  | .presence e =>
    let r := step sv.state e
    ({ sv with state := r.1 }, { emits := r.2, actions := [] })
  | .terminal c e =>
    let r := termStep env c (sv.term c) e
    ({ sv with terms := mapSet sv.terms c r.1 }, { emits := [], actions := r.2 })

/-- A sequence of events handled by the server. -/
def serverRun (env : Env) (sv : Server) : List ServerEvent → Server
  | [] => sv
  | e :: es => serverRun env (serverStep env sv e).1 es

/-- Run A: an endless script. -/
def exampleRunA : TermEvent :=
  .run (some "while(true);") (some "javascript") none

/-- Two runs of an endless script, the second before the first has closed. -/
def exampleRuns : List TermEvent :=
  [exampleRunA, .run (some "for(;;);") (some "javascript") none]

/-- A server over the two example rooms on which `s1` has joined room `A` and started an
endless script. -/
def exampleServer : Server :=
  serverRun exampleEnv { state := State.init exampleDb, terms := [] }
    [.presence (.joinRoom "s1" (some "A") none none none),
     .terminal "s1" (.run (some "while(true);") (some "javascript") none)]

/-- A server on which `s2`, in no room, has started a command. -/
def exampleServerNoRoom : Server :=
  serverRun exampleEnv { state := State.init exampleDb, terms := [] }
    [.terminal "s2" (.run none none (some "node server.js"))]

/-! ## The voice and colour statements of the specification, in its own words -/

/-- The voice map of room `r`: `voiceRooms.get(r)`, and the empty map when `voiceRooms` has no
entry for `r`. -/
def voiceOf (s : State) (r : String) : List (String × VoiceEntry) :=
  (mapGet s.voiceRooms r).getD []

/-- Connection `c` is a key of room `r`'s map in `voiceRooms`. -/
def isVoiceMember (s : State) (c r : String) : Prop :=
  c ∈ mapKeys (voiceOf s r)

instance (s : State) (c r : String) : Decidable (isVoiceMember s c r) :=
  inferInstanceAs (Decidable (c ∈ mapKeys (voiceOf s r)))

/-- Neither `roomSessions` nor `voiceRooms` maps a room id to an empty map. -/
def NoEmptyMaps (s : State) : Prop :=
  (∀ e, e ∈ s.roomSessions → e.2 ≠ []) ∧ (∀ e, e ∈ s.voiceRooms → e.2 ≠ [])

/-- A `join-room` event that is not rejected: its room id is non-empty and the id of a stored
room. -/
def joinSucceeds (s : State) : Event → Bool
  | .joinRoom _ roomId _ _ _ =>
    truthy roomId && (rooms.findById s.rooms (roomId.getD "")).isSome
  | _ => false

/-- The colour of the record a handler announced with `user-joined`. -/
def joinedColor (es : List Emit) : Option String :=
  es.findSome? (fun e =>
    match e.msg with
    | .userJoined u => some u.color
    | _ => none)

/-- The colours the handlers gave along a sequence of events, in order. -/
def colorsAssigned (s : State) : List Event → List String
  | [] => []
  | e :: es => (joinedColor (step s e).2).toList ++ colorsAssigned (step s e).1 es

/-- Connection `s1` joins the voice room `A` without joining a code room, and disconnects. -/
def exampleVoiceOnly : List Event :=
  [.voiceJoin "s1" (some "A"), .disconnect "s1"]

/-- Connection `s1` joins the code room `A` and its voice room, moves to the code room `B`,
and disconnects. -/
def exampleVoiceMoved : List Event :=
  [.joinRoom "s1" (some "A") none none none, .voiceJoin "s1" (some "A"),
   .joinRoom "s1" (some "B") none none none, .disconnect "s1"]

/-- Ten successful joins by nine connections (the last one moves `c0` to room `B`), with two
rejected joins in between: one names an unknown room, one has no room id. -/
def exampleTenJoins : List Event :=
  [.joinRoom "c0" (some "A") none none none, .joinRoom "c1" (some "A") none none none,
   .joinRoom "c2" (some "B") none none none, .joinRoom "x" (some "Z") none none none,
   .joinRoom "c3" (some "A") none none none, .joinRoom "c4" (some "A") none none none,
   .joinRoom "c5" (some "A") none none none, .joinRoom "y" none none none none,
   .joinRoom "c6" (some "A") none none none, .joinRoom "c7" (some "A") none none none,
   .joinRoom "c8" (some "A") none none none, .joinRoom "c0" (some "B") none none none]

/-- `P` is the list of the entries of exactly the connections other than `c` that are
registered in the voice room `r` in state `s`: each of them appears once, with the entry stored
for it, and neither `c` nor any other connection appears. -/
def ListsVoiceOthers (s : State) (c r : String) (P : List VoiceEntry) : Prop :=
  (P.map (fun u => u.socketId)).Nodup ∧
  (∀ x, x ∈ P.map (fun u => u.socketId) ↔ isVoiceMember s x r ∧ x ≠ c) ∧
  (∀ u, u ∈ P → mapGet (voiceOf s r) u.socketId = some u)

/-- The `voice:current-users` replies among the events a handler sent, with their
recipients. -/
def currentUsersReplies (es : List Emit) : List (List String × List VoiceEntry) :=
  es.filterMap (fun e =>
    match e.msg with
    | .voiceCurrentUsers us => some (e.recipients, us)
    | _ => none)

/-- The `voice:user-joined` notifications among the events a handler sent, with their
recipients. -/
def userJoinedNotices (es : List Emit) : List (List String × VoiceEntry) :=
  es.filterMap (fun e =>
    match e.msg with
    | .voiceUserJoined u => some (e.recipients, u)
    | _ => none)

/-- The number of `join-room` events of a sequence that are not rejected. -/
def joinCount (s : State) : List Event → Nat
  | [] => 0
  | e :: es => (if joinSucceeds s e then 1 else 0) + joinCount (step s e).1 es

/-! ## Proof-side definitions for the voice maps -/

/-- The invariant of the voice state: every voice map has distinct keys and stores under a
socket id an entry of that socket. -/
def InvVoice (s : State) : Prop :=
  ∀ r, (mapKeys (voiceOf s r)).Nodup ∧ ∀ e, e ∈ voiceOf s r → e.2.socketId = e.1

/-! ## socket.js: the listeners of a connection -/

/-- The fields the presence listeners destructure from the payload of a client event. -/
structure Payload where
  roomId : Option String
  userId : Option String
  name : Option String
  avatar : Option String
  code : Option String
  language : Option String
deriving DecidableEq, Repr

/-- The listeners `socket.js` registers on a connection with `socket.on`, in source order. -/
inductive Listener where
  | joinRoom
  | codeChange
  | cursorMove
  | chatMessage
  | requestCode
  | voiceJoin
  | voiceLeave
  | voiceOffer
  | voiceAnswer
  | voiceIce
  | disconnect
  | terminalRun
  | terminalInput
  | terminalKill
deriving DecidableEq, Repr

/-- The listener registered for an event name: the first argument of each `socket.on` call of
`socket.js`. socket.io drops an event whose name has no listener. -/
def listenerOf (name : String) : Option Listener :=
  match name with
  | "join-room" => some .joinRoom
  | "code-change" => some .codeChange
  | "cursor-move" => some .cursorMove
  | "chat-message" => some .chatMessage
  | "request-code" => some .requestCode
  | "voice:join" => some .voiceJoin
  | "voice:leave" => some .voiceLeave
  | "voice:offer" => some .voiceOffer
  | "voice:answer" => some .voiceAnswer
  | "voice:ice" => some .voiceIce
  | "disconnect" => some .disconnect
  | "terminal:run" => some .terminalRun
  | "terminal:input" => some .terminalInput
  | "terminal:kill" => some .terminalKill
  | _ => none

/-- The presence state after connection `c` sent the event `name` with payload `p`. The
listeners of `cursor-move`, `chat-message`, `voice:offer`, `voice:answer` and `voice:ice` only
relay their payload, and the terminal listeners only use `_activeProc`: none of them assigns to
the presence state. -/
def receive (s : State) (c name : String) (p : Payload) : State :=
  match listenerOf name with
  | some .joinRoom => (joinRoom s c p.roomId p.userId p.name p.avatar).1
  | some .codeChange => (codeChange s c p.roomId p.code p.language).1
  | some .requestCode => (requestCode s c p.roomId).1
  | some .voiceJoin => (voiceJoin s c p.roomId).1
  | some .voiceLeave => (_leaveVoice s c p.roomId).1
  | some .disconnect => (disconnect s c).1
  | some _ => s
  | none => s

/-- The payload `{ roomId }`. -/
def Payload.room (r : String) : Payload :=
  { roomId := some r, userId := none, name := none, avatar := none, code := none,
    language := none }

/-! ## Exit events and temp files -/

/-- The action is a `terminal:exit` event. -/
def isExit : Action → Bool
  | .exit _ => true
  | .exitNull => true
  | _ => false

/-- The `terminal:exit` events among the actions, in order. -/
def exits (as : List Action) : List Action :=
  as.filter isExit

/-- The files of the temp directory that exist after the actions `as`, when the files `fs`
existed before: `fs.writeFileSync` creates the file (or overwrites it), `fs.unlinkSync` removes
it. What a spawned program does to the directory is not part of the model. -/
def filesAfter (fs : List String) : List Action → List String
  | [] => fs
  | .writeFile f _ :: as => filesAfter (if f ∈ fs then fs else fs ++ [f]) as
  | .unlink f :: as => filesAfter (fs.filter (fun g => decide (g ≠ f))) as
  | _ :: as => filesAfter fs as

/-- The paths the actions write with `fs.writeFileSync`, in order. -/
def writtenFiles : List Action → List String
  | [] => []
  | .writeFile f _ :: as => f :: writtenFiles as
  | _ :: as => writtenFiles as

/-- The recipe `def` of the code branch: `LANG_MAP[langKey] || LANG_MAP['javascript']`. -/
def recipeOf (key : String) : Looked :=
  match langMapGet key with
  | .undefined => langMapGet "javascript"
  | l => l

/-- The name `${filename}.${def.ext}` of the temp file of a code run of connection
`socketId`. -/
def tempName (env : Env) (socketId : String) (code language : Option String) : String :=
  match recipeOf (langKey language) with
  | .own d =>
    filename socketId (langKey language)
      (match d.pre with
        | some pre => pre env (code.getD "")
        | none => code.getD "") ++ "." ++ d.ext
  | _ => filename socketId (langKey language) (code.getD "") ++ "." ++ "undefined"

/-- A Java program with the public class `App`. -/
def exampleJava : String := "public class App { }"

/-! ## Proof-side definitions for the temp file -/

/-- The keys of `LANG_MAP` with their extensions. -/
def EXTENSIONS : List (String × String) :=
  LANG_MAP.map (fun e => (e.1, e.2.ext))

/-- The extension `def.ext` the code branch uses for a key, `undefined` when `def` is an
inherited property. -/
def extOf (key : String) : String :=
  match recipeOf key with
  | .own d => d.ext
  | _ => "undefined"

/-- The stem `filename` the code branch uses. -/
def stemOf (env : Env) (socketId : String) (code language : Option String) : String :=
  match recipeOf (langKey language) with
  | .own d =>
    filename socketId (langKey language)
      (match d.pre with
        | some pre => pre env (code.getD "")
        | none => code.getD "")
  | _ => filename socketId (langKey language) (code.getD "")

/-! # Theorems -/

/-! ## Maps and handler effects -/

theorem isMember_iff (s : State) (c r : String) :
    isMember s c r ↔ c ∈ mapKeys (sessionOf s r) := Iff.rfl

theorem mapGet_mapSet {V : Type} (m : List (String × V)) (k k' : String) (v : V) :
    mapGet (mapSet m k v) k' = if k = k' then some v else mapGet m k' := by
  induction m with
  | nil => simp [mapSet, mapGet]
  | cons e m ih =>
    obtain ⟨a, b⟩ := e
    by_cases h : a = k
    · subst h
      by_cases h' : a = k' <;> simp [mapSet, mapGet, h']
    · by_cases h' : a = k'
      · subst h'
        have : ¬ k = a := fun e => h e.symm
        simp [mapSet, mapGet, h, this]
      · simp [mapSet, mapGet, h, h', ih]

theorem mapGet_mapDelete {V : Type} (m : List (String × V)) (k k' : String) :
    mapGet (mapDelete m k) k' = if k = k' then none else mapGet m k' := by
  induction m with
  | nil => simp [mapDelete, mapGet]
  | cons e m ih =>
    obtain ⟨a, b⟩ := e
    simp only [mapDelete, ne_eq, decide_not] at ih ⊢
    by_cases h : a = k
    · subst h
      by_cases h' : a = k'
      · subst h'
        simpa [List.filter_cons] using ih
      · simp [mapGet, h', List.filter_cons, ih]
    · by_cases h' : a = k'
      · subst h'
        have : ¬ k = a := fun e => h e.symm
        simp [mapGet, h, this, List.filter_cons]
      · simp [mapGet, h, h', ih, List.filter_cons]

theorem mem_mapKeys {V : Type} (m : List (String × V)) (k : String) :
    k ∈ mapKeys m ↔ ∃ v, mapGet m k = some v := by
  induction m with
  | nil => simp [mapKeys, mapGet]
  | cons e m ih =>
    obtain ⟨a, b⟩ := e
    simp only [mapKeys] at ih
    by_cases h : a = k
    · simp [mapKeys, mapGet, h]
    · have : ¬ k = a := fun e => h e.symm
      simp [mapKeys, mapGet, h, this, ih]

theorem mem_mapKeys_mapSet {V : Type} (m : List (String × V)) (k k' : String) (v : V) :
    k' ∈ mapKeys (mapSet m k v) ↔ k' = k ∨ k' ∈ mapKeys m := by
  rw [mem_mapKeys, mem_mapKeys, mapGet_mapSet]
  by_cases h : k = k'
  · simp [h]
  · have : ¬ k' = k := fun e => h e.symm
    simp [h, this]

theorem mem_mapKeys_mapDelete {V : Type} (m : List (String × V)) (k k' : String) :
    k' ∈ mapKeys (mapDelete m k) ↔ k' ≠ k ∧ k' ∈ mapKeys m := by
  rw [mem_mapKeys, mem_mapKeys, mapGet_mapDelete]
  by_cases h : k = k'
  · simp [h]
  · have : ¬ k' = k := fun e => h e.symm
    simp [h, this]

theorem mapKeys_mapSet {V : Type} (m : List (String × V)) (k : String) (v : V) :
    mapKeys (mapSet m k v) = if k ∈ mapKeys m then mapKeys m else mapKeys m ++ [k] := by
  induction m with
  | nil => simp [mapSet, mapKeys]
  | cons e m ih =>
    obtain ⟨a, b⟩ := e
    simp only [mapKeys] at ih
    by_cases h : a = k
    · simp [mapSet, mapKeys, h]
    · have : ¬ k = a := fun e => h e.symm
      simp only [mapSet, mapKeys, h, if_false, List.map_cons, ih, List.mem_cons, this, false_or]
      split <;> simp

theorem nodup_mapKeys_mapSet {V : Type} (m : List (String × V)) (k : String) (v : V)
    (h : (mapKeys m).Nodup) : (mapKeys (mapSet m k v)).Nodup := by
  rw [mapKeys_mapSet]
  split
  · exact h
  · rename_i hk
    exact List.nodup_append.mpr ⟨h, List.nodup_singleton k, by
      intro a ha hb
      simp at hb
      exact hk (hb ▸ ha)⟩

theorem nodup_mapKeys_mapDelete {V : Type} (m : List (String × V)) (k : String)
    (h : (mapKeys m).Nodup) : (mapKeys (mapDelete m k)).Nodup := by
  unfold mapKeys mapDelete at *
  exact (List.filter_sublist m).map Prod.fst |>.nodup h

theorem mem_mapSet {V : Type} (m : List (String × V)) (k : String) (v : V) (e : String × V)
    (h : e ∈ mapSet m k v) : e = (k, v) ∨ e ∈ m := by
  induction m with
  | nil => simpa [mapSet] using h
  | cons x m ih =>
    obtain ⟨a, b⟩ := x
    by_cases hk : a = k
    · simp [mapSet, hk] at h
      rcases h with h | h
      · left; exact h
      · right; exact List.mem_cons_of_mem _ h
    · simp [mapSet, hk] at h
      rcases h with h | h
      · right; simp [h]
      · rcases ih h with h | h
        · left; exact h
        · right; exact List.mem_cons_of_mem _ h

theorem mem_mapDelete {V : Type} (m : List (String × V)) (k : String) (e : String × V)
    (h : e ∈ mapDelete m k) : e ∈ m := by
  unfold mapDelete at h
  exact (List.mem_filter.mp h).1

theorem conn_setCurrentRoomId (s : State) (c c' : String) (x : Option String) :
    (s.setCurrentRoomId c x).conn c' =
      if c = c' then { s.conn c with currentRoomId := x } else s.conn c' := by
  unfold State.setCurrentRoomId State.conn
  simp only [mapGet_mapSet]
  split <;> simp

theorem conn_setSessionUser (s : State) (c c' : String) (x : Option SessionUser) :
    (s.setSessionUser c x).conn c' =
      if c = c' then { s.conn c with sessionUser := x } else s.conn c' := by
  unfold State.setSessionUser State.conn
  simp only [mapGet_mapSet]
  split <;> simp

theorem mapDelete_length {V : Type} (m : List (String × V)) (k : String)
    (h : (mapDelete m k).length = 0) : mapDelete m k = [] :=
  List.length_eq_zero.mp h

theorem leaveRoom_roomSessions (s : State) (c r : String) :
    (_leaveRoom s c r).1.roomSessions =
      match mapGet s.roomSessions r with
      | none => s.roomSessions
      | some session =>
        if (mapDelete session c).length = 0 then mapDelete s.roomSessions r
        else mapSet s.roomSessions r (mapDelete session c) := by
  unfold _leaveRoom
  cases hg : mapGet s.roomSessions r with
  | none => simp only [hg]; split_ifs <;> rfl
  | some session =>
    cases hu : mapGet session c with
    | none => simp only [hg, hu]; split_ifs <;> rfl
    | some u => simp only [hg, hu]; split_ifs <;> rfl

theorem leaveRoom_conns (s : State) (c r : String) :
    (_leaveRoom s c r).1.conns =
      if (s.conn c).currentRoomId = some r then mapSet s.conns c { s.conn c with currentRoomId := none }
      else s.conns := by
  unfold _leaveRoom
  cases hg : mapGet s.roomSessions r with
  | none => simp only [hg]; split_ifs <;> first | rfl | (exfalso; simp_all [State.conn])
  | some session =>
    cases hu : mapGet session c with
    | none => simp only [hg, hu]; split_ifs <;> first | rfl | (exfalso; simp_all [State.conn])
    | some u => simp only [hg, hu]; split_ifs <;> first | rfl | (exfalso; simp_all [State.conn])

theorem leaveRoom_subs (s : State) (c r : String) :
    (_leaveRoom s c r).1.subs = sioLeave s.subs c r := by
  unfold _leaveRoom
  cases hg : mapGet s.roomSessions r with
  | none => simp only [hg]; split_ifs <;> rfl
  | some session =>
    cases hu : mapGet session c with
    | none => simp only [hg, hu]; split_ifs <;> rfl
    | some u => simp only [hg, hu]; split_ifs <;> rfl

theorem leaveRoom_voiceRooms (s : State) (c r : String) :
    (_leaveRoom s c r).1.voiceRooms = s.voiceRooms := by
  unfold _leaveRoom
  cases hg : mapGet s.roomSessions r with
  | none => simp only [hg]; split_ifs <;> rfl
  | some session =>
    cases hu : mapGet session c with
    | none => simp only [hg, hu]; split_ifs <;> rfl
    | some u => simp only [hg, hu]; split_ifs <;> rfl

theorem leaveRoom_colorIdx (s : State) (c r : String) :
    (_leaveRoom s c r).1.colorIdx = s.colorIdx := by
  unfold _leaveRoom
  cases hg : mapGet s.roomSessions r with
  | none => simp only [hg]; split_ifs <;> rfl
  | some session =>
    cases hu : mapGet session c with
    | none => simp only [hg, hu]; split_ifs <;> rfl
    | some u => simp only [hg, hu]; split_ifs <;> rfl

theorem leaveRoom_sessionOf (s : State) (c r r' : String) :
    sessionOf (_leaveRoom s c r).1 r' =
      if r' = r then mapDelete (sessionOf s r) c else sessionOf s r' := by
  unfold sessionOf
  rw [leaveRoom_roomSessions]
  cases hg : mapGet s.roomSessions r with
  | none =>
    have h0 : (mapDelete ([] : List (String × SessionUser)) c) = [] := rfl
    by_cases hr : r' = r
    · subst hr; simp [hg, h0]
    · simp [hr]
  | some session =>
    simp only []
    by_cases hr : r' = r
    · subst hr
      by_cases hl : (mapDelete session c).length = 0
      · simp [hl, mapGet_mapDelete, mapDelete_length _ _ hl]
      · simp [hl, mapGet_mapSet]
    · have hr' : ¬ r = r' := fun e => hr e.symm
      split_ifs <;> simp [mapGet_mapDelete, mapGet_mapSet, hr']

theorem conn_congr (s t : State) (h : s.conns = t.conns) (c : String) : s.conn c = t.conn c := by
  unfold State.conn; rw [h]

theorem leaveRoom_conn (s : State) (c r c' : String) :
    (_leaveRoom s c r).1.conn c' =
      if c' = c ∧ (s.conn c).currentRoomId = some r then { s.conn c with currentRoomId := none }
      else s.conn c' := by
  have h := leaveRoom_conns s c r
  by_cases hc : (s.conn c).currentRoomId = some r
  · rw [if_pos hc] at h
    have h2 : (_leaveRoom s c r).1.conn c' = (s.setCurrentRoomId c none).conn c' :=
      conn_congr _ _ h c'
    rw [h2, conn_setCurrentRoomId]
    by_cases hcc : c' = c
    · subst hcc; simp [hc]
    · have : ¬ c = c' := fun e => hcc e.symm
      simp [this, hcc]
  · rw [if_neg hc] at h
    rw [conn_congr _ _ h c']
    simp [hc]

theorem joinRoom_eq (s : State) (c : String) (roomId userId name avatar : Option String) :
    joinRoom s c roomId userId name avatar =
      if !truthy roomId then (s, [])
      else
        match rooms.findById (joinLeave s c).1.rooms (roomId.getD "") with
        | none => ((joinLeave s c).1, (joinLeave s c).2 ++ [emitSelf c (.error "Room not found.")])
        | some room =>
          ((joinCore (joinLeave s c).1 c (roomId.getD "") userId name avatar room).1,
            (joinLeave s c).2 ++
              (joinCore (joinLeave s c).1 c (roomId.getD "") userId name avatar room).2) := by
  rfl

theorem joinCore_roomSessions (s : State) (c rid : String) (userId name avatar : Option String)
    (room : Room) :
    (joinCore s c rid userId name avatar room).1.roomSessions =
      mapSet (if mapHas s.roomSessions rid then s.roomSessions else mapSet s.roomSessions rid [])
        rid (mapSet (sessionOf s rid) c (joinUser s c userId name avatar)) := by
  unfold joinCore sessionOf joinUser
  simp only [State.setCurrentRoomId, State.setSessionUser]
  split_ifs <;> simp_all [mapGet_mapSet, mapHas]

theorem joinCore_sessionOf (s : State) (c rid r' : String) (userId name avatar : Option String)
    (room : Room) :
    sessionOf (joinCore s c rid userId name avatar room).1 r' =
      if r' = rid then mapSet (sessionOf s rid) c (joinUser s c userId name avatar)
      else sessionOf s r' := by
  rw [sessionOf, joinCore_roomSessions]
  by_cases hr : r' = rid
  · subst hr; simp [mapGet_mapSet]
  · have : ¬ rid = r' := fun e => hr e.symm
    rw [mapGet_mapSet, if_neg this, if_neg hr]
    split_ifs
    · rfl
    · rw [mapGet_mapSet, if_neg this]; rfl

theorem joinCore_subs (s : State) (c rid : String) (userId name avatar : Option String)
    (room : Room) :
    (joinCore s c rid userId name avatar room).1.subs = sioJoin s.subs c rid := by
  unfold joinCore
  simp only [State.setCurrentRoomId, State.setSessionUser]
  split_ifs <;> rfl

theorem joinCore_conn (s : State) (c rid c' : String) (userId name avatar : Option String)
    (room : Room) :
    ((joinCore s c rid userId name avatar room).1.conn c').currentRoomId =
      if c' = c then some rid else (s.conn c').currentRoomId := by
  have h : (joinCore s c rid userId name avatar room).1.conns =
      ((s.setCurrentRoomId c (some rid)).setSessionUser c
        (some (joinUser s c userId name avatar))).conns := by
    unfold joinCore joinUser
    simp only [State.setCurrentRoomId, State.setSessionUser, State.conn]
    split_ifs <;> rfl
  rw [conn_congr _ _ h, conn_setSessionUser, conn_setCurrentRoomId]
  by_cases hc : c' = c
  · subst hc; simp
  · have : ¬ c = c' := fun e => hc e.symm
    simp [hc, this, conn_setCurrentRoomId]

/-! ## The presence invariant -/

theorem invCore_congr (s t : State) (h1 : t.roomSessions = s.roomSessions)
    (h2 : t.conns = s.conns) (h : InvCore s) : InvCore t := by
  have hs : ∀ r, sessionOf t r = sessionOf s r := fun r => by unfold sessionOf; rw [h1]
  have hc : ∀ c, t.conn c = s.conn c := fun c => conn_congr _ _ h2 c
  exact ⟨fun c r => by rw [hs, hc]; exact h.member_iff c r,
    fun c => by rw [hc]; exact h.cur_ne c,
    fun r => by rw [hs]; exact h.nodup r,
    fun r e he => h.recId r e (by rw [← hs]; exact he)⟩

theorem invSubs_congr (s t : State) (h1 : t.roomSessions = s.roomSessions)
    (h2 : t.subs = s.subs) (h : InvSubs s) : InvSubs t := by
  intro c r hm
  have hs : sessionOf t r = sessionOf s r := by unfold sessionOf; rw [h1]
  rw [h2]; exact h c r (by rw [← hs]; exact hm)

theorem invCore_init (db : List Room) : InvCore (State.init db) :=
  ⟨fun c r => by simp [State.init, sessionOf, mapGet, mapKeys, State.conn],
   fun c => by simp [State.init, State.conn, mapGet],
   fun r => by simp [State.init, sessionOf, mapGet, mapKeys],
   fun r e he => by simp [State.init, sessionOf, mapGet] at he⟩

theorem invSubs_init (db : List Room) : InvSubs (State.init db) := by
  intro c r h
  simp [State.init, sessionOf, mapGet, mapKeys] at h

theorem invCore_leaveRoom (s : State) (c r : String) (h : InvCore s) :
    InvCore (_leaveRoom s c r).1 := by
  refine ⟨fun c' r' => ?_, fun c' => ?_, fun r' => ?_, fun r' e he => ?_⟩
  · rw [leaveRoom_sessionOf, leaveRoom_conn]
    by_cases hr : r' = r
    · subst hr
      rw [if_pos rfl, mem_mapKeys_mapDelete, h.member_iff]
      by_cases hc : c' = c
      · subst hc
        by_cases hcur : (s.conn c').currentRoomId = some r' <;> simp [hcur]
      · simp [hc]
    · rw [if_neg hr, h.member_iff]
      by_cases hc : c' = c
      · subst hc
        by_cases hcur : (s.conn c').currentRoomId = some r
        · have : ¬ r = r' := fun e => hr e.symm
          simp [hcur, this]
        · simp [hcur]
      · simp [hc]
  · rw [leaveRoom_conn]
    split
    · simp
    · exact h.cur_ne c'
  · rw [leaveRoom_sessionOf]
    split
    · exact nodup_mapKeys_mapDelete _ _ (h.nodup r)
    · exact h.nodup r'
  · rw [leaveRoom_sessionOf] at he
    split at he
    · exact h.recId r e (mem_mapDelete _ _ _ he)
    · exact h.recId r' e he

theorem invSubs_leaveRoom (s : State) (c r : String) (h : InvSubs s) :
    InvSubs (_leaveRoom s c r).1 := by
  intro c' r' hm
  rw [leaveRoom_sessionOf] at hm
  rw [leaveRoom_subs]
  unfold sioLeave
  rw [List.mem_filter]
  by_cases hr : r' = r
  · subst hr
    rw [if_pos rfl, mem_mapKeys_mapDelete] at hm
    refine ⟨h c' r' hm.2, ?_⟩
    simp [hm.1]
  · rw [if_neg hr] at hm
    refine ⟨h c' r' hm, ?_⟩
    simp [hr]

theorem invCore_joinCore (s : State) (c rid : String) (userId name avatar : Option String)
    (room : Room) (h : InvCore s) (hcur : (s.conn c).currentRoomId = none) (hrid : rid ≠ "") :
    InvCore (joinCore s c rid userId name avatar room).1 := by
  refine ⟨fun c' r' => ?_, fun c' => ?_, fun r' => ?_, fun r' e he => ?_⟩
  · rw [joinCore_sessionOf, joinCore_conn]
    by_cases hr : r' = rid
    · subst hr
      rw [if_pos rfl, mem_mapKeys_mapSet, h.member_iff]
      by_cases hc : c' = c <;> simp [hc]
    · rw [if_neg hr, h.member_iff]
      by_cases hc : c' = c
      · subst hc
        have : ¬ rid = r' := fun e => hr e.symm
        simp [hcur, this]
      · simp [hc]
  · rw [joinCore_conn]
    split
    · simpa using hrid
    · exact h.cur_ne c'
  · rw [joinCore_sessionOf]
    split
    · exact nodup_mapKeys_mapSet _ _ _ (h.nodup rid)
    · exact h.nodup r'
  · rw [joinCore_sessionOf] at he
    split at he
    · rcases mem_mapSet _ _ _ _ he with h1 | h1
      · rw [h1]; rfl
      · exact h.recId rid e h1
    · exact h.recId r' e he

theorem invSubs_joinCore (s : State) (c rid : String) (userId name avatar : Option String)
    (room : Room) (h : InvSubs s) :
    InvSubs (joinCore s c rid userId name avatar room).1 := by
  intro c' r' hm
  rw [joinCore_sessionOf] at hm
  rw [joinCore_subs]
  unfold sioJoin
  by_cases hr : r' = rid
  · subst hr
    rw [if_pos rfl, mem_mapKeys_mapSet] at hm
    rcases hm with hm | hm
    · subst hm
      split
      · assumption
      · simp
    · split
      · exact h c' r' hm
      · exact List.mem_append_left _ (h c' r' hm)
  · rw [if_neg hr] at hm
    split
    · exact h c' r' hm
    · exact List.mem_append_left _ (h c' r' hm)

theorem truthy_some_iff (x : String) : truthy (some x) = true ↔ x ≠ "" := by
  simp [truthy]

theorem joinLeave_cur (s : State) (c : String) (h : InvCore s) :
    ((joinLeave s c).1.conn c).currentRoomId = none := by
  unfold joinLeave
  cases hcur : (s.conn c).currentRoomId with
  | none => simp [truthy, hcur]
  | some r =>
    have hne : r ≠ "" := fun e => h.cur_ne c (by rw [hcur, e])
    simp [truthy, hne, leaveRoom_conn, hcur]

theorem invCore_joinLeave (s : State) (c : String) (h : InvCore s) :
    InvCore (joinLeave s c).1 := by
  unfold joinLeave
  split
  · exact invCore_leaveRoom _ _ _ h
  · exact h

theorem invSubs_joinLeave (s : State) (c : String) (h : InvSubs s) :
    InvSubs (joinLeave s c).1 := by
  unfold joinLeave
  split
  · exact invSubs_leaveRoom _ _ _ h
  · exact h

theorem joinRoom_falsy (s : State) (c : String) (roomId userId name avatar : Option String)
    (h : truthy roomId = false) : joinRoom s c roomId userId name avatar = (s, []) := by
  rw [joinRoom_eq]; simp [h]

theorem joinRoom_notFound (s : State) (c rid : String) (userId name avatar : Option String)
    (hrid : rid ≠ "") (hf : rooms.findById (joinLeave s c).1.rooms rid = none) :
    joinRoom s c (some rid) userId name avatar =
      ((joinLeave s c).1, (joinLeave s c).2 ++ [emitSelf c (.error "Room not found.")]) := by
  rw [joinRoom_eq]; simp [truthy, hrid, hf]

theorem joinRoom_found (s : State) (c rid : String) (userId name avatar : Option String)
    (room : Room) (hrid : rid ≠ "") (hf : rooms.findById (joinLeave s c).1.rooms rid = some room) :
    joinRoom s c (some rid) userId name avatar =
      ((joinCore (joinLeave s c).1 c rid userId name avatar room).1,
        (joinLeave s c).2 ++ (joinCore (joinLeave s c).1 c rid userId name avatar room).2) := by
  rw [joinRoom_eq]; simp [truthy, hrid, hf]

theorem invCore_joinRoom (s : State) (c : String) (roomId userId name avatar : Option String)
    (h : InvCore s) : InvCore (joinRoom s c roomId userId name avatar).1 := by
  cases hr : roomId with
  | none => rw [joinRoom_falsy s c none userId name avatar rfl]; exact h
  | some rid =>
    by_cases hrid : rid = ""
    · rw [joinRoom_falsy _ _ _ _ _ _ (by simp [truthy, hrid])]; exact h
    · cases hf : rooms.findById (joinLeave s c).1.rooms rid with
      | none => rw [joinRoom_notFound _ _ _ _ _ _ hrid hf]; exact invCore_joinLeave _ _ h
      | some room =>
        rw [joinRoom_found _ _ _ _ _ _ _ hrid hf]
        exact invCore_joinCore _ _ _ _ _ _ room (invCore_joinLeave _ _ h) (joinLeave_cur _ _ h) hrid

theorem invSubs_joinRoom (s : State) (c : String) (roomId userId name avatar : Option String)
    (h : InvSubs s) : InvSubs (joinRoom s c roomId userId name avatar).1 := by
  cases hr : roomId with
  | none => rw [joinRoom_falsy s c none userId name avatar rfl]; exact h
  | some rid =>
    by_cases hrid : rid = ""
    · rw [joinRoom_falsy _ _ _ _ _ _ (by simp [truthy, hrid])]; exact h
    · cases hf : rooms.findById (joinLeave s c).1.rooms rid with
      | none => rw [joinRoom_notFound _ _ _ _ _ _ hrid hf]; exact invSubs_joinLeave _ _ h
      | some room =>
        rw [joinRoom_found _ _ _ _ _ _ _ hrid hf]
        exact invSubs_joinCore _ _ _ _ _ _ room (invSubs_joinLeave _ _ h)

theorem codeChange_fields (s : State) (c : String) (roomId code language : Option String) :
    (codeChange s c roomId code language).1.roomSessions = s.roomSessions ∧
    (codeChange s c roomId code language).1.conns = s.conns ∧
    (codeChange s c roomId code language).1.subs = s.subs := by
  unfold codeChange
  split <;> simp

theorem requestCode_state (s : State) (c : String) (roomId : Option String) :
    (requestCode s c roomId).1 = s := by
  unfold requestCode
  split
  · rfl
  · split <;> rfl

theorem voiceJoin_fields (s : State) (c : String) (roomId : Option String) :
    (voiceJoin s c roomId).1.roomSessions = s.roomSessions ∧
    (voiceJoin s c roomId).1.conns = s.conns ∧
    (voiceJoin s c roomId).1.subs = s.subs ∧
    (voiceJoin s c roomId).1.rooms = s.rooms := by
  unfold voiceJoin
  split
  · simp
  · simp only; split_ifs <;> simp

theorem leaveVoice_fields (s : State) (c : String) (roomId : Option String) :
    (_leaveVoice s c roomId).1.roomSessions = s.roomSessions ∧
    (_leaveVoice s c roomId).1.conns = s.conns ∧
    (_leaveVoice s c roomId).1.subs = s.subs ∧
    (_leaveVoice s c roomId).1.rooms = s.rooms := by
  unfold _leaveVoice
  cases roomId with
  | none => simp
  | some rid =>
    simp only
    cases mapGet s.voiceRooms rid with
    | none => simp
    | some vRoom =>
      simp only
      cases mapGet vRoom c <;> simp

theorem disconnect_eq (s : State) (c : String) :
    disconnect s c =
      if truthy (s.conn c).currentRoomId then
        ((_leaveRoom (disconnectMid s c) c ((s.conn c).currentRoomId.getD "")).1,
          (_leaveVoice { s with subs := sioLeaveAll s.subs c } c (s.conn c).currentRoomId).2 ++
            (_leaveRoom (disconnectMid s c) c ((s.conn c).currentRoomId.getD "")).2)
      else ({ s with subs := sioLeaveAll s.subs c }, []) := by
  rfl

theorem disconnectMid_fields (s : State) (c : String) :
    (disconnectMid s c).roomSessions = s.roomSessions ∧
    (disconnectMid s c).conns = s.conns ∧
    (disconnectMid s c).subs = sioLeaveAll s.subs c := by
  have h := leaveVoice_fields { s with subs := sioLeaveAll s.subs c } c (s.conn c).currentRoomId
  exact ⟨h.1, h.2.1, h.2.2.1⟩

theorem invCore_disconnect (s : State) (c : String) (h : InvCore s) :
    InvCore (disconnect s c).1 := by
  rw [disconnect_eq]
  split
  · exact invCore_leaveRoom _ _ _
      (invCore_congr s _ (disconnectMid_fields s c).1 (disconnectMid_fields s c).2.1 h)
  · exact invCore_congr s _ rfl rfl h

theorem invSubs_disconnect (s : State) (c : String) (hc : InvCore s) (h : InvSubs s) :
    InvSubs (disconnect s c).1 := by
  have hmid : InvCore (disconnectMid s c) :=
    invCore_congr s _ (disconnectMid_fields s c).1 (disconnectMid_fields s c).2.1 hc
  have hsess : ∀ r, sessionOf (disconnectMid s c) r = sessionOf s r := fun r => by
    unfold sessionOf; rw [(disconnectMid_fields s c).1]
  have hconn : (disconnectMid s c).conn c = s.conn c :=
    conn_congr _ _ (disconnectMid_fields s c).2.1 c
  rw [disconnect_eq]
  cases hcur : (s.conn c).currentRoomId with
  | none =>
    simp only [truthy, Bool.false_eq_true, if_false]
    intro c' r' hm
    have hm' : c' ∈ mapKeys (sessionOf s r') := hm
    have hne : c' ≠ c := by
      intro e
      subst e
      rw [hc.member_iff, hcur] at hm'
      exact absurd hm' (by simp)
    show (c', r') ∈ sioLeaveAll s.subs c
    unfold sioLeaveAll
    rw [List.mem_filter]
    exact ⟨h c' r' hm', by simp [hne]⟩
  | some r =>
    have hne : r ≠ "" := fun e => hc.cur_ne c (by rw [hcur, e])
    simp only [truthy, bne_iff_ne, ne_eq, hne, not_false_eq_true, decide_True, if_true,
      Option.getD_some]
    intro c' r' hm
    rw [leaveRoom_sessionOf, hsess, hsess] at hm
    rw [leaveRoom_subs, (disconnectMid_fields s c).2.2]
    have hm' : c' ∈ mapKeys (sessionOf s r') ∧ ¬ (c' = c ∧ r' = r) := by
      by_cases hr : r' = r
      · subst hr
        rw [if_pos rfl, mem_mapKeys_mapDelete] at hm
        exact ⟨hm.2, fun e => hm.1 e.1⟩
      · rw [if_neg hr] at hm
        exact ⟨hm, fun e => hr e.2⟩
    have hcne : c' ≠ c := by
      intro e
      subst e
      have := (hc.member_iff c' r').mp hm'.1
      rw [hcur] at this
      exact hm'.2 ⟨rfl, (Option.some.inj this).symm⟩
    unfold sioLeave sioLeaveAll
    rw [List.mem_filter, List.mem_filter]
    exact ⟨⟨h c' r' hm'.1, by simp [hcne]⟩, by simp [hcne]⟩

theorem mem_sioJoin (subs : List (String × String)) (c r : String) (p : String × String)
    (h : p ∈ subs) : p ∈ sioJoin subs c r := by
  unfold sioJoin
  split
  · exact h
  · exact List.mem_append_left _ h

theorem inv_step (s : State) (e : Event) (h : Inv s) : Inv (step s e).1 := by
  cases e with
  | connect c =>
    exact ⟨invCore_congr s _ rfl rfl h.1, fun c' r' hm => mem_sioJoin _ c c _ (h.2 c' r' hm)⟩
  | joinRoom c roomId userId name avatar =>
    exact ⟨invCore_joinRoom _ _ _ _ _ _ h.1, invSubs_joinRoom _ _ _ _ _ _ h.2⟩
  | codeChange c roomId code language =>
    have hf := codeChange_fields s c roomId code language
    exact ⟨invCore_congr s _ hf.1 hf.2.1 h.1, invSubs_congr s _ hf.1 hf.2.2 h.2⟩
  | requestCode c roomId =>
    show Inv (requestCode s c roomId).1
    rw [requestCode_state]; exact h
  | voiceJoin c roomId =>
    have hf := voiceJoin_fields s c roomId
    exact ⟨invCore_congr s _ hf.1 hf.2.1 h.1, invSubs_congr s _ hf.1 hf.2.2.1 h.2⟩
  | voiceLeave c roomId =>
    have hf := leaveVoice_fields s c roomId
    exact ⟨invCore_congr s _ hf.1 hf.2.1 h.1, invSubs_congr s _ hf.1 hf.2.2.1 h.2⟩
  | disconnect c =>
    exact ⟨invCore_disconnect _ _ h.1, invSubs_disconnect _ _ h.1 h.2⟩

theorem inv_run (s : State) (evs : List Event) (h : Inv s) : Inv (run s evs) := by
  induction evs generalizing s with
  | nil => exact h
  | cons e es ih => exact ih _ (inv_step s e h)

theorem inv_reach (db : List Room) (evs : List Event) : Inv (run (State.init db) evs) :=
  inv_run _ _ ⟨invCore_init db, invSubs_init db⟩

/-! ## C1: one room per connection -/

theorem run_append (s : State) (xs ys : List Event) :
    run s (xs ++ ys) = run (run s xs) ys := by
  induction xs generalizing s with
  | nil => rfl
  | cons e es ih => exact ih _

theorem findById_removeMember (db : List Room) (r u id : String) :
    (rooms.findById (rooms.removeMember db r u) id).isSome = (rooms.findById db id).isSome := by
  induction db with
  | nil => rfl
  | cons x xs ih =>
    unfold rooms.removeMember
    by_cases h : x.id = r
    · simp only [h, if_true]
      unfold rooms.findById
      simp only
      by_cases h2 : r = id
      · simp [h, h2]
      · simp [h, h2]
    · simp only [h, if_false]
      unfold rooms.findById
      by_cases h2 : x.id = id
      · simp [h2]
      · simp [h2, ih]

theorem leaveRoom_rooms (s : State) (c r : String) :
    (_leaveRoom s c r).1.rooms = s.rooms ∨
      ∃ u, (_leaveRoom s c r).1.rooms = rooms.removeMember s.rooms r u := by
  unfold _leaveRoom
  cases hg : mapGet s.roomSessions r with
  | none => simp only [hg]; split_ifs <;> exact Or.inl rfl
  | some session =>
    cases hu : mapGet session c with
    | none => simp only [hg, hu]; split_ifs <;> exact Or.inl rfl
    | some u =>
      simp only [hg, hu]
      split_ifs <;> first | exact Or.inl rfl | exact Or.inr ⟨_, rfl⟩

theorem joinLeave_findById (s : State) (c id : String) :
    (rooms.findById (joinLeave s c).1.rooms id).isSome = (rooms.findById s.rooms id).isSome := by
  unfold joinLeave
  split
  · rcases leaveRoom_rooms s c ((s.conn c).currentRoomId.getD "") with h | ⟨u, h⟩
    · rw [h]
    · rw [h, findById_removeMember]
  · rfl

/-- C1: after every sequence of events a connection id is a key of room `r`'s map in
`roomSessions` exactly when its `currentRoomId` is `r`, so it is a key of at most one room's
map; a connection in room `A` that successfully joins room `B` is afterwards a member of `B`
only. -/
theorem one_room_per_connection (db : List Room) (evs : List Event) :
    (∀ c r, isMember (run (State.init db) evs) c r ↔
      ((run (State.init db) evs).conn c).currentRoomId = some r) ∧
    (∀ c r r', isMember (run (State.init db) evs) c r →
      isMember (run (State.init db) evs) c r' → r = r') ∧
    (∀ c A B userId name avatar, isMember (run (State.init db) evs) c A → B ≠ "" →
      rooms.findById (run (State.init db) evs).rooms B ≠ none →
      ∀ r, isMember (step (run (State.init db) evs) (.joinRoom c (some B) userId name avatar)).1
        c r ↔ r = B) := by
  have hinv := inv_reach db evs
  refine ⟨hinv.1.member_iff, fun c r r' h1 h2 => ?_, ?_⟩
  · have e1 := (hinv.1.member_iff c r).mp h1
    have e2 := (hinv.1.member_iff c r').mp h2
    rw [e1] at e2
    exact Option.some.inj e2
  · intro c A B userId name avatar _ hB hfound r
    have hinv' : Inv (step (run (State.init db) evs) (.joinRoom c (some B) userId name avatar)).1 :=
      inv_step _ _ hinv
    have hsome : (rooms.findById (joinLeave (run (State.init db) evs) c).1.rooms B).isSome = true := by
      rw [joinLeave_findById]
      exact Option.isSome_iff_ne_none.mpr hfound
    obtain ⟨room, hroom⟩ := Option.isSome_iff_exists.mp hsome
    have hcur : ((step (run (State.init db) evs)
        (.joinRoom c (some B) userId name avatar)).1.conn c).currentRoomId = some B := by
      show ((joinRoom _ c (some B) userId name avatar).1.conn c).currentRoomId = some B
      rw [joinRoom_found _ _ _ _ _ _ room hB hroom, joinCore_conn]
      simp
    rw [isMember_iff, hinv'.1.member_iff, hcur]
    constructor
    · intro h; exact (Option.some.inj h).symm
    · intro h; rw [h]

/-- C1 on a concrete trace: `s1` is in room `A`, joins room `B`, and is then a member of `B`
and no longer of `A`. -/
theorem one_room_per_connection_witness :
    isMember (run (State.init exampleDb) exampleJoins) "s1" "A" ∧
    isMember (step (run (State.init exampleDb) exampleJoins)
      (.joinRoom "s1" (some "B") none none none)).1 "s1" "B" ∧
    ¬ isMember (step (run (State.init exampleDb) exampleJoins)
      (.joinRoom "s1" (some "B") none none none)).1 "s1" "A" :=
  have h := (one_room_per_connection exampleDb exampleJoins).2.2 "s1" "A" "B" none none none
    (by decide) (by decide) (by decide)
  ⟨by decide, (h "B").mpr rfl, fun hA => absurd ((h "A").mp hA) (by decide)⟩

/-! ## C2: the payload of `room-members` -/

theorem memberList_eq (s : State) (r : String) : _memberList s r = mapValues (sessionOf s r) := by
  unfold _memberList sessionOf
  cases mapGet s.roomSessions r <;> rfl

theorem mapGet_of_mem {V : Type} (m : List (String × V)) (e : String × V)
    (hn : (mapKeys m).Nodup) (he : e ∈ m) : mapGet m e.1 = some e.2 := by
  induction m with
  | nil => simp at he
  | cons x xs ih =>
    obtain ⟨a, b⟩ := x
    simp only [mapKeys, List.map_cons, List.nodup_cons] at hn
    rcases List.mem_cons.mp he with h | h
    · subst h; simp [mapGet]
    · have hne : a ≠ e.1 := by
        intro heq
        exact hn.1 (heq ▸ List.mem_map_of_mem Prod.fst h)
      simp only [mapGet, hne, if_false]
      exact ih hn.2 h

theorem listsMembers_memberList (s : State) (r : String) (h : InvCore s) :
    ListsMembers s r (_memberList s r) := by
  have hids : (_memberList s r).map (fun u => u.socketId) = mapKeys (sessionOf s r) := by
    rw [memberList_eq]
    unfold mapValues mapKeys
    rw [List.map_map]
    apply List.map_congr_left
    intro e he
    exact h.recId r e he
  refine ⟨?_, ?_, ?_, ?_⟩
  · rw [hids]; exact h.nodup r
  · intro c; rw [hids]; exact Iff.rfl
  · intro c; rw [hids]; exact h.member_iff c r
  · intro u hu
    rw [memberList_eq] at hu
    obtain ⟨e, he, rfl⟩ := List.mem_map.mp hu
    have := mapGet_of_mem _ e (h.nodup r) he
    rw [h.recId r e he]
    exact this

theorem memberList_congr (s t : State) (h : s.roomSessions = t.roomSessions) (r : String) :
    _memberList s r = _memberList t r := by
  unfold _memberList; rw [h]

theorem leaveRoom_emits (s : State) (c r : String) (e : Emit) (P : List SessionUser)
    (he : e ∈ (_leaveRoom s c r).2) (hP : e.msg = .roomMembers P) :
    e.target = .all r ∧ P = _memberList (_leaveRoom s c r).1 r := by
  have hrs := leaveRoom_roomSessions s c r
  unfold _leaveRoom at he
  cases hg : mapGet s.roomSessions r with
  | none => simp [hg] at he
  | some session =>
    cases hu : mapGet session c with
    | none => simp [hg, hu] at he
    | some u =>
      simp only [hg, hu, List.mem_cons, List.mem_singleton, List.not_mem_nil, or_false] at he
      rcases he with he | he
      · rw [he] at hP; simp [emitOthers] at hP
      · rw [he] at hP
        simp only [emitAll, Msg.roomMembers.injEq] at hP
        refine ⟨by rw [he]; rfl, ?_⟩
        rw [← hP]
        apply memberList_congr
        rw [hrs, hg]

theorem leaveRoom_listsMembers (s : State) (c r : String) (h : InvCore s) (e : Emit)
    (P : List SessionUser) (he : e ∈ (_leaveRoom s c r).2) (hP : e.msg = .roomMembers P) :
    e.target = .all r ∧ ListsMembers (_leaveRoom s c r).1 r P ∧
      c ∉ P.map (fun u => u.socketId) := by
  obtain ⟨ht, hPeq⟩ := leaveRoom_emits s c r e P he hP
  have hl := listsMembers_memberList _ r (invCore_leaveRoom s c r h)
  rw [← hPeq] at hl
  refine ⟨ht, hl, ?_⟩
  rw [hl.2.1, isMember_iff, leaveRoom_sessionOf, if_pos rfl, mem_mapKeys_mapDelete]
  simp

theorem leaveVoice_emits (s : State) (c : String) (roomId : Option String) (e : Emit)
    (he : e ∈ (_leaveVoice s c roomId).2) : ∃ x, e.msg = .voiceUserLeft x := by
  unfold _leaveVoice at he
  cases roomId with
  | none => simp at he
  | some rid =>
    simp only at he
    cases hg : mapGet s.voiceRooms rid with
    | none => simp [hg] at he
    | some vRoom =>
      cases hu : mapGet vRoom c with
      | none => simp [hg, hu] at he
      | some x =>
        simp only [hg, hu, List.mem_singleton] at he
        exact ⟨_, by rw [he]; rfl⟩

/-- C2: in every reachable state, the payload of a `room-members` event broadcast for room
`r` lists exactly the members of `r` at that moment, each once and with its stored record:
after a leave (`_leaveRoom`) the members left in `r`, without the leaving connection; after a
join the members of the joined room; after a disconnect the members left in the room. -/
theorem room_members_payload_exact (db : List Room) (evs : List Event) :
    (∀ c r e P, e ∈ (_leaveRoom (run (State.init db) evs) c r).2 → e.msg = .roomMembers P →
      e.target = .all r ∧ ListsMembers (_leaveRoom (run (State.init db) evs) c r).1 r P ∧
        c ∉ P.map (fun u => u.socketId)) ∧
    (∀ c roomId userId name avatar e P,
      e ∈ (step (run (State.init db) evs) (.joinRoom c roomId userId name avatar)).2 →
      e.msg = .roomMembers P →
      (∃ A, ((run (State.init db) evs).conn c).currentRoomId = some A ∧
        e ∈ (_leaveRoom (run (State.init db) evs) c A).2) ∨
      (∃ rid, roomId = some rid ∧ e.target = .all rid ∧
        ListsMembers (step (run (State.init db) evs) (.joinRoom c roomId userId name avatar)).1
          rid P ∧ c ∈ P.map (fun u => u.socketId))) ∧
    (∀ c e P, e ∈ (step (run (State.init db) evs) (.disconnect c)).2 → e.msg = .roomMembers P →
      ∃ r, e.target = .all r ∧
        ListsMembers (step (run (State.init db) evs) (.disconnect c)).1 r P ∧
        c ∉ P.map (fun u => u.socketId)) := by
  have hinv := inv_reach db evs
  generalize run (State.init db) evs = s at hinv
  refine ⟨fun c r e P he hP => leaveRoom_listsMembers s c r hinv.1 e P he hP, ?_, ?_⟩
  · intro c roomId userId name avatar e P he hP
    have hpost : InvCore (step s (.joinRoom c roomId userId name avatar)).1 :=
      (inv_step s _ hinv).1
    have hleave : e ∈ (joinLeave s c).2 →
        ∃ A, (s.conn c).currentRoomId = some A ∧ e ∈ (_leaveRoom s c A).2 := by
      intro h
      unfold joinLeave at h
      cases hcur : (s.conn c).currentRoomId with
      | none => simp [hcur, truthy] at h
      | some A =>
        rw [hcur] at h
        split at h
        · exact ⟨A, rfl, h⟩
        · simp at h
    change e ∈ (joinRoom s c roomId userId name avatar).2 at he
    change _ ∨ ∃ rid, _ ∧ _ ∧ ListsMembers (joinRoom s c roomId userId name avatar).1 rid P ∧ _
    change InvCore (joinRoom s c roomId userId name avatar).1 at hpost
    cases hr : roomId with
    | none => rw [hr, joinRoom_falsy s c none userId name avatar rfl] at he; simp at he
    | some rid =>
      rw [hr] at he hpost
      by_cases hrid : rid = ""
      · rw [joinRoom_falsy _ _ _ _ _ _ (by simp [truthy, hrid])] at he; simp at he
      · cases hf : rooms.findById (joinLeave s c).1.rooms rid with
        | none =>
          rw [joinRoom_notFound _ _ _ _ _ _ hrid hf] at he
          rcases List.mem_append.mp he with h | h
          · exact Or.inl (hleave h)
          · simp only [List.mem_singleton] at h
            rw [h] at hP; simp [emitSelf] at hP
        | some room =>
          rw [joinRoom_found _ _ _ _ _ _ room hrid hf] at he hpost ⊢
          rcases List.mem_append.mp he with h | h
          · exact Or.inl (hleave h)
          · right
            have h3 : (joinCore (joinLeave s c).1 c rid userId name avatar room).2 =
                [emitSelf c (.roomJoined rid (jsOr room.code "") (jsOr room.language "javascript")
                    (_memberList (joinCore (joinLeave s c).1 c rid userId name avatar room).1 rid)),
                  emitOthers (joinCore (joinLeave s c).1 c rid userId name avatar room).1 c rid
                    (.userJoined (joinUser (joinLeave s c).1 c userId name avatar)),
                  emitAll (joinCore (joinLeave s c).1 c rid userId name avatar room).1 rid
                    (.roomMembers
                      (_memberList (joinCore (joinLeave s c).1 c rid userId name avatar room).1
                        rid))] := rfl
            rw [h3] at h
            simp only [List.mem_cons, List.mem_singleton, List.not_mem_nil, or_false] at h
            rcases h with h | h | h
            · rw [h] at hP; simp [emitSelf] at hP
            · rw [h] at hP; simp [emitOthers] at hP
            · rw [h] at hP
              simp only [emitAll, Msg.roomMembers.injEq] at hP
              have hl := listsMembers_memberList _ rid hpost
              rw [hP] at hl
              refine ⟨rid, rfl, by rw [h]; rfl, hl, ?_⟩
              apply (hl.2.2.1 c).mpr
              show ((joinCore (joinLeave s c).1 c rid userId name avatar room).1.conn
                c).currentRoomId = some rid
              rw [joinCore_conn]
              simp
  · intro c e P he hP
    change e ∈ (disconnect s c).2 at he
    change ∃ r, _ ∧ ListsMembers (disconnect s c).1 r P ∧ _
    have hmid : InvCore (disconnectMid s c) :=
      invCore_congr s _ (disconnectMid_fields s c).1 (disconnectMid_fields s c).2.1 hinv.1
    rw [disconnect_eq] at he ⊢
    split at he
    · rename_i ht
      simp only [ht, if_true] 
      rcases List.mem_append.mp he with h | h
      · obtain ⟨x, hx⟩ := leaveVoice_emits _ _ _ _ h
        rw [hx] at hP; simp at hP
      · exact ⟨_, leaveRoom_listsMembers _ _ _ hmid e P h hP⟩
    · simp at he

/-- C2 on a concrete trace: `s1` and `s2` are in room `A`; when `s1` disconnects, the
`room-members` event broadcast to room `A` lists `s2` alone. -/
theorem room_members_payload_exact_witness :
    ∃ r, Target.all "A" = Target.all r ∧
      ListsMembers (step (run (State.init exampleDb) exampleJoins) (.disconnect "s1")).1 r
        [{ socketId := "s2", userId := "u2", name := "Anonymous", avatar := none,
           color := "#8B5CF6" }] ∧
      "s1" ∉ ([{ socketId := "s2", userId := "u2", name := "Anonymous", avatar := none,
                 color := "#8B5CF6" }] : List SessionUser).map (fun u => u.socketId) :=
  (room_members_payload_exact exampleDb exampleJoins).2.2 "s1"
    { target := .all "A", recipients := ["s2"],
      msg := .roomMembers [{ socketId := "s2", userId := "u2", name := "Anonymous",
                             avatar := none, color := "#8B5CF6" }] }
    [{ socketId := "s2", userId := "u2", name := "Anonymous", avatar := none,
       color := "#8B5CF6" }]
    (by decide) rfl

/-! ## C3: `join-room` with an unknown room id -/

/-- C3 fails: `s1` is in room `A` and asks to join the unknown room `Z`; it gets the error
but has also left `A` (its presence record and subscription are gone, `user-left` and
`room-members` were broadcast to `s2`). A `join-room` without a room id gets no error event. -/
theorem join_unknown_room_counterexample :
    rooms.findById (run (State.init exampleDb) exampleJoins).rooms "Z" = none ∧
    isMember (run (State.init exampleDb) exampleJoins) "s1" "A" ∧
    ¬ isMember (step (run (State.init exampleDb) exampleJoins)
      (.joinRoom "s1" (some "Z") none none none)).1 "s1" "A" ∧
    ((step (run (State.init exampleDb) exampleJoins)
      (.joinRoom "s1" (some "Z") none none none)).2.map (fun e => (e.recipients, e.msg)) =
      [(["s2"], .userLeft
          { socketId := "s1", userId := "s1", name := "Anonymous", avatar := none,
            color := "#FFD700" }),
       (["s2"], .roomMembers
          [{ socketId := "s2", userId := "u2", name := "Anonymous", avatar := none,
             color := "#8B5CF6" }]),
       (["s1"], .error "Room not found.")]) ∧
    (step (run (State.init exampleDb) exampleJoins) (.joinRoom "s1" none none none none)).2 = [] := by
  decide

/-- C3, amended: for a connection that is in no room, a `join-room` whose room id is non-empty
and not the id of a stored room emits the error event to the sender and nothing else, and leaves
the whole state as it was; a `join-room` whose room id is missing or empty emits nothing and
changes nothing. -/
theorem join_unknown_room :
    (∀ (s : State) (c rid : String) (userId name avatar : Option String),
      (s.conn c).currentRoomId = none → rid ≠ "" → rooms.findById s.rooms rid = none →
      step s (.joinRoom c (some rid) userId name avatar) =
        (s, [{ target := .self c, recipients := [c], msg := .error "Room not found." }])) ∧
    (∀ (s : State) (c : String) (roomId userId name avatar : Option String),
      truthy roomId = false → step s (.joinRoom c roomId userId name avatar) = (s, [])) := by
  constructor
  · intro s c rid userId name avatar hcur hrid hf
    have hl : joinLeave s c = (s, []) := by
      unfold joinLeave; simp [hcur, truthy]
    show joinRoom s c (some rid) userId name avatar = _
    rw [joinRoom_notFound _ _ _ _ _ _ hrid (by rw [hl]; exact hf), hl]
    rfl
  · intro s c roomId userId name avatar h
    exact joinRoom_falsy _ _ _ _ _ _ h

/-- C3, amended, on a concrete state: `s3` is in no room and asks for the unknown room `Z`. -/
theorem join_unknown_room_witness :
    step (run (State.init exampleDb) exampleJoins) (.joinRoom "s3" (some "Z") none none none) =
      (run (State.init exampleDb) exampleJoins,
        [{ target := .self "s3", recipients := ["s3"], msg := .error "Room not found." }]) :=
  join_unknown_room.1 (run (State.init exampleDb) exampleJoins) "s3" "Z" none none none
    (by decide) (by decide) (by decide)

/-! ## C4: `code-change` reaches the other members -/

theorem mem_subscribers (subs : List (String × String)) (c room : String) :
    c ∈ subscribers subs room ↔ (c, room) ∈ subs := by
  unfold subscribers
  simp only [List.mem_map, List.mem_filter, decide_eq_true_eq]
  constructor
  · rintro ⟨⟨a, b⟩, ⟨hm, hb⟩, ha⟩
    simp only at hb ha
    subst hb; subst ha; exact hm
  · intro h
    exact ⟨(c, room), ⟨h, rfl⟩, rfl⟩

/-- C4: when a member `X` of room `r` sends `code-change` for `r`, the handler emits one
`code-update` with the same code and language; every other member of `r` is among its
recipients and `X` is not. -/
theorem code_change_reaches_others (db : List Room) (evs : List Event) (X r : String)
    (code language : Option String) (hX : isMember (run (State.init db) evs) X r) :
    ∃ e, (step (run (State.init db) evs) (.codeChange X (some r) code language)).2 = [e] ∧
      (∃ f, e.msg = .codeUpdate code language f) ∧
      (∀ c, c ≠ X → isMember (run (State.init db) evs) c r → c ∈ e.recipients) ∧
      X ∉ e.recipients := by
  have hinv := inv_reach db evs
  generalize run (State.init db) evs = s at hinv hX
  have hr : r ≠ "" := by
    intro e
    have := (hinv.1.member_iff X r).mp hX
    exact hinv.1.cur_ne X (by rw [this, e])
  have hstep : (step s (.codeChange X (some r) code language)).2 =
      [emitOthers { s with rooms := rooms.update s.rooms r code language } X r
        (.codeUpdate code language
          (({ s with rooms := rooms.update s.rooms r code language } : State).conn X
            |>.sessionUser.map (fun u => u.userId)))] := by
    show (codeChange s X (some r) code language).2 = _
    unfold codeChange
    simp [truthy, hr]
  refine ⟨_, hstep, ⟨_, rfl⟩, ?_, ?_⟩
  · intro c hc hm
    simp only [emitOthers, List.mem_filter, mem_subscribers, decide_eq_true_eq]
    exact ⟨hinv.2 c r hm, hc⟩
  · simp [emitOthers]

/-- C4 on a concrete trace: `s1` and `s2` are in room `A` and `s1` sends a change. -/
theorem code_change_reaches_others_witness :
    ∃ e, (step (run (State.init exampleDb) exampleJoins)
        (.codeChange "s1" (some "A") (some "x") (some "python"))).2 = [e] ∧
      (∃ f, e.msg = .codeUpdate (some "x") (some "python") f) ∧
      (∀ c, c ≠ "s1" → isMember (run (State.init exampleDb) exampleJoins) c "A" →
        c ∈ e.recipients) ∧
      "s1" ∉ e.recipients :=
  code_change_reaches_others exampleDb exampleJoins "s1" "A" (some "x") (some "python")
    (by decide)

/-! ## C5: last write wins -/

theorem findById_roomsUpdate (db : List Room) (r : String) (room0 : Room)
    (code language : Option String) (h : rooms.findById db r = some room0) :
    rooms.findById (rooms.update db r code language) r =
      some { room0 with code := code,
                        language := if truthy language then language else room0.language } := by
  induction db with
  | nil => simp [rooms.findById] at h
  | cons x xs ih =>
    unfold rooms.findById at h
    unfold rooms.update
    by_cases hx : x.id = r
    · simp only [hx, if_true, Option.some.injEq] at h
      subst h
      simp [hx, rooms.findById]
    · simp only [hx, if_false] at h
      simp only [hx, if_false, rooms.findById]
      exact ih h

theorem step_change_rooms (s : State) (r : String) (ch : Change) (hr : r ≠ "") :
    (step s (ch.event r)).1.rooms = rooms.update s.rooms r ch.code ch.language := by
  show (codeChange s ch.conn (some r) ch.code ch.language).1.rooms = _
  unfold codeChange
  simp [truthy, hr]

theorem findById_run_changes (s : State) (r : String) (room0 : Room) (changes : List Change)
    (hr : r ≠ "") (h : rooms.findById s.rooms r = some room0) :
    rooms.findById (run s (changes.map (Change.event r))).rooms r =
      some (changes.foldl applyChange room0) := by
  induction changes generalizing s room0 with
  | nil => exact h
  | cons ch chs ih =>
    simp only [List.map_cons, run, List.foldl_cons]
    apply ih
    rw [step_change_rooms s r ch hr]
    exact findById_roomsUpdate _ _ _ _ _ h

theorem foldl_applyChange_code (room0 : Room) (changes : List Change) (hne : changes ≠ []) :
    (changes.foldl applyChange room0).code = lastCode changes := by
  induction changes using List.reverseRecOn with
  | nil => exact absurd rfl hne
  | append_singleton xs x _ =>
    simp [List.foldl_append, lastCode, applyChange]

theorem foldl_applyChange_language (room0 : Room) (changes : List Change) :
    (changes.foldl applyChange room0).language = lastLanguage room0.language changes := by
  induction changes using List.reverseRecOn with
  | nil => rfl
  | append_singleton xs x ih =>
    rw [List.foldl_append]
    simp only [List.foldl_cons, List.foldl_nil, applyChange]
    unfold lastLanguage at ih ⊢
    rw [List.filter_append]
    by_cases hx : truthy x.language = true
    · simp [hx, List.filter_cons]
    · simp only [hx, if_false, List.filter_cons, List.filter_nil, List.append_nil,
        Bool.false_eq_true]
      exact ih

theorem truthy_lastLanguage (earlier : Option String) (changes : List Change)
    (h : truthy earlier = true) : truthy (lastLanguage earlier changes) = true := by
  unfold lastLanguage
  cases hg : (changes.filter (fun ch => truthy ch.language)).getLast? with
  | none => exact h
  | some ch =>
    have hm : ch ∈ changes.filter (fun ch => truthy ch.language) :=
      List.mem_of_getLast?_eq_some hg
    exact (List.mem_filter.mp hm).2

theorem jsOr_empty (x : Option String) : jsOr x "" = x.getD "" := by
  cases x with
  | none => rfl
  | some s =>
    by_cases h : s = ""
    · simp [jsOr, h]
    · simp [jsOr, h]

theorem jsOr_truthy (x : Option String) (d : String) (h : truthy x = true) :
    some (jsOr x d) = x := by
  cases x with
  | none => simp [truthy] at h
  | some s =>
    simp only [truthy, bne_iff_ne, ne_eq] at h
    simp [jsOr, h]

/-- C5: after a non-empty sequence of `code-change` events naming a stored room, a
`request-code` for the room is answered with one `code-update`, sent to the requester only,
whose code is the code of the last change and whose language is the language of the last
change that carried a non-empty one (the room's earlier language if none did); a
`request-code` for an unknown or missing room id emits nothing. A stored room has a non-empty
id and a non-empty language, as `rooms.create` and the seed rooms give it; a change without a
`code` field is answered as the empty text. -/
theorem last_write_wins (s : State) (r : String) (room0 : Room) (changes : List Change)
    (requester : String) (hr : r ≠ "") (hroom : rooms.findById s.rooms r = some room0)
    (hlang : truthy room0.language = true) (hne : changes ≠ []) :
    (step (run s (changes.map (Change.event r))) (.requestCode requester (some r))).2 =
      [{ target := .self requester, recipients := [requester],
         msg := .codeUpdate (some ((lastCode changes).getD ""))
           (lastLanguage room0.language changes) none }] ∧
    (∀ (t : State) (c rid : String), rooms.findById t.rooms rid = none →
      (step t (.requestCode c (some rid))).2 = []) ∧
    (∀ (t : State) (c : String), (step t (.requestCode c none)).2 = []) := by
  refine ⟨?_, ?_, ?_⟩
  · have hf := findById_run_changes s r room0 changes hr hroom
    show (requestCode _ requester (some r)).2 = _
    unfold requestCode
    simp only [hf]
    rw [jsOr_empty, foldl_applyChange_code _ _ hne, foldl_applyChange_language,
      jsOr_truthy _ _ (truthy_lastLanguage _ _ hlang)]
    rfl
  · intro t c rid h
    show (requestCode t c (some rid)).2 = []
    unfold requestCode
    simp [h]
  · intro t c
    rfl

/-- C5 on a concrete trace: two changes to room `A`, the last one without a language. -/
theorem last_write_wins_witness :
    (step (run (run (State.init exampleDb) exampleJoins) (exampleChanges.map (Change.event "A")))
        (.requestCode "s3" (some "A"))).2 =
      [{ target := .self "s3", recipients := ["s3"],
         msg := .codeUpdate (some "x = 2") (some "python") none }] :=
  (last_write_wins (run (State.init exampleDb) exampleJoins) "A"
    { id := "A", code := some "let a", language := some "javascript", members := ["u2"] }
    exampleChanges "s3" (by decide) (by decide) (by decide) (by decide)).1

/-! ## The matcher on expressions without classes and assertions -/

theorem canonicalize_isWord (x c : Char) (h : canonicalize x = canonicalize c) :
    isWord x = isWord c := by
  unfold canonicalize at h
  unfold isWord
  rw [Bool.eq_iff_iff]
  simp only [Bool.or_eq_true, Bool.and_eq_true, decide_eq_true_eq]
  split_ifs at h <;> omega

theorem litEnds_eq (ic : Bool) (cs : List Char) (pos : Pos) :
    litEnds ic cs pos =
      if startsWith ic cs pos.after then
        [{ before := (pos.after.take cs.length).reverse ++ pos.before,
           after := pos.after.drop cs.length, cap := pos.cap }]
      else [] := by
  induction cs generalizing pos with
  | nil => simp [litEnds, startsWith]
  | cons c cs ih =>
    obtain ⟨before, after, cap⟩ := pos
    cases after with
    | nil => simp [litEnds, startsWith]
    | cons x rest =>
      simp only [litEnds, startsWith]
      cases ic
      · by_cases hx : x = c
        · simp [hx, ih]
        · simp [hx]
      · by_cases hx : canonicalize x = canonicalize c
        · simp [hx, ih]
        · simp [hx]

theorem startsWith_append (ic : Bool) (u v s : List Char) :
    startsWith ic (u ++ v) s = (startsWith ic u s && startsWith ic v (s.drop u.length)) := by
  induction u generalizing s with
  | nil => simp [startsWith]
  | cons c cs ih =>
    cases s with
    | nil => simp [startsWith]
    | cons x rest => simp [startsWith, ih, Bool.and_assoc]

theorem startsWith_length (ic : Bool) (u s : List Char) (h : startsWith ic u s = true) :
    u.length ≤ s.length := by
  induction u generalizing s with
  | nil => simp
  | cons c cs ih =>
    cases s with
    | nil => simp [startsWith] at h
    | cons x rest =>
      simp only [startsWith, Bool.and_eq_true] at h
      simpa using ih rest h.2

theorem ends_words (ic : Bool) (rx : Rx) (h : plain rx = true) (pos q : Pos)
    (hq : q ∈ ends ic rx pos) : ∃ w, w ∈ words rx ∧ Advanced ic pos q w := by
  induction rx generalizing pos q with
  | lit cs =>
    simp only [ends, litEnds_eq] at hq
    split at hq
    · rename_i hs
      simp only [List.mem_singleton] at hq
      exact ⟨cs, by simp [words], hs, by rw [hq], by rw [hq]⟩
    · simp at hq
  | cls p => simp [plain] at h
  | plus p => simp [plain] at h
  | bol => simp [plain] at h
  | wordB => simp [plain] at h
  | opt a ih =>
    simp only [ends, List.mem_append, List.mem_singleton] at hq
    rcases hq with hq | hq
    · obtain ⟨w, hw, hadv⟩ := ih (by simpa [plain] using h) pos q hq
      exact ⟨w, by simp [words, hw], hadv⟩
    · exact ⟨[], by simp [words], by simp [startsWith], by simp [hq], by simp [hq]⟩
  | alt a b iha ihb =>
    simp only [plain, Bool.and_eq_true] at h
    simp only [ends, List.mem_append] at hq
    rcases hq with hq | hq
    · obtain ⟨w, hw, hadv⟩ := iha h.1 pos q hq
      exact ⟨w, by simp [words, hw], hadv⟩
    · obtain ⟨w, hw, hadv⟩ := ihb h.2 pos q hq
      exact ⟨w, by simp [words, hw], hadv⟩
  | group a ih =>
    simp only [ends, List.mem_map] at hq
    obtain ⟨q', hq', rfl⟩ := hq
    obtain ⟨w, hw, hadv⟩ := ih (by simpa [plain] using h) pos q' hq'
    exact ⟨w, by simpa [words] using hw, hadv.1, hadv.2.1, hadv.2.2⟩
  | seq a b iha ihb =>
    simp only [plain, Bool.and_eq_true] at h
    simp only [ends, List.mem_flatMap] at hq
    obtain ⟨m, hm, hq⟩ := hq
    obtain ⟨u, hu, hadv1⟩ := iha h.1 pos m hm
    obtain ⟨v, hv, hadv2⟩ := ihb h.2 m q hq
    refine ⟨u ++ v, ?_, ?_, ?_, ?_⟩
    · simp only [words, List.mem_flatMap, List.mem_map]
      exact ⟨u, hu, v, hv, rfl⟩
    · rw [startsWith_append, hadv1.1, ← hadv1.2.2, hadv2.1]; rfl
    · rw [hadv2.2.1, hadv1.2.1, hadv1.2.2, List.length_append, ← List.append_assoc,
        ← List.reverse_append, List.take_add]
    · rw [hadv2.2.2, hadv1.2.2, List.drop_drop, List.length_append, Nat.add_comm]

/-! ## What `SAFE_CMD` accepts -/

theorem search_bol (ic : Bool) (r : Rx) (before after : List Char) (h : before ≠ []) :
    search ic (.seq .bol r) before after = none := by
  induction after generalizing before with
  | nil => simp [search, ends, h]
  | cons x rest ih =>
    simp only [search, ends, h, if_false, List.flatMap_nil, List.head?_nil]
    exact ih (x :: before) (by simp)

theorem test_bol (ic : Bool) (r : Rx) (s : List Char) (h : test ic (.seq .bol r) s = true) :
    ∃ q, q ∈ ends ic r { before := [], after := s, cap := none } := by
  unfold test at h
  have key : ∀ q, (ends ic (.seq .bol r) { before := [], after := s, cap := none }).head? = some q →
      q ∈ ends ic r { before := [], after := s, cap := none } := by
    intro q hq
    have := List.mem_of_mem_head? hq
    simpa [ends] using this
  cases s with
  | nil =>
    simp only [search] at h
    obtain ⟨q, hq⟩ := Option.isSome_iff_exists.mp h
    exact ⟨q, key q hq⟩
  | cons x rest =>
    simp only [search] at h
    cases hh : (ends ic (.seq .bol r) { before := [], after := x :: rest, cap := none }).head? with
    | none =>
      rw [hh] at h
      simp only at h
      rw [search_bol ic r [x] rest (by simp)] at h
      simp at h
    | some q => exact ⟨q, key q hh⟩

theorem test_SAFE_CMD (s : List Char) (h : test true SAFE_CMD s = true) :
    ∃ w, w ∈ words SAFE_NAMES ∧ startsWith true w s = true ∧ boundaryAfter s w.length := by
  obtain ⟨q, hq⟩ := test_bol true _ s h
  simp only [ends, List.mem_flatMap, List.mem_map] at hq
  obtain ⟨m, ⟨m', hm', rfl⟩, hq⟩ := hq
  obtain ⟨w, hw, hadv⟩ := ends_words true SAFE_NAMES (by decide) _ m' hm'
  refine ⟨w, hw, hadv.1, ?_⟩
  split at hq
  · rename_i hb
    simp only at hb
    rw [hadv.2.1, hadv.2.2] at hb
    simpa [boundaryAfter] using hb
  · simp at hq

theorem startsWith_split (w s : List Char) (h : startsWith true w s = true) :
    (s.take w.length).map canonicalize = w.map canonicalize ∧
      (s.take w.length).length = w.length := by
  induction w generalizing s with
  | nil => simp
  | cons c cs ih =>
    cases s with
    | nil => simp [startsWith] at h
    | cons x rest =>
      simp only [startsWith, if_true, Bool.and_eq_true, decide_eq_true_eq] at h
      obtain ⟨h1, h2⟩ := ih rest h.2
      simp [h.1, h1, h2]

theorem all_word_of_canonicalize (pre w : List Char)
    (h : pre.map canonicalize = w.map canonicalize) (hw : ∀ c ∈ w, isWord c = true) :
    ∀ c ∈ pre, isWord c = true := by
  induction pre generalizing w with
  | nil => simp
  | cons x xs ih =>
    cases w with
    | nil => simp at h
    | cons c cs =>
      simp only [List.map_cons, List.cons.injEq] at h
      intro y hy
      rcases List.mem_cons.mp hy with rfl | hy
      · rw [canonicalize_isWord _ _ h.1]; exact hw c (by simp)
      · exact ih cs h.2 (fun c hc => hw c (List.mem_cons_of_mem _ hc)) y hy

theorem leadingName_of_word (w s : List Char) (hne : w ≠ []) (hw : ∀ c ∈ w, isWord c = true)
    (hs : startsWith true w s = true) (hb : boundaryAfter s w.length) :
    (s.takeWhile isWord).map canonicalize = w.map canonicalize := by
  obtain ⟨hcan, hlen⟩ := startsWith_split w s hs
  have hpre := all_word_of_canonicalize _ _ hcan hw
  have hpne : s.take w.length ≠ [] := by
    intro e
    rw [e] at hlen
    exact hne (List.length_eq_zero.mp hlen.symm)
  have hlast : (((s.take w.length).reverse.head?).map isWord).getD false = true := by
    cases hr : (s.take w.length).reverse with
    | nil => exact absurd (List.reverse_eq_nil_iff.mp hr) hpne
    | cons y ys =>
      have : y ∈ s.take w.length := by
        rw [← List.mem_reverse, hr]; simp
      simp [hpre y this]
  unfold boundaryAfter at hb
  rw [hlast] at hb
  have hnext : (((s.drop w.length).head?).map isWord).getD false = false := by
    cases hx : (((s.drop w.length).head?).map isWord).getD false
    · rfl
    · exact absurd hx.symm hb
  have htw : s.takeWhile isWord = s.take w.length := by
    conv_lhs => rw [← List.take_append_drop w.length s]
    rw [List.takeWhile_append_of_pos hpre]
    cases hd : s.drop w.length with
    | nil => simp
    | cons y ys =>
      rw [hd] at hnext
      simp only [List.head?_cons, Option.map_some', Option.getD_some] at hnext
      simp [List.takeWhile_cons, hnext]
  rw [htw, hcan]

theorem gpp_of_match (s : List Char) (hs : startsWith true "g++".toList s = true)
    (hb : boundaryAfter s 3) :
    ∃ g w rest, s = g :: '+' :: '+' :: w :: rest ∧ canonicalize g = 71 ∧ isWord w = true := by
  match s, hs, hb with
  | g :: p1 :: p2 :: rest, hs, hb =>
    simp only [String.toList, startsWith, if_true, Bool.and_eq_true, decide_eq_true_eq,
      and_true] at hs
    obtain ⟨hg, h1, h2⟩ := hs
    have c43 : canonicalize '+' = 43 := by decide
    have plus_of : ∀ p : Char, canonicalize p = 43 → p = '+' := by
      intro p hp
      have hn : p.toNat = 43 := by
        unfold canonicalize at hp
        split_ifs at hp <;> omega
      rw [← Char.ofNat_toNat p, hn]
    have e1 : p1 = '+' := plus_of p1 (by rw [h1, c43])
    have e2 : p2 = '+' := plus_of p2 (by rw [h2, c43])
    subst e1 e2
    unfold boundaryAfter at hb
    simp only [List.take, List.reverse_cons, List.reverse_nil, List.nil_append,
      List.cons_append, List.head?_cons, Option.map_some', Option.getD_some, List.drop] at hb
    have hplus : isWord '+' = false := by decide
    rw [hplus] at hb
    cases rest with
    | nil => simp at hb
    | cons w rest' =>
      simp only [List.head?_cons, Option.map_some', Option.getD_some] at hb
      refine ⟨g, w, rest', rfl, ?_, ?_⟩
      · rw [hg]; rfl
      · cases hw : isWord w
        · rw [hw] at hb; exact absurd rfl hb
        · rfl
  | [], hs, _ => simp [String.toList, startsWith] at hs
  | [_], hs, _ => simp [String.toList, startsWith] at hs
  | [_, _], hs, _ => simp [String.toList, startsWith] at hs

/-! ## C6 and C7: the command allowlist -/

theorem words_SAFE_NAMES (w : List Char) (h : w ∈ words SAFE_NAMES) :
    w = "g++".toList ∨ (w ≠ [] ∧ (∀ c ∈ w, isWord c = true) ∧ String.mk w ∈ ALLOWLIST) := by
  have hall : ∀ w ∈ words SAFE_NAMES,
      w = "g++".toList ∨ (w ≠ [] ∧ (∀ c ∈ w, isWord c = true) ∧ String.mk w ∈ ALLOWLIST) := by
    decide
  exact hall w h

theorem test_SAFE_CMD_false (command : String) (hname : leadingNameAllowed command = false)
    (hgpp : gppThenWord command = false) :
    test true SAFE_CMD (jsTrim command.toList) = false := by
  cases htest : test true SAFE_CMD (jsTrim command.toList) with
  | false => rfl
  | true =>
    exfalso
    obtain ⟨w, hw, hs, hb⟩ := test_SAFE_CMD _ htest
    rcases words_SAFE_NAMES w hw with rfl | ⟨hne, hword, hmem⟩
    · obtain ⟨g, x, rest, hs', hg, hx⟩ := gpp_of_match _ hs hb
      unfold gppThenWord at hgpp
      rw [hs'] at hgpp
      simp [hg, hx] at hgpp
    · have hl := leadingName_of_word w _ hne hword hs hb
      have : leadingNameAllowed command = true := by
        unfold leadingNameAllowed
        rw [List.any_eq_true]
        refine ⟨String.mk w, hmem, ?_⟩
        unfold sameIgnoringCase leadingName
        exact decide_eq_true hl.symm
      rw [this] at hname
      exact absurd hname (by simp)

/-- C6 fails: the first token `node-evil` is not an allowlisted name, yet the command is
accepted and a process `node-evil` is spawned, because `SAFE_CMD` only asks that the line
starts with an allowlisted name followed by a word boundary. The same happens to `g++x -v`,
where the boundary after `g++` is the one before `x`. -/
theorem unlisted_first_token_counterexample :
    firstTokenAllowed "node-evil --version" = false ∧
    terminalRun exampleEnv "s1" idle none none (some "node-evil --version") =
      ({ _activeProc := some 0, nextPid := 1 },
        [.spawn 0 "node-evil" ["--version"] "/tmp" false none, .setTimeout 0 30000]) ∧
    firstTokenAllowed "g++x -v" = false ∧ leadingNameAllowed "g++x -v" = false ∧
    terminalRun exampleEnv "s1" idle none none (some "g++x -v") =
      ({ _activeProc := some 0, nextPid := 1 },
        [.spawn 0 "g++x" ["-v"] "/tmp" false none, .setTimeout 0 30000]) := by
  decide

/-- C6, amended: for every non-empty raw command line whose first whitespace-delimited token
(after trimming) is not, compared case-insensitively, an allowlisted program name, whose
leading name (the longest run of ASCII letters, digits and underscores at the start of the
trimmed line) is not one either, and which does not start with `g++` followed by an ASCII
letter, digit or underscore, `terminal:run` spawns no process, emits one permission-denied
output event on the stderr channel followed by an exit event with status 1, and leaves the
execution slot empty. A line whose first token is allowlisted (`g++ main.cpp`) is outside this
statement. -/
theorem rejected_command_denied (env : Env) (socketId : String) (t : Term)
    (code language : Option String) (command : String) (hne : command ≠ "")
    (_hfirst : firstTokenAllowed command = false)
    (hname : leadingNameAllowed command = false) (hgpp : gppThenWord command = false) :
    terminalRun env socketId t code language (some command) =
      ({ t with _activeProc := none },
        killPrevious t ++ [.output (deniedMessage command) "stderr", .exit 1]) ∧
    (terminalRun env socketId t code language (some command)).1._activeProc = none ∧
    ∀ pid bin args cwd shell file,
      Action.spawn pid bin args cwd shell file ∉
        (terminalRun env socketId t code language (some command)).2 := by
  have hrun : terminalRun env socketId t code language (some command) =
      ({ t with _activeProc := none },
        killPrevious t ++ [.output (deniedMessage command) "stderr", .exit 1]) := by
    have ht := test_SAFE_CMD_false command hname hgpp
    simp only [String.toList] at ht
    unfold terminalRun
    simp [truthy, hne, ht]
  refine ⟨hrun, by rw [hrun], ?_⟩
  intro pid bin args cwd shell file hmem
  rw [hrun] at hmem
  unfold killPrevious at hmem
  cases h : t._activeProc <;> rw [h] at hmem <;> simp at hmem

/-- C6, amended, on the command line `curl evil.example.com`; the lines `g++ main.cpp` and
`g++`, whose first token is allowlisted, do not meet the hypotheses. -/
theorem rejected_command_denied_witness :
    terminalRun exampleEnv "s1" idle none none (some "curl evil.example.com") =
      (idle, [.output (deniedMessage "curl evil.example.com") "stderr", .exit 1]) ∧
    firstTokenAllowed "g++ main.cpp" = true ∧ firstTokenAllowed "g++" = true :=
  ⟨(rejected_command_denied exampleEnv "s1" idle none none "curl evil.example.com"
    (by decide) (by decide) (by decide) (by decide)).1, by decide, by decide⟩

/-- C7 fails on the code: the first token of `g++ main.cpp` is the allowlisted name `g++`, but
`SAFE_CMD` asks for a word boundary after `g++`, which a following blank (or the end of the
line) is not; the command is rejected with the permission-denied message (which itself lists
`g++` as allowed) and exit status 1, and no process is spawned. A command with another
allowlisted name, `echo hi`, is accepted and spawned as `echo` with the argument `hi`. -/
theorem gpp_command_rejected (env : Env) (socketId : String) (t : Term)
    (code language : Option String) :
    firstTokenAllowed "g++ main.cpp" = true ∧
    terminalRun env socketId t code language (some "g++ main.cpp") =
      ({ t with _activeProc := none },
        killPrevious t ++
          [.output ("Permission denied: \"g++\" is not in the allowed list.\nAllowed: node, " ++
              "python, go, java, gcc, g++, php, ruby, bash, git, pip, npm, npx…\n") "stderr",
            .exit 1]) ∧
    terminalRun exampleEnv "s1" idle none none (some "echo hi") =
      ({ _activeProc := some 0, nextPid := 1 },
        [.spawn 0 "echo" ["hi"] "/tmp" false none, .setTimeout 0 30000]) := by
  refine ⟨by decide, ?_, by decide⟩
  have h1 : test true SAFE_CMD (jsTrim "g++ main.cpp".toList) = false := by decide
  have h2 : deniedMessage "g++ main.cpp" =
      "Permission denied: \"g++\" is not in the allowed list.\nAllowed: node, " ++
        "python, go, java, gcc, g++, php, ruby, bash, git, pip, npm, npx…\n" := by decide
  simp only [String.toList] at h1
  unfold terminalRun
  simp [truthy, h1, h2]

/-! ## C8 and C9: the language key -/

theorem replaceGo_cls (p : Char → Bool) (before s : List Char) :
    replaceGo (.cls p) [] 0 before s = s.filter (fun c => !p c) := by
  induction s generalizing before with
  | nil => simp [replaceGo, ends]
  | cons x rest ih =>
    by_cases hx : p x = true
    · simp [replaceGo, ends, hx, ih]
    · simp [replaceGo, ends, hx, ih]

theorem langKey_eq (language : Option String) :
    langKey language = String.mk (plusKey (jsOr language "javascript")) := by
  unfold langKey plusKey replaceAll NOT_KEY_CHAR
  rw [replaceGo_cls]
  simp

theorem langKey_some (l : String) :
    langKey (some l) = if l = "" then "javascript" else String.mk (plusKey l) := by
  rw [langKey_eq]
  by_cases h : l = ""
  · subst h; decide
  · simp [jsOr, h]

theorem terminalRun_code (env : Env) (socketId : String) (t : Term) (code l1 l2 : Option String)
    (h : langKey l1 = langKey l2) :
    terminalRun env socketId t code l1 none = terminalRun env socketId t code l2 none := by
  unfold terminalRun
  simp only [h]

theorem terminalRun_empty_key (env : Env) (socketId : String) (t : Term)
    (code l1 l2 : Option String) (h1 : langKey l1 = "javascript") (h2 : langKey l2 = "") :
    terminalRun env socketId t code l1 none = terminalRun env socketId t code l2 none := by
  have e1 : langMapGet "" = Looked.undefined := rfl
  have e2 : ∀ src, filename socketId "" src = filename socketId "javascript" src := by
    intro src; simp [filename]
  unfold terminalRun
  simp only [h1, h2, e1, e2]
  rfl

/-- C8 fails: the labels `C++` and `C` are equal after lower-casing and deleting every
character that is not a letter or a digit, but the key of `C++` is `c++` (the plus signs are
kept) and the two labels resolve to different recipes: extension `cpp` compiled with `g++`,
and extension `c` compiled with `gcc`. -/
theorem plus_sign_kept_counterexample :
    alphanumericKey "C++" = alphanumericKey "C" ∧
    langKey (some "C++") = "c++" ∧
    (terminalRun exampleEnv "s1" idle (some "int x;") (some "C++") none).2 =
      [.writeFile "/tmp/sk_s1.cpp" "int x;",
       .spawn 0 "bash" ["-c", "g++ \"/tmp/sk_s1.cpp\" -o \"/tmp/sk_s1\" && \"/tmp/sk_s1\""]
         "/tmp" false (some "/tmp/sk_s1.cpp"),
       .setTimeout 0 30000] ∧
    (terminalRun exampleEnv "s1" idle (some "int x;") (some "C") none).2 =
      [.writeFile "/tmp/sk_s1.c" "int x;",
       .spawn 0 "bash" ["-c", "gcc \"/tmp/sk_s1.c\" -o \"/tmp/sk_s1\" && \"/tmp/sk_s1\""]
         "/tmp" false (some "/tmp/sk_s1.c"),
       .setTimeout 0 30000] := by
  decide

/-- C8, amended: language lookup is case-insensitive and ignores every character that is not a
lower-case letter, a digit or a plus sign: two labels that become equal after lower-casing and
deleting every other character make `terminal:run` do the same thing (same file, same
command), and the lookup key computed from any label contains only lower-case letters, digits
and plus signs. -/
theorem language_key_lookup (env : Env) (socketId : String) (t : Term) (code : Option String)
    (l1 l2 : String) (h : plusKey l1 = plusKey l2) :
    terminalRun env socketId t code (some l1) none =
      terminalRun env socketId t code (some l2) none ∧
    (∀ (l : Option String) (c : Char), c ∈ (langKey l).toList → isKeyChar c = true) := by
  constructor
  · by_cases h1 : l1 = ""
    · by_cases h2 : l2 = ""
      · rw [h1, h2]
      · apply terminalRun_empty_key
        · rw [h1]; decide
        · rw [langKey_some, if_neg h2, ← h, h1]; decide
    · by_cases h2 : l2 = ""
      · symm
        apply terminalRun_empty_key
        · rw [h2]; decide
        · rw [langKey_some, if_neg h1, h, h2]; decide
      · apply terminalRun_code
        rw [langKey_some, langKey_some, if_neg h1, if_neg h2, h]
  · intro l c hc
    rw [langKey_eq] at hc
    unfold plusKey at hc
    exact (List.mem_filter.mp hc).2

/-- C8, amended, on the labels `C++` and `c + +`. -/
theorem language_key_lookup_witness :
    terminalRun exampleEnv "s1" idle (some "int x;") (some "C++") none =
      terminalRun exampleEnv "s1" idle (some "int x;") (some "c + +") none :=
  (language_key_lookup exampleEnv "s1" idle (some "int x;") "C++" "c + +" (by decide)).1

/-- C9 fails on the code: the key of the label `constructor` is not a key listed in
`LANG_MAP`, but `LANG_MAP['constructor']` is the inherited `Object.prototype.constructor`,
which is truthy, so the javascript recipe is not used: the source is written to a file with
extension `undefined` and the call of `def.cmd` throws a `TypeError`; no process is spawned
and no exit event is emitted. -/
theorem constructor_label_throws (env : Env) (socketId : String) (t : Term) :
    langKey (some "constructor") ∉ mapKeys LANG_MAP ∧
    terminalRun env socketId t (some "console.log(1)") (some "constructor") none =
      ({ t with _activeProc := none },
        killPrevious t ++
          [.writeFile (env.pathJoin env.tmpDir ("sk_" ++ socketId ++ "." ++ "undefined"))
              "console.log(1)",
            .throwTypeError]) := by
  have hk : langKey (some "constructor") = "constructor" := by decide
  have hl : langMapGet "constructor" = Looked.inherited := rfl
  refine ⟨by rw [hk]; decide, ?_⟩
  unfold terminalRun
  simp [truthy, hk, hl, filename]

/-! ## What `PUBLIC_CLASS` captures -/

theorem isSpace_not_isWord (c : Char) (h : isSpace c = true) : isWord c = false := by
  unfold isSpace at h
  unfold isWord
  simp only [List.mem_cons, List.mem_singleton, List.not_mem_nil, or_false, Bool.or_eq_true,
    Bool.and_eq_true, decide_eq_true_eq] at h
  rw [Bool.eq_false_iff]
  simp only [ne_eq, Bool.or_eq_true, Bool.and_eq_true, decide_eq_true_eq]
  omega

theorem plusEnds_flatMap (p : Char → Bool) (f : Pos → List Pos)
    (hf : ∀ b x rest cap, p x = true → f { before := b, after := x :: rest, cap := cap } = [])
    (before : List Char) (cap : Option (List Char)) (after : List Char) :
    (plusEnds p before cap after).flatMap f =
      if after.takeWhile p = [] then []
      else f { before := (after.takeWhile p).reverse ++ before, after := after.dropWhile p,
               cap := cap } := by
  induction after generalizing before with
  | nil => simp [plusEnds]
  | cons x rest ih =>
    by_cases hx : p x = true
    · simp only [plusEnds, hx, if_true, List.flatMap_append, List.flatMap_cons,
        List.flatMap_nil, List.append_nil, List.takeWhile_cons_of_pos hx,
        List.dropWhile_cons_of_pos hx, ih]
      cases rest with
      | nil => simp
      | cons y ys =>
        by_cases hy : p y = true
        · simp [hy, hf (x :: before) y ys cap hy]
        · simp [hy]
    · simp [plusEnds, hx]

theorem plusEnds_head (p : Char → Bool) (before : List Char) (cap : Option (List Char))
    (after : List Char) :
    (plusEnds p before cap after).head? =
      if after.takeWhile p = [] then none
      else some { before := (after.takeWhile p).reverse ++ before, after := after.dropWhile p,
                  cap := cap } := by
  induction after generalizing before with
  | nil => simp [plusEnds]
  | cons x rest ih =>
    by_cases hx : p x = true
    · simp only [plusEnds, hx, if_true, List.takeWhile_cons_of_pos hx,
        List.dropWhile_cons_of_pos hx]
      rw [List.head?_append, ih]
      cases rest with
      | nil => simp
      | cons y ys =>
        by_cases hy : p y = true
        · simp [hy]
        · simp [hy]
    · simp [plusEnds, hx]

theorem startsWith_class_space (x : Char) (rest : List Char) (h : isSpace x = true) :
    startsWith false "class".toList (x :: rest) = false := by
  have hx : x ≠ 'c' := by
    intro e
    rw [e] at h
    exact absurd h (by decide)
  simp [String.toList, startsWith, hx]

theorem length_sub_dropWhile (p : Char → Bool) (l : List Char) :
    l.take (l.length - (l.dropWhile p).length) = l.takeWhile p := by
  induction l with
  | nil => simp
  | cons x xs ih =>
    by_cases hx : p x = true
    · have hle : (xs.dropWhile p).length ≤ xs.length := (List.dropWhile_sublist p).length_le
      rw [List.dropWhile_cons_of_pos hx, List.takeWhile_cons_of_pos hx, List.length_cons,
        Nat.succ_sub hle, List.take_succ_cons, ih]
    · simp [hx]

theorem ends_seq_lit (ic : Bool) (cs : List Char) (r : Rx) (pos : Pos) :
    ends ic (.seq (.lit cs) r) pos =
      if startsWith ic cs pos.after then
        ends ic r { before := (pos.after.take cs.length).reverse ++ pos.before,
                    after := pos.after.drop cs.length, cap := pos.cap }
      else [] := by
  simp only [ends, litEnds_eq]
  split <;> simp

theorem ends_seq_plus (ic : Bool) (p : Char → Bool) (r : Rx) (pos : Pos)
    (hf : ∀ b x rest cap, p x = true →
      ends ic r { before := b, after := x :: rest, cap := cap } = []) :
    ends ic (.seq (.plus p) r) pos =
      if pos.after.takeWhile p = [] then []
      else ends ic r { before := (pos.after.takeWhile p).reverse ++ pos.before,
                       after := pos.after.dropWhile p, cap := pos.cap } := by
  simp only [ends]
  exact plusEnds_flatMap p (ends ic r) hf pos.before pos.cap pos.after

theorem ends_group_plus_head (ic : Bool) (p : Char → Bool) (pos : Pos) :
    ((ends ic (.group (.plus p)) pos).head?).map (fun q => q.cap) =
      if pos.after.takeWhile p = [] then none else some (some (pos.after.takeWhile p)) := by
  simp only [ends, List.head?_map, plusEnds_head]
  split
  · rfl
  · simp only [Option.map_some', length_sub_dropWhile]

theorem ends_class_fails (b : List Char) (x : Char) (rest : List Char)
    (cap : Option (List Char)) (r : Rx) (hx : isSpace x = true) :
    ends false (.seq (.lit "class".toList) r) { before := b, after := x :: rest, cap := cap } =
      [] := by
  rw [ends_seq_lit]
  simp only [startsWith_class_space x rest hx]
  rfl

theorem ends_word_fails (b : List Char) (x : Char) (rest : List Char)
    (cap : Option (List Char)) (hx : isSpace x = true) :
    ends false (.group (.plus isWord)) { before := b, after := x :: rest, cap := cap } = [] := by
  simp [ends, plusEnds, isSpace_not_isWord x hx]

theorem ends_PUBLIC_CLASS (before after : List Char) :
    ((ends false PUBLIC_CLASS { before := before, after := after, cap := none }).head?).map
      (fun q => q.cap) = (classNameAt after).map some := by
  unfold PUBLIC_CLASS classNameAt
  rw [ends_seq_lit]
  simp only [show "public".toList.length = 6 from rfl, show "class".toList.length = 5 from rfl]
  split
  · rw [ends_seq_plus _ _ _ _ (fun b x rest cap hx => ends_class_fails b x rest cap _ hx)]
    simp only []
    split
    · rfl
    · rw [ends_seq_lit]
      simp only [show "class".toList.length = 5 from rfl]
      split
      · rw [ends_seq_plus _ _ _ _ (fun b x rest cap hx => ends_word_fails b x rest cap hx)]
        simp only []
        split
        · rfl
        · rw [ends_group_plus_head]
          simp only []
          split <;> rfl
      · rfl
  · rfl

theorem startsWith_false_iff (w s : List Char) :
    startsWith false w s = true ↔ ∃ r, s = w ++ r := by
  induction w generalizing s with
  | nil => simp [startsWith]
  | cons c cs ih =>
    cases s with
    | nil => simp [startsWith]
    | cons x rest =>
      simp only [startsWith, Bool.false_eq_true, if_false, Bool.and_eq_true, decide_eq_true_eq,
        ih, List.cons_append, List.cons.injEq]
      constructor
      · rintro ⟨rfl, r, rfl⟩; exact ⟨r, rfl, rfl⟩
      · rintro ⟨r, rfl, rfl⟩; exact ⟨rfl, r, rfl⟩

theorem takeWhile_run (p : Char → Bool) (run rest : List Char) (hrun : ∀ c ∈ run, p c = true)
    (hrest : ∀ c ∈ rest.head?, p c = false) :
    (run ++ rest).takeWhile p = run ∧ (run ++ rest).dropWhile p = rest := by
  have h0 : rest.takeWhile p = [] ∧ rest.dropWhile p = rest := by
    cases rest with
    | nil => simp
    | cons y ys =>
      have : p y = false := hrest y (by simp)
      simp [List.takeWhile_cons, List.dropWhile_cons, this]
  induction run with
  | nil => simpa using h0
  | cons x xs ih =>
    have hx : p x = true := hrun x (by simp)
    have := ih (fun c hc => hrun c (List.mem_cons_of_mem _ hc))
    simp [List.takeWhile_cons, List.dropWhile_cons, hx, this.1, this.2]

theorem head_dropWhile (p : Char → Bool) (l : List Char) :
    ∀ c ∈ (l.dropWhile p).head?, p c = false := by
  induction l with
  | nil => simp
  | cons x xs ih =>
    by_cases hx : p x = true
    · simpa [List.dropWhile_cons, hx] using ih
    · simp [List.dropWhile_cons, hx]

theorem classNameAt_iff (after ident : List Char) :
    classNameAt after = some ident ↔ PublicClassAt after [] ident := by
  constructor
  · intro h
    unfold classNameAt at h
    split at h
    · rename_i h1
      split at h
      · simp at h
      · rename_i h2
        split at h
        · rename_i h3
          split at h
          · simp at h
          · rename_i h4
            split at h
            · simp at h
            · rename_i h5
              simp only [Option.some.injEq] at h
              obtain ⟨r1, hr1⟩ := (startsWith_false_iff _ _).mp h1
              obtain ⟨r3, hr3⟩ := (startsWith_false_iff _ _).mp h3
              have d1 : after.drop 6 = r1 := by rw [hr1]; rfl
              have d3 : ((after.drop 6).dropWhile isSpace).drop 5 = r3 := by rw [hr3]; rfl
              rw [d1] at h2 h4 h5 h hr3 d3
              rw [d3] at h4 h5 h
              refine ⟨r1.takeWhile isSpace, r3.takeWhile isSpace,
                (r3.dropWhile isSpace).dropWhile isWord, ?_, h2, ?_, h4, ?_, ?_, ?_, ?_⟩
              · rw [List.nil_append, ← h, List.takeWhile_append_dropWhile,
                  List.takeWhile_append_dropWhile, ← hr3, List.takeWhile_append_dropWhile]
                exact hr1
              · intro c hc; exact (List.mem_takeWhile_imp hc)
              · intro c hc; exact (List.mem_takeWhile_imp hc)
              · rw [← h]; exact h5
              · intro c hc; rw [← h] at hc; exact (List.mem_takeWhile_imp hc)
              · exact head_dropWhile isWord _
        · simp at h
    · simp at h
  · rintro ⟨ws1, ws2, rest, hsrc, hne1, hs1, hne2, hs2, hne, hw, hrest⟩
    rw [List.nil_append] at hsrc
    have hc : ∀ c ∈ ("class".toList ++ (ws2 ++ (ident ++ rest))).head?, isSpace c = false := by
      intro c hc
      simp only [String.toList, List.cons_append, List.head?_cons, Option.mem_def,
        Option.some.injEq] at hc
      rw [← hc]; decide
    have hi : ∀ c ∈ (ident ++ rest).head?, isSpace c = false := by
      intro c hc
      cases ident with
      | nil => exact absurd rfl hne
      | cons y ys =>
        simp only [List.cons_append, List.head?_cons, Option.mem_def, Option.some.injEq] at hc
        have hy := hw y (by simp)
        rw [← hc]
        cases hsp : isSpace y
        · rfl
        · rw [isSpace_not_isWord y hsp] at hy; exact absurd hy (by simp)
    have t1 := takeWhile_run isSpace ws1 _ hs1 hc
    have t2 := takeWhile_run isSpace ws2 _ hs2 hi
    have t3 := takeWhile_run isWord ident rest hw hrest
    have d1 : after.drop 6 = ws1 ++ ("class".toList ++ (ws2 ++ (ident ++ rest))) := by
      rw [hsrc]; rfl
    have d3 : ("class".toList ++ (ws2 ++ (ident ++ rest))).drop 5 = ws2 ++ (ident ++ rest) := rfl
    unfold classNameAt
    rw [if_pos ((startsWith_false_iff _ _).mpr ⟨_, hsrc⟩), d1, t1.1, t1.2, if_neg hne1,
      if_pos ((startsWith_false_iff _ _).mpr ⟨_, rfl⟩), d3, t2.1, t2.2, if_neg hne2, t3.1,
      if_neg hne]

theorem search_none (ic : Bool) (rx : Rx) (before after : List Char)
    (h : ∀ pre suf, after = pre ++ suf →
      (ends ic rx { before := pre.reverse ++ before, after := suf, cap := none }).head? = none) :
    search ic rx before after = none := by
  induction after generalizing before with
  | nil => simpa [search] using h [] [] rfl
  | cons x rest ih =>
    have h0 := h [] (x :: rest) rfl
    simp only [List.reverse_nil, List.nil_append] at h0
    simp only [search, h0]
    apply ih
    intro pre suf hps
    have := h (x :: pre) suf (by rw [hps]; rfl)
    simpa using this

theorem search_first (ic : Bool) (rx : Rx) (before pre suf : List Char) (q : Pos)
    (hq : (ends ic rx { before := pre.reverse ++ before, after := suf, cap := none }).head? =
      some q)
    (h : ∀ pre1 pre2, pre = pre1 ++ pre2 → pre2 ≠ [] →
      (ends ic rx { before := pre1.reverse ++ before, after := pre2 ++ suf, cap := none }).head? =
        none) :
    search ic rx before (pre ++ suf) = some q := by
  induction pre generalizing before with
  | nil =>
    simp only [List.reverse_nil, List.nil_append] at hq ⊢
    cases suf with
    | nil => simpa [search] using hq
    | cons y ys => simp [search, hq]
  | cons x xs ih =>
    have h0 := h [] (x :: xs) rfl (by simp)
    simp only [List.reverse_nil, List.nil_append, List.cons_append] at h0
    have hstep : search ic rx before (x :: (xs ++ suf)) =
        search ic rx (x :: before) (xs ++ suf) := by
      rw [search, h0]
    rw [List.cons_append, hstep]
    apply ih
    · simpa using hq
    · intro pre1 pre2 hp hne
      have := h (x :: pre1) pre2 (by rw [hp]; rfl) hne
      simpa using this

/-! ## C10: the name of the temp file -/

theorem publicClassAt_split (src pre ident : List Char) :
    PublicClassAt src pre ident ↔ ∃ suf, src = pre ++ suf ∧ PublicClassAt suf [] ident := by
  constructor
  · rintro ⟨ws1, ws2, rest, hsrc, h⟩
    exact ⟨_, hsrc, ws1, ws2, rest, by rw [List.nil_append], h⟩
  · rintro ⟨suf, hsrc, ws1, ws2, rest, hsuf, h⟩
    rw [List.nil_append] at hsuf
    exact ⟨ws1, ws2, rest, by rw [hsrc, hsuf], h⟩

theorem head_PUBLIC_CLASS_none (before after : List Char) :
    (ends false PUBLIC_CLASS { before := before, after := after, cap := none }).head? = none ↔
      classNameAt after = none := by
  have h := ends_PUBLIC_CLASS before after
  cases h1 : (ends false PUBLIC_CLASS { before := before, after := after, cap := none }).head? <;>
    cases h2 : classNameAt after <;> simp [h1, h2] at h ⊢

theorem fileStem_java_found (socketId : String) (src : String) (pre ident : List Char)
    (h : PublicClassAt src.toList pre ident)
    (hfirst : ∀ pre1 ident1, PublicClassAt src.toList pre1 ident1 → pre.length ≤ pre1.length) :
    filename socketId "java" src = String.mk ident := by
  obtain ⟨suf, hsrc, hsuf⟩ := (publicClassAt_split _ _ _).mp h
  have hcn := (classNameAt_iff suf ident).mpr hsuf
  have hends := ends_PUBLIC_CLASS (pre.reverse ++ []) suf
  rw [hcn] at hends
  cases hq : (ends false PUBLIC_CLASS
      { before := pre.reverse ++ [], after := suf, cap := none }).head? with
  | none => rw [hq] at hends; simp at hends
  | some q =>
    rw [hq] at hends
    simp only [Option.map_some', Option.some.injEq] at hends
    have hsearch : search false PUBLIC_CLASS [] (pre ++ suf) = some q := by
      apply search_first false PUBLIC_CLASS [] pre suf q hq
      intro pre1 pre2 hp hne
      rw [head_PUBLIC_CLASS_none]
      cases hc : classNameAt (pre2 ++ suf) with
      | none => rfl
      | some ident1 =>
        exfalso
        have h1 : PublicClassAt src.toList pre1 ident1 :=
          (publicClassAt_split _ _ _).mpr
            ⟨pre2 ++ suf, by rw [hsrc, hp, List.append_assoc], (classNameAt_iff _ _).mp hc⟩
        have hle := hfirst pre1 ident1 h1
        have hlen : pre.length = pre1.length + pre2.length := by rw [hp, List.length_append]
        have hpos : 0 < pre2.length := List.length_pos.mpr hne
        omega
    unfold filename
    rw [if_pos rfl, hsrc, hsearch]
    simp only [hends, Option.getD_some]

theorem fileStem_java_none (socketId : String) (src : String)
    (h : ∀ pre ident, ¬ PublicClassAt src.toList pre ident) :
    filename socketId "java" src = "Main" := by
  have hsearch : search false PUBLIC_CLASS [] src.toList = none := by
    apply search_none
    intro pre suf hps
    rw [head_PUBLIC_CLASS_none]
    cases hc : classNameAt suf with
    | none => rfl
    | some ident =>
      exact absurd ((publicClassAt_split _ _ _).mpr ⟨suf, hps, (classNameAt_iff _ _).mp hc⟩)
        (h pre ident)
  unfold filename
  rw [if_pos rfl, hsearch]

/-- C10: for a source run with language key `java`, the name stem of the temp file is the
identifier of the first occurrence in the source of `public`, whitespace, `class`, whitespace,
identifier, and `Main` when the source has no such occurrence; for every other language key the
stem is `sk_` followed by the connection id. The handler writes the source to the file with
that stem. -/
theorem temp_file_stem (env : Env) (socketId : String) (t : Term) :
    (∀ (src : String) (pre ident : List Char), PublicClassAt src.toList pre ident →
      (∀ pre1 ident1, PublicClassAt src.toList pre1 ident1 → pre.length ≤ pre1.length) →
      filename socketId "java" src = String.mk ident) ∧
    (∀ src : String, (∀ pre ident, ¬ PublicClassAt src.toList pre ident) →
      filename socketId "java" src = "Main") ∧
    (∀ key src : String, key ≠ "java" → filename socketId key src = "sk_" ++ socketId) ∧
    (∀ (code : String) (language : Option String), code ≠ "" → langKey language = "java" →
      ∃ rest, (terminalRun env socketId t (some code) language none).2 =
        killPrevious t ++
          .writeFile (env.pathJoin env.tmpDir (filename socketId "java" code ++ "." ++ "java"))
            code :: rest) ∧
    (∀ (code : String) (language : Option String), code ≠ "" → langKey language ≠ "java" →
      ∃ ext src rest, (terminalRun env socketId t (some code) language none).2 =
        killPrevious t ++
          .writeFile (env.pathJoin env.tmpDir ("sk_" ++ socketId ++ "." ++ ext)) src :: rest) := by
  refine ⟨fileStem_java_found socketId, fileStem_java_none socketId, ?_, ?_, ?_⟩
  · intro key src hk
    simp [filename, hk]
  · intro code language hc hk
    have hl : ∃ cmd, langMapGet "java" = Looked.own { ext := "java", cmd := cmd, pre := none } :=
      ⟨_, rfl⟩
    obtain ⟨cmd, hl⟩ := hl
    unfold terminalRun
    simp only [truthy, bne_iff_ne, ne_eq, hc, not_false_eq_true, decide_True, if_true, hk,
      Bool.false_eq_true, if_false, Option.getD_some, hl]
    exact ⟨_, rfl⟩
  · intro code language hc hk
    have hstem : ∀ src, filename socketId (langKey language) src = "sk_" ++ socketId := by
      intro src; simp [filename, hk]
    unfold terminalRun
    simp only [truthy, bne_iff_ne, ne_eq, hc, not_false_eq_true, decide_True, if_true,
      Bool.false_eq_true, if_false, Option.getD_some, hstem]
    have hjs : ∃ cmd,
        langMapGet "javascript" = Looked.own { ext := "js", cmd := cmd, pre := none } :=
      ⟨_, rfl⟩
    obtain ⟨cmd, hjs⟩ := hjs
    cases langMapGet (langKey language) with
    | own d => exact ⟨d.ext, _, _, rfl⟩
    | inherited => exact ⟨"undefined", code, [.throwTypeError], rfl⟩
    | undefined =>
      simp only [hjs]
      exact ⟨"js", code, _, rfl⟩

/-- C10 on a concrete source: the first `public class` names `Hello`. -/
theorem temp_file_stem_witness :
    filename "s1" "java" "import x; public class Hello { } public class Other { }" = "Hello" := by
  refine (temp_file_stem exampleEnv "s1" idle).1
    "import x; public class Hello { } public class Other { }" "import x; ".toList "Hello".toList
    ⟨" ".toList, " ".toList, " { } public class Other { }".toList, by decide, by decide,
      by decide, by decide, by decide, by decide, by decide, by decide⟩ ?_
  intro pre1 ident1 h1
  obtain ⟨suf, hsrc, hsuf⟩ := (publicClassAt_split _ _ _).mp h1
  have hcn := (classNameAt_iff suf ident1).mpr hsuf
  by_contra hlt
  have hlen : pre1.length < 10 := by
    have : ("import x; ".toList).length = 10 := by decide
    omega
  have hpre : pre1 = ("import x; public class Hello { } public class Other { }".toList).take
      pre1.length := by
    rw [hsrc]; simp
  have hsuf' : suf = ("import x; public class Hello { } public class Other { }".toList).drop
      pre1.length := by
    rw [hsrc]; simp
  rw [hsuf'] at hcn
  have hall : ∀ n, n < 10 →
      classNameAt (("import x; public class Hello { } public class Other { }".toList).drop n) =
        none := by
    decide
  rw [hall _ hlen] at hcn
  exact absurd hcn (by simp)

/-! ## Terminal listeners -/

theorem setActive_active (ts : TermState) (a : Option Nat) :
    (ts.setActive a).term._activeProc = a := rfl

theorem setActive_procs (ts : TermState) (a : Option Nat) :
    (ts.setActive a).procs = ts.procs := rfl

theorem update_active (ts : TermState) (pid : Nat) (f : Proc → Proc) :
    (ts.update pid f).term = ts.term := rfl

theorem close_open (env : Env) (socketId : String) (ts : TermState) (a : Nat) (pa : Proc)
    (c : Option Int) (ha : ts.proc? a = some pa) (hopen : pa.closed = false) :
    termStep env socketId ts (.close a c) = onClose ts pa c := by
  simp only [termStep, ha, hopen]
  rfl

theorem timeout_armed (env : Env) (socketId : String) (ts : TermState) (a : Nat) (pa : Proc)
    (ha : ts.proc? a = some pa) (ht : pa.timer = true) :
    termStep env socketId ts (.timeout a) = onTimeout ts a := by
  simp only [termStep, ha, ht]
  rfl

theorem error_open (env : Env) (socketId : String) (ts : TermState) (a : Nat) (pa : Proc)
    (code path message : String) (ha : ts.proc? a = some pa) (hopen : pa.closed = false) :
    termStep env socketId ts (.error a code path message) = onError ts code path message := by
  simp only [termStep, ha, hopen]
  rfl

theorem timeout_no_signal (env : Env) (socketId : String) (ts : TermState)
    (h : ts.term._activeProc = none) (p q : Nat) (sig : String) :
    Action.kill q sig ∉ (termStep env socketId ts (.timeout p)).2 := by
  simp only [termStep]
  cases ts.proc? p with
  | none => simp
  | some pr =>
    cases ht : pr.timer with
    | false => simp [ht]
    | true => simp [ht, onTimeout, h]

theorem find_update_ne (f : Proc → Proc) (hf : ∀ p, (f p).pid = p.pid) (pid b : Nat)
    (h : b ≠ pid) (l : List Proc) :
    (l.map (fun p => if p.pid = pid then f p else p)).find? (fun p => p.pid == b) =
      l.find? (fun p => p.pid == b) := by
  induction l with
  | nil => rfl
  | cons x xs ih =>
    simp only [List.map_cons, List.find?_cons]
    by_cases hx : x.pid = pid
    · have h1 : ((f x).pid == b) = false := by
        rw [hf, hx]; exact beq_false_of_ne (Ne.symm h)
      have h2 : (x.pid == b) = false := by
        rw [hx]; exact beq_false_of_ne (Ne.symm h)
      rw [if_pos hx, h1, h2]
      exact ih
    · rw [if_neg hx]
      cases x.pid == b with
      | true => rfl
      | false => exact ih

theorem proc_pid (ts : TermState) (a : Nat) (pa : Proc) (h : ts.proc? a = some pa) :
    pa.pid = a := by
  have := List.find?_some h
  exact eq_of_beq this

theorem onClose_other (ts : TermState) (pa : Proc) (c : Option Int) (b : Nat)
    (h : b ≠ pa.pid) : (onClose ts pa c).1.proc? b = ts.proc? b :=
  find_update_ne (fun p => { p with closed := true, timer := false }) (fun _ => rfl) pa.pid b h
    ts.procs

theorem input_empty (env : Env) (socketId : String) (ts : TermState)
    (h : ts.term._activeProc = none) (data : String) :
    termStep env socketId ts (.input data) = (ts, []) := by
  simp only [termStep, terminalInput, h]

theorem kill_empty (env : Env) (socketId : String) (ts : TermState)
    (h : ts.term._activeProc = none) :
    termStep env socketId ts .kill = (ts, []) := by
  simp only [termStep, terminalKill, h]

/-! ## C11: a superseded run closes -/

/-- C11 fails: whenever the slot holds process `b` and another process `a` of the connection
(a superseded run) closes, the `close` listener of `a` empties the slot although `b` is still
running. From then on a `terminal:input` is written to no process, a `terminal:kill` does
nothing, and no timer expiry sends a signal to any process; the slot held `b` before, and what
is recorded for `b` (not closed, its timer) is as before. -/
theorem superseded_close_empties_slot (env : Env) (socketId : String) (ts : TermState)
    (a b : Nat) (pa : Proc) (c : Option Int)
    (hb : ts.term._activeProc = some b) (hab : a ≠ b)
    (ha : ts.proc? a = some pa) (hopen : pa.closed = false) :
    (termStep env socketId ts (.close a c)).1.term._activeProc = none ∧
    (∀ data, (termStep env socketId (termStep env socketId ts (.close a c)).1
      (.input data)).2 = []) ∧
    (termStep env socketId (termStep env socketId ts (.close a c)).1 .kill).2 = [] ∧
    (∀ p q sig, Action.kill q sig ∉
      (termStep env socketId (termStep env socketId ts (.close a c)).1 (.timeout p)).2) ∧
    ts.term._activeProc = some b ∧
    (termStep env socketId ts (.close a c)).1.proc? b = ts.proc? b := by
  have h0 : (termStep env socketId ts (.close a c)).1.term._activeProc = none := by
    rw [close_open env socketId ts a pa c ha hopen]
    rfl
  refine ⟨h0, ?_, ?_, ?_, hb, ?_⟩
  · intro data
    rw [input_empty env socketId _ h0]
  · rw [kill_empty env socketId _ h0]
  · intro p q sig
    exact timeout_no_signal env socketId _ h0 p q sig
  · rw [close_open env socketId ts a pa c ha hopen]
    exact onClose_other ts pa c b (by rw [proc_pid ts a pa ha]; exact Ne.symm hab)

/-- C11 on the trace run A, run B, close of A: the slot holds B's process `1` before A's
process `0` closes, and nothing afterwards. -/
theorem superseded_close_empties_slot_witness :
    (termRun exampleEnv "s1" TermState.init exampleRuns).1.term._activeProc = some 1 ∧
    (termRun exampleEnv "s1" TermState.init (exampleRuns ++ [.close 0 none])).1.term._activeProc
      = none ∧
    (termRun exampleEnv "s1" TermState.init
      (exampleRuns ++ [.close 0 none, .input "x", .kill, .timeout 1])).2.drop 10 =
      [.output "\n[Killed: 30s timeout]\n" "system"] :=
  ⟨by decide,
   (superseded_close_empties_slot exampleEnv "s1"
      (termRun exampleEnv "s1" TermState.init exampleRuns).1 0 1
      { pid := 0, file := some "/tmp/sk_s1.js", timer := true, closed := false,
        stdinDestroyed := false } none (by decide) (by decide) (by decide) rfl).1,
   by decide⟩

/-! ## C12: the 30-second timer -/

/-- C12 fails: when the timer armed for process `a` expires, the callback sends the signal to
whatever process `b` the slot holds, `a` or not, and empties the slot; and with an empty slot
(the run was killed by `terminal:kill`, say) it still emits the timeout message. -/
theorem timer_not_scoped_to_its_run (env : Env) (socketId : String) (ts : TermState)
    (a : Nat) (pa : Proc) (ha : ts.proc? a = some pa) (ht : pa.timer = true) :
    (∀ b, ts.term._activeProc = some b →
      (termStep env socketId ts (.timeout a)).2 =
        [.kill b "SIGTERM", .output "\n[Killed: 30s timeout]\n" "system"] ∧
      (termStep env socketId ts (.timeout a)).1.term._activeProc = none) ∧
    (ts.term._activeProc = none →
      (termStep env socketId ts (.timeout a)).2 =
        [.output "\n[Killed: 30s timeout]\n" "system"]) := by
  rw [timeout_armed env socketId ts a pa ha ht]
  constructor
  · intro b hb
    simp only [onTimeout, hb]
    exact ⟨trivial, rfl⟩
  · intro hn
    simp only [onTimeout, hn]

/-- C12 on two traces: run A, run B, expiry of A's timer before A's process has closed (B's
process `1` gets the signal); and run A, `terminal:kill`, expiry of A's timer (the timeout
message is emitted for a run that was killed). -/
theorem timer_not_scoped_to_its_run_witness :
    (termRun exampleEnv "s1" TermState.init exampleRuns).1.term._activeProc = some 1 ∧
    (termStep exampleEnv "s1" (termRun exampleEnv "s1" TermState.init exampleRuns).1
      (.timeout 0)).2 = [.kill 1 "SIGTERM", .output "\n[Killed: 30s timeout]\n" "system"] ∧
    (termStep exampleEnv "s1"
      (termRun exampleEnv "s1" TermState.init [exampleRunA, .kill]).1
      (.timeout 0)).2 = [.output "\n[Killed: 30s timeout]\n" "system"] :=
  ⟨by decide,
   ((timer_not_scoped_to_its_run exampleEnv "s1"
      (termRun exampleEnv "s1" TermState.init exampleRuns).1 0
      { pid := 0, file := some "/tmp/sk_s1.js", timer := true, closed := false,
        stdinDestroyed := false } (by decide) rfl).1 1 (by decide)).1,
   (timer_not_scoped_to_its_run exampleEnv "s1"
      (termRun exampleEnv "s1" TermState.init [exampleRunA, .kill]).1 0
      { pid := 0, file := some "/tmp/sk_s1.js", timer := true, closed := false,
        stdinDestroyed := false } (by decide) rfl).2 (by decide)⟩

/-! ## C13: `terminal:kill` -/

/-- C13: with process `p` in the slot, `terminal:kill` sends `p` the signal `SIGTERM`, empties
the slot and changes nothing else, and emits the output `\n^C\n` on the `system` channel
followed by the exit event with status 130; with an empty slot it emits nothing and the state
stays as it is. -/
theorem kill_active_process (env : Env) (socketId : String) (ts : TermState) :
    (∀ p, ts.term._activeProc = some p →
      (termStep env socketId ts .kill).2 =
        [.kill p "SIGTERM", .output "\n^C\n" "system", .exit 130] ∧
      (termStep env socketId ts .kill).1.term._activeProc = none ∧
      (termStep env socketId ts .kill).1.term.nextPid = ts.term.nextPid ∧
      (termStep env socketId ts .kill).1.procs = ts.procs) ∧
    (ts.term._activeProc = none → termStep env socketId ts .kill = (ts, [])) := by
  constructor
  · intro p hp
    simp only [termStep, terminalKill, hp]
    exact ⟨trivial, rfl, rfl, rfl⟩
  · intro hn
    simp only [termStep, terminalKill, hn]

/-- C13 on a running script and on a fresh connection. -/
theorem kill_active_process_witness :
    (termStep exampleEnv "s1"
      (termRun exampleEnv "s1" TermState.init [exampleRunA]).1 .kill).2 =
      [.kill 0 "SIGTERM", .output "\n^C\n" "system", .exit 130] ∧
    termStep exampleEnv "s1" TermState.init .kill = (TermState.init, []) :=
  ⟨((kill_active_process exampleEnv "s1"
      (termRun exampleEnv "s1" TermState.init [exampleRunA]).1).1 0
      (by decide)).1,
   (kill_active_process exampleEnv "s1" TermState.init).2 (by decide)⟩

/-! ## C14: a missing executable -/

/-- C14: when a spawned process that has not closed reports an error with code `ENOENT` and
path `path`, the `error` listener does exactly this: it empties the slot, emits one output
event on the `stderr` channel whose text contains `path`, and then the exit event with
status 1; nothing is thrown and no other state changes. -/
theorem spawn_failure_reported (env : Env) (socketId : String) (ts : TermState) (pid : Nat)
    (pr : Proc) (path message : String)
    (hp : ts.proc? pid = some pr) (hopen : pr.closed = false) :
    ∃ data,
      (termStep env socketId ts (.error pid "ENOENT" path message)).2 =
        [.output data "stderr", .exit 1] ∧
      (∃ before after, data = before ++ path ++ after) ∧
      (termStep env socketId ts (.error pid "ENOENT" path message)).1.term._activeProc = none ∧
      (termStep env socketId ts (.error pid "ENOENT" path message)).1.procs = ts.procs := by
  rw [error_open env socketId ts pid pr "ENOENT" path message hp hopen]
  refine ⟨_, rfl, ⟨"Error: " ++ message ++ " — \"", "\" is not installed or not in PATH." ++ "\n",
    ?_⟩, rfl, rfl⟩
  simp only [errorHint, if_true, String.append_assoc]

/-- C14 on a host without `gradle`: the command `gradle build` is spawned and Node reports
`ENOENT` for the path `gradle`. -/
theorem spawn_failure_reported_witness :
    (termStep exampleEnv "s1" TermState.init (.run none none (some "gradle build"))).2 =
      [.spawn 0 "gradle" ["build"] "/tmp" false none, .setTimeout 0 30000] ∧
    ∃ data,
      (termStep exampleEnv "s1"
        (termStep exampleEnv "s1" TermState.init (.run none none (some "gradle build"))).1
        (.error 0 "ENOENT" "gradle" "spawn gradle ENOENT")).2 =
        [.output data "stderr", .exit 1] ∧
      (∃ before after, data = before ++ "gradle" ++ after) ∧
      (termStep exampleEnv "s1"
        (termStep exampleEnv "s1" TermState.init (.run none none (some "gradle build"))).1
        (.error 0 "ENOENT" "gradle" "spawn gradle ENOENT")).1.term._activeProc = none ∧
      (termStep exampleEnv "s1"
        (termStep exampleEnv "s1" TermState.init (.run none none (some "gradle build"))).1
        (.error 0 "ENOENT" "gradle" "spawn gradle ENOENT")).1.procs =
        (termStep exampleEnv "s1" TermState.init (.run none none (some "gradle build"))).1.procs :=
  ⟨by decide,
   spawn_failure_reported exampleEnv "s1"
    (termStep exampleEnv "s1" TermState.init (.run none none (some "gradle build"))).1 0
    { pid := 0, file := none, timer := true, closed := false, stdinDestroyed := false }
    "gradle" "spawn gradle ENOENT" (by decide) rfl⟩

/-! ## C16: disconnect and the running process -/

theorem term_terminal (env : Env) (sv : Server) (c : String) (e : TermEvent) :
    (serverStep env sv (.terminal c e)).1.term c = (termStep env c (sv.term c) e).1 := by
  simp only [serverStep, Server.term, mapGet_mapSet, if_true, Option.getD_some]

/-- C16 fails: `s1` is in room `A` with process `0` running when it disconnects; the disconnect
removes it from the room, sends no signal to the process and leaves the process in the slot. -/
theorem disconnect_keeps_process_counterexample :
    (exampleServer.term "s1").term._activeProc = some 0 ∧
    isMember exampleServer.state "s1" "A" ∧
    ¬ isMember (serverStep exampleEnv exampleServer (.presence (.disconnect "s1"))).1.state
      "s1" "A" ∧
    (serverStep exampleEnv exampleServer (.presence (.disconnect "s1"))).2.actions = [] ∧
    ((serverStep exampleEnv exampleServer (.presence (.disconnect "s1"))).1.term
      "s1").term._activeProc = some 0 := by
  decide

/-- C16, amended: the disconnect of a connection with process `p` in its slot does nothing on
the terminal side, whatever rooms the connection is in: no signal is sent, and the slot and the
timers are as before. The process is terminated and the slot emptied later, when the timer
armed for `p` expires with `p` still in the slot. -/
theorem disconnect_leaves_process (env : Env) (sv : Server) (c : String) (p : Nat) (pr : Proc)
    (h : (sv.term c).term._activeProc = some p)
    (hp : (sv.term c).proc? p = some pr) (ht : pr.timer = true) :
    (serverStep env sv (.presence (.disconnect c))).2.actions = [] ∧
    (serverStep env sv (.presence (.disconnect c))).1.term c = sv.term c ∧
    (serverStep env (serverStep env sv (.presence (.disconnect c))).1
      (.terminal c (.timeout p))).2.actions =
      [.kill p "SIGTERM", .output "\n[Killed: 30s timeout]\n" "system"] ∧
    ((serverStep env (serverStep env sv (.presence (.disconnect c))).1
      (.terminal c (.timeout p))).1.term c).term._activeProc = none := by
  have h1 : (serverStep env sv (.presence (.disconnect c))).1.term c = sv.term c := rfl
  refine ⟨rfl, h1, ?_, ?_⟩
  · show (termStep env c ((serverStep env sv (.presence (.disconnect c))).1.term c)
      (.timeout p)).2 = _
    rw [h1, timeout_armed env c _ p pr hp ht]
    simp only [onTimeout, h]
  · rw [term_terminal, h1, timeout_armed env c _ p pr hp ht]
    simp only [onTimeout, h]
    rfl

/-- C16, amended, on a connection in room `A` and on a connection in no room. -/
theorem disconnect_leaves_process_witness :
    ((serverStep exampleEnv exampleServer (.presence (.disconnect "s1"))).1.term "s1" =
      exampleServer.term "s1" ∧
     ((serverStep exampleEnv exampleServer (.presence (.disconnect "s1"))).1.term
       "s1").term._activeProc = some 0) ∧
    ((serverStep exampleEnv exampleServerNoRoom (.presence (.disconnect "s2"))).2.actions = [] ∧
     ((serverStep exampleEnv exampleServerNoRoom (.presence (.disconnect "s2"))).1.term
       "s2").term._activeProc = some 0) :=
  ⟨⟨(disconnect_leaves_process exampleEnv exampleServer "s1" 0
      { pid := 0, file := some "/tmp/sk_s1.js", timer := true, closed := false,
        stdinDestroyed := false } (by decide) (by decide) rfl).2.1, by decide⟩,
   ⟨(disconnect_leaves_process exampleEnv exampleServerNoRoom "s2" 0
      { pid := 0, file := none, timer := true, closed := false, stdinDestroyed := false }
      (by decide) (by decide) rfl).1, by decide⟩⟩

/-! ## The voice maps -/

theorem mapSet_mapSet {V : Type} (m : List (String × V)) (k : String) (v v' : V) :
    mapSet (mapSet m k v) k v' = mapSet m k v' := by
  induction m with
  | nil => simp [mapSet]
  | cons e m ih =>
    obtain ⟨a, b⟩ := e
    by_cases h : a = k
    · simp [mapSet, h]
    · simp [mapSet, h, ih]

theorem mapSet_ne_nil {V : Type} (m : List (String × V)) (k : String) (v : V) :
    mapSet m k v ≠ [] := by
  cases m with
  | nil => simp [mapSet]
  | cons e m =>
    obtain ⟨a, b⟩ := e
    by_cases h : a = k <;> simp [mapSet, h]

theorem voiceJoin_falsy (s : State) (c : String) (roomId : Option String)
    (h : truthy roomId = false) : voiceJoin s c roomId = (s, []) := by
  unfold voiceJoin; simp [h]

theorem voiceJoin_eq (s : State) (c rid : String) (h : rid ≠ "") :
    voiceJoin s c (some rid) =
      ({ s with voiceRooms :=
          mapSet s.voiceRooms rid (mapSet (voiceOf s rid) c (voiceEntryOf s c)) },
        [emitSelf c (.voiceCurrentUsers (mapValues (voiceOf s rid))),
         emitOthers s c rid (.voiceUserJoined (voiceEntryOf s c))]) := by
  have ht : truthy (some rid) = true := by simp [truthy, h]
  unfold voiceJoin voiceOf
  simp only [ht, Bool.not_true, Bool.false_eq_true, if_false, Option.getD_some]
  cases hg : mapGet s.voiceRooms rid with
  | none =>
    have hh : mapHas s.voiceRooms rid = false := by simp [mapHas, hg]
    simp only [hh, Bool.false_eq_true, if_false, mapGet_mapSet, if_true, Option.getD_some,
      Option.getD_none, mapSet_mapSet]
    rfl
  | some v =>
    have hh : mapHas s.voiceRooms rid = true := by simp [mapHas, hg]
    simp only [hh, if_true, hg, Option.getD_some]

theorem voiceJoin_voiceOf (s : State) (c rid r' : String) (h : rid ≠ "") :
    voiceOf (voiceJoin s c (some rid)).1 r' =
      if r' = rid then mapSet (voiceOf s rid) c (voiceEntryOf s c) else voiceOf s r' := by
  rw [voiceJoin_eq s c rid h]
  show (mapGet (mapSet s.voiceRooms rid _) r').getD [] = _
  rw [mapGet_mapSet]
  by_cases hr : r' = rid
  · subst hr; simp
  · have : ¬ rid = r' := fun e => hr e.symm
    simp only [this, hr, if_false]
    rfl

theorem leaveVoice_voiceRooms (s : State) (c rid : String) :
    (_leaveVoice s c (some rid)).1.voiceRooms =
      match mapGet s.voiceRooms rid with
      | none => s.voiceRooms
      | some vRoom =>
        if (mapDelete vRoom c).length = 0 then mapDelete s.voiceRooms rid
        else mapSet s.voiceRooms rid (mapDelete vRoom c) := by
  unfold _leaveVoice
  cases hg : mapGet s.voiceRooms rid with
  | none => simp only [hg]
  | some vRoom =>
    cases hu : mapGet vRoom c with
    | none => simp only [hg, hu]
    | some u => simp only [hg, hu]

theorem leaveVoice_voiceOf (s : State) (c rid r' : String) :
    voiceOf (_leaveVoice s c (some rid)).1 r' =
      if r' = rid then mapDelete (voiceOf s rid) c else voiceOf s r' := by
  unfold voiceOf
  rw [leaveVoice_voiceRooms]
  cases hg : mapGet s.voiceRooms rid with
  | none =>
    have h0 : (mapDelete ([] : List (String × VoiceEntry)) c) = [] := rfl
    by_cases hr : r' = rid
    · subst hr; simp [hg, h0]
    · simp [hr]
  | some vRoom =>
    simp only []
    by_cases hr : r' = rid
    · subst hr
      by_cases hl : (mapDelete vRoom c).length = 0
      · simp [hl, mapGet_mapDelete, mapDelete_length _ _ hl]
      · simp [hl, mapGet_mapSet]
    · have hr' : ¬ rid = r' := fun e => hr e.symm
      split_ifs <;> simp [mapGet_mapDelete, mapGet_mapSet, hr']

theorem leaveVoice_none (s : State) (c : String) : _leaveVoice s c none = (s, []) := rfl

theorem joinCore_voiceRooms (s : State) (c rid : String) (userId name avatar : Option String)
    (room : Room) :
    (joinCore s c rid userId name avatar room).1.voiceRooms = s.voiceRooms := by
  unfold joinCore
  simp only [State.setCurrentRoomId, State.setSessionUser]
  split_ifs <;> rfl

theorem joinLeave_voiceRooms (s : State) (c : String) :
    (joinLeave s c).1.voiceRooms = s.voiceRooms := by
  unfold joinLeave
  split
  · exact leaveRoom_voiceRooms _ _ _
  · rfl

theorem joinRoom_voiceRooms (s : State) (c : String) (roomId userId name avatar : Option String) :
    (joinRoom s c roomId userId name avatar).1.voiceRooms = s.voiceRooms := by
  rw [joinRoom_eq]
  split
  · rfl
  · split
    · exact joinLeave_voiceRooms s c
    · rename_i room _
      exact (joinCore_voiceRooms _ _ _ _ _ _ room).trans (joinLeave_voiceRooms s c)

theorem codeChange_voiceRooms (s : State) (c : String) (roomId code language : Option String) :
    (codeChange s c roomId code language).1.voiceRooms = s.voiceRooms := by
  unfold codeChange
  split <;> rfl

theorem disconnect_voiceRooms (s : State) (c : String) :
    (disconnect s c).1.voiceRooms =
      if truthy (s.conn c).currentRoomId then
        (_leaveVoice s c (s.conn c).currentRoomId).1.voiceRooms
      else s.voiceRooms := by
  rw [disconnect_eq]
  split
  · rw [leaveRoom_voiceRooms]
    unfold disconnectMid
    cases hcur : (s.conn c).currentRoomId with
    | none => rfl
    | some r => rw [leaveVoice_voiceRooms, leaveVoice_voiceRooms]
  · rfl

theorem voiceOf_congr (s t : State) (h : t.voiceRooms = s.voiceRooms) (r : String) :
    voiceOf t r = voiceOf s r := by
  unfold voiceOf; rw [h]

/-! ## The voice invariant -/

theorem invVoice_congr (s t : State) (h : t.voiceRooms = s.voiceRooms) (hi : InvVoice s) :
    InvVoice t := by
  intro r
  rw [voiceOf_congr s t h r]
  exact hi r

theorem invVoice_init (db : List Room) : InvVoice (State.init db) := by
  intro r
  exact ⟨List.nodup_nil, fun e he => absurd he (List.not_mem_nil e)⟩

theorem invVoice_voiceJoin (s : State) (c : String) (roomId : Option String) (hi : InvVoice s) :
    InvVoice (voiceJoin s c roomId).1 := by
  by_cases ht : truthy roomId = true
  · cases roomId with
    | none => simp [truthy] at ht
    | some rid =>
      have hrid : rid ≠ "" := by simpa [truthy] using ht
      intro r
      rw [voiceJoin_voiceOf s c rid r hrid]
      by_cases hr : r = rid
      · rw [if_pos hr]
        refine ⟨nodup_mapKeys_mapSet _ _ _ (hi rid).1, fun e he => ?_⟩
        rcases mem_mapSet _ _ _ _ he with h | h
        · rw [h]; rfl
        · exact (hi rid).2 e h
      · rw [if_neg hr]; exact hi r
  · rw [voiceJoin_falsy s c roomId (by simpa using ht)]; exact hi

theorem invVoice_leaveVoice (s : State) (c : String) (roomId : Option String)
    (hi : InvVoice s) : InvVoice (_leaveVoice s c roomId).1 := by
  cases roomId with
  | none => exact hi
  | some rid =>
    intro r
    rw [leaveVoice_voiceOf]
    by_cases hr : r = rid
    · rw [if_pos hr]
      exact ⟨nodup_mapKeys_mapDelete _ _ (hi rid).1,
        fun e he => (hi rid).2 e (mem_mapDelete _ _ _ he)⟩
    · rw [if_neg hr]; exact hi r

theorem invVoice_step (s : State) (e : Event) (hi : InvVoice s) : InvVoice (step s e).1 := by
  cases e with
  | connect c => exact invVoice_congr s _ rfl hi
  | joinRoom c roomId userId name avatar =>
    exact invVoice_congr s _ (joinRoom_voiceRooms s c roomId userId name avatar) hi
  | codeChange c roomId code language =>
    exact invVoice_congr s _ (codeChange_voiceRooms s c roomId code language) hi
  | requestCode c roomId =>
    show InvVoice (requestCode s c roomId).1
    rw [requestCode_state]; exact hi
  | voiceJoin c roomId => exact invVoice_voiceJoin s c roomId hi
  | voiceLeave c roomId => exact invVoice_leaveVoice s c roomId hi
  | disconnect c =>
    have h := disconnect_voiceRooms s c
    by_cases ht : truthy (s.conn c).currentRoomId = true
    · rw [if_pos ht] at h
      exact invVoice_congr _ _ h (invVoice_leaveVoice s c _ hi)
    · rw [if_neg ht] at h
      exact invVoice_congr s _ h hi

theorem invVoice_run (s : State) (evs : List Event) (hi : InvVoice s) :
    InvVoice (run s evs) := by
  induction evs generalizing s with
  | nil => exact hi
  | cons e es ih => exact ih _ (invVoice_step s e hi)

theorem invVoice_reach (db : List Room) (evs : List Event) :
    InvVoice (run (State.init db) evs) :=
  invVoice_run _ _ (invVoice_init db)

/-! ## No empty map -/

theorem noEmpty_mapSet {V : Type} (m : List (String × List V)) (k : String) (v : List V)
    (hv : v ≠ []) (h : ∀ e, e ∈ m → e.2 ≠ []) : ∀ e, e ∈ mapSet m k v → e.2 ≠ [] := by
  intro e he
  rcases mem_mapSet _ _ _ _ he with h1 | h1
  · rw [h1]; exact hv
  · exact h e h1

theorem noEmpty_mapDelete {V : Type} (m : List (String × List V)) (k : String)
    (h : ∀ e, e ∈ m → e.2 ≠ []) : ∀ e, e ∈ mapDelete m k → e.2 ≠ [] :=
  fun e he => h e (mem_mapDelete _ _ _ he)

theorem noEmpty_leaveRoom (s : State) (c r : String) (h : ∀ e, e ∈ s.roomSessions → e.2 ≠ []) :
    ∀ e, e ∈ (_leaveRoom s c r).1.roomSessions → e.2 ≠ [] := by
  rw [leaveRoom_roomSessions]
  cases mapGet s.roomSessions r with
  | none => exact h
  | some session =>
    simp only []
    split
    · exact noEmpty_mapDelete _ _ h
    · rename_i hl
      exact noEmpty_mapSet _ _ _ (fun e => hl (by rw [e]; rfl)) h

theorem noEmpty_joinLeave (s : State) (c : String) (h : ∀ e, e ∈ s.roomSessions → e.2 ≠ []) :
    ∀ e, e ∈ (joinLeave s c).1.roomSessions → e.2 ≠ [] := by
  unfold joinLeave
  split
  · exact noEmpty_leaveRoom _ _ _ h
  · exact h

theorem noEmpty_joinCore (s : State) (c rid : String) (userId name avatar : Option String)
    (room : Room) (h : ∀ e, e ∈ s.roomSessions → e.2 ≠ []) :
    ∀ e, e ∈ (joinCore s c rid userId name avatar room).1.roomSessions → e.2 ≠ [] := by
  rw [joinCore_roomSessions]
  split
  · exact noEmpty_mapSet _ _ _ (mapSet_ne_nil _ _ _) h
  · rw [mapSet_mapSet]
    exact noEmpty_mapSet _ _ _ (mapSet_ne_nil _ _ _) h

theorem noEmpty_joinRoom (s : State) (c : String) (roomId userId name avatar : Option String)
    (h : ∀ e, e ∈ s.roomSessions → e.2 ≠ []) :
    ∀ e, e ∈ (joinRoom s c roomId userId name avatar).1.roomSessions → e.2 ≠ [] := by
  rw [joinRoom_eq]
  split
  · exact h
  · split
    · exact noEmpty_joinLeave s c h
    · rename_i room _
      exact noEmpty_joinCore _ _ _ _ _ _ room (noEmpty_joinLeave s c h)

theorem noEmpty_voiceJoin (s : State) (c : String) (roomId : Option String)
    (h : ∀ e, e ∈ s.voiceRooms → e.2 ≠ []) :
    ∀ e, e ∈ (voiceJoin s c roomId).1.voiceRooms → e.2 ≠ [] := by
  by_cases ht : truthy roomId = true
  · cases roomId with
    | none => simp [truthy] at ht
    | some rid =>
      have hrid : rid ≠ "" := by simpa [truthy] using ht
      rw [voiceJoin_eq s c rid hrid]
      exact noEmpty_mapSet _ _ _ (mapSet_ne_nil _ _ _) h
  · rw [voiceJoin_falsy s c roomId (by simpa using ht)]; exact h

theorem noEmpty_leaveVoice (s : State) (c : String) (roomId : Option String)
    (h : ∀ e, e ∈ s.voiceRooms → e.2 ≠ []) :
    ∀ e, e ∈ (_leaveVoice s c roomId).1.voiceRooms → e.2 ≠ [] := by
  cases roomId with
  | none => exact h
  | some rid =>
    rw [leaveVoice_voiceRooms]
    cases mapGet s.voiceRooms rid with
    | none => exact h
    | some vRoom =>
      simp only []
      split
      · exact noEmpty_mapDelete _ _ h
      · rename_i hl
        exact noEmpty_mapSet _ _ _ (fun e => hl (by rw [e]; rfl)) h

theorem noEmpty_step (s : State) (e : Event) (h : NoEmptyMaps s) : NoEmptyMaps (step s e).1 := by
  cases e with
  | connect c => exact ⟨h.1, h.2⟩
  | joinRoom c roomId userId name avatar =>
    refine ⟨noEmpty_joinRoom s c roomId userId name avatar h.1, ?_⟩
    show ∀ e, e ∈ (joinRoom s c roomId userId name avatar).1.voiceRooms → e.2 ≠ []
    rw [joinRoom_voiceRooms]; exact h.2
  | codeChange c roomId code language =>
    refine ⟨?_, ?_⟩
    · show ∀ e, e ∈ (codeChange s c roomId code language).1.roomSessions → e.2 ≠ []
      rw [(codeChange_fields s c roomId code language).1]; exact h.1
    · show ∀ e, e ∈ (codeChange s c roomId code language).1.voiceRooms → e.2 ≠ []
      rw [codeChange_voiceRooms]; exact h.2
  | requestCode c roomId =>
    show NoEmptyMaps (requestCode s c roomId).1
    rw [requestCode_state]; exact h
  | voiceJoin c roomId =>
    refine ⟨?_, noEmpty_voiceJoin s c roomId h.2⟩
    show ∀ e, e ∈ (voiceJoin s c roomId).1.roomSessions → e.2 ≠ []
    rw [(voiceJoin_fields s c roomId).1]; exact h.1
  | voiceLeave c roomId =>
    refine ⟨?_, noEmpty_leaveVoice s c roomId h.2⟩
    show ∀ e, e ∈ (_leaveVoice s c roomId).1.roomSessions → e.2 ≠ []
    rw [(leaveVoice_fields s c roomId).1]; exact h.1
  | disconnect c =>
    refine ⟨?_, ?_⟩
    · show ∀ e, e ∈ (disconnect s c).1.roomSessions → e.2 ≠ []
      rw [disconnect_eq]
      split
      · exact noEmpty_leaveRoom _ _ _ (by rw [(disconnectMid_fields s c).1]; exact h.1)
      · exact h.1
    · show ∀ e, e ∈ (disconnect s c).1.voiceRooms → e.2 ≠ []
      rw [disconnect_voiceRooms]
      split
      · exact noEmpty_leaveVoice s c _ h.2
      · exact h.2

theorem noEmpty_run (s : State) (evs : List Event) (h : NoEmptyMaps s) :
    NoEmptyMaps (run s evs) := by
  induction evs generalizing s with
  | nil => exact h
  | cons e es ih => exact ih _ (noEmpty_step s e h)

theorem noEmpty_init (db : List Room) : NoEmptyMaps (State.init db) :=
  ⟨fun e he => absurd he (List.not_mem_nil e), fun e he => absurd he (List.not_mem_nil e)⟩

theorem mapGet_mem {V : Type} (m : List (String × V)) (k : String) (v : V)
    (h : mapGet m k = some v) : (k, v) ∈ m := by
  induction m with
  | nil => simp [mapGet] at h
  | cons e m ih =>
    obtain ⟨a, b⟩ := e
    by_cases hk : a = k
    · simp [mapGet, hk] at h
      simp [hk, h]
    · simp [mapGet, hk] at h
      exact List.mem_cons_of_mem _ (ih h)

/-! ## C15: disconnect and the presence maps -/

theorem disconnect_cur (s : State) (c : String) (h : InvCore s) :
    ((disconnect s c).1.conn c).currentRoomId = none := by
  rw [disconnect_eq]
  cases hcur : (s.conn c).currentRoomId with
  | none => simpa [truthy, State.conn] using hcur
  | some r =>
    have hne : r ≠ "" := fun e => h.cur_ne c (by rw [hcur, e])
    have hconn : (disconnectMid s c).conn c = s.conn c :=
      conn_congr _ _ (disconnectMid_fields s c).2.1 c
    simp only [truthy, bne_iff_ne, ne_eq, hne, not_false_eq_true, decide_True, if_true,
      Option.getD_some]
    rw [leaveRoom_conn, hconn, if_pos ⟨rfl, hcur⟩]

theorem disconnect_not_member (s : State) (c r : String) (h : Inv s) :
    ¬ isMember (disconnect s c).1 c r := by
  have hi : Inv (step s (.disconnect c)).1 := inv_step s _ h
  intro hm
  have := (hi.1.member_iff c r).mp hm
  rw [show (step s (.disconnect c)).1 = (disconnect s c).1 from rfl, disconnect_cur s c h.1] at this
  exact absurd this (by simp)

theorem disconnect_not_voiceMember (s : State) (c r : String) (h : InvCore s)
    (hcur : (s.conn c).currentRoomId = some r) : ¬ isVoiceMember (disconnect s c).1 c r := by
  have hne : r ≠ "" := fun e => h.cur_ne c (by rw [hcur, e])
  have hv : voiceOf (disconnect s c).1 r = mapDelete (voiceOf s r) c := by
    have h1 := disconnect_voiceRooms s c
    rw [hcur, if_pos (by simp [truthy, hne])] at h1
    rw [voiceOf_congr _ _ h1 r, leaveVoice_voiceOf, if_pos rfl]
  unfold isVoiceMember
  rw [hv, mem_mapKeys_mapDelete]
  exact fun e => e.1 rfl

/-- C15 fails: a connection that joined the voice room `A` without being in a code room, and
a connection that joined the code room `A` and its voice room and then moved to the code room
`B`, are still keys of the voice map of `A` after their disconnect. What the `disconnect`
handler does achieve from every reachable state: the connection is a key of no map of
`roomSessions`, and not a key of the voice map of the room it was in. -/
theorem disconnect_leaves_voice_entry :
    isVoiceMember (run (State.init exampleDb) exampleVoiceOnly) "s1" "A" ∧
    isVoiceMember (run (State.init exampleDb) exampleVoiceMoved) "s1" "A" ∧
    (∀ (db : List Room) (evs : List Event) (c r : String),
      ¬ isMember (step (run (State.init db) evs) (.disconnect c)).1 c r) ∧
    (∀ (db : List Room) (evs : List Event) (c r : String),
      ((run (State.init db) evs).conn c).currentRoomId = some r →
      ¬ isVoiceMember (step (run (State.init db) evs) (.disconnect c)).1 c r) :=
  ⟨by decide, by decide,
   fun db evs c r => disconnect_not_member _ c r (inv_reach db evs),
   fun db evs c r hcur => disconnect_not_voiceMember _ c r (inv_reach db evs).1 hcur⟩

/-! ## C17 and C18: `voice:join` -/

theorem mapValues_ids (m : List (String × VoiceEntry))
    (h : ∀ e, e ∈ m → e.2.socketId = e.1) :
    (mapValues m).map (fun u => u.socketId) = mapKeys m := by
  induction m with
  | nil => rfl
  | cons e m ih =>
    simp only [mapValues, mapKeys, List.map_cons, List.map_map] at ih ⊢
    rw [h e (List.mem_cons_self _ _)]
    congr 1
    exact ih (fun x hx => h x (List.mem_cons_of_mem _ hx))

theorem mapGet_of_nodup {V : Type} (m : List (String × V)) (h : (mapKeys m).Nodup)
    (e : String × V) (he : e ∈ m) : mapGet m e.1 = some e.2 := by
  induction m with
  | nil => exact absurd he (List.not_mem_nil e)
  | cons x m ih =>
    obtain ⟨a, b⟩ := x
    simp only [mapKeys, List.map_cons, List.nodup_cons] at h
    rcases List.mem_cons.mp he with h1 | h1
    · rw [h1]; simp [mapGet]
    · have hne : a ≠ e.1 := fun e1 => h.1 (e1 ▸ List.mem_map_of_mem Prod.fst h1)
      simp only [mapGet, hne, if_false]
      exact ih h.2 h1

theorem voiceJoin_lists_others (s : State) (c rid : String) (hi : InvVoice s)
    (hc : ¬ isVoiceMember s c rid) :
    ListsVoiceOthers s c rid (mapValues (voiceOf s rid)) := by
  have hids := mapValues_ids (voiceOf s rid) (hi rid).2
  refine ⟨by rw [hids]; exact (hi rid).1, fun x => ?_, fun u hu => ?_⟩
  · rw [hids]
    constructor
    · intro hx
      exact ⟨hx, fun e => hc (e ▸ hx)⟩
    · intro hx
      exact hx.1
  · obtain ⟨e, he, rfl⟩ := List.mem_map.mp hu
    rw [(hi rid).2 e he]
    exact mapGet_of_nodup _ (hi rid).1 e he

/-- C17 fails: `s1` is registered in the voice room `A` and sends `voice:join` for `A` again;
the reply lists `s1` itself. For a joiner that is not yet registered the claim holds from
every reachable state: the single reply goes to the joiner and lists exactly the other
registered connections, each once with its stored entry, and the joiner is registered
afterwards; the first joiner of a voice room gets the empty list, the second the first. -/
theorem voice_rejoin_lists_joiner :
    (isVoiceMember (run (State.init exampleDb) [.voiceJoin "s1" (some "A")]) "s1" "A" ∧
     currentUsersReplies (step (run (State.init exampleDb) [.voiceJoin "s1" (some "A")])
        (.voiceJoin "s1" (some "A"))).2 =
       [(["s1"], [{ socketId := "s1", userId := none, name := "Anonymous" }])]) ∧
    (∀ (db : List Room) (evs : List Event) (c rid : String), rid ≠ "" →
      ¬ isVoiceMember (run (State.init db) evs) c rid →
      ∃ users,
        currentUsersReplies (step (run (State.init db) evs) (.voiceJoin c (some rid))).2 =
          [([c], users)] ∧
        ListsVoiceOthers (run (State.init db) evs) c rid users ∧
        isVoiceMember (step (run (State.init db) evs) (.voiceJoin c (some rid))).1 c rid) ∧
    (currentUsersReplies (step (State.init exampleDb) (.voiceJoin "s1" (some "A"))).2 =
       [(["s1"], [])] ∧
     currentUsersReplies (step (run (State.init exampleDb) [.voiceJoin "s1" (some "A")])
        (.voiceJoin "s2" (some "A"))).2 =
       [(["s2"], [{ socketId := "s1", userId := none, name := "Anonymous" }])]) := by
  refine ⟨by decide, ?_, by decide⟩
  intro db evs c rid hrid hc
  refine ⟨mapValues (voiceOf (run (State.init db) evs) rid), ?_,
    voiceJoin_lists_others _ c rid (invVoice_reach db evs) hc, ?_⟩
  · show currentUsersReplies (voiceJoin _ c (some rid)).2 = _
    rw [voiceJoin_eq _ c rid hrid]
    rfl
  · show c ∈ mapKeys (voiceOf (voiceJoin _ c (some rid)).1 rid)
    rw [voiceJoin_voiceOf _ c rid rid hrid, if_pos rfl, mem_mapKeys_mapSet]
    exact Or.inl rfl

/-- C18 fails: `s1` is registered in the voice room `A` without having joined the code room
`A`; when `s2` joins the voice room, the `voice:user-joined` notification about `s2` has no
recipient, also when both sockets are in the rooms of their own ids. From every state the
notification goes to the connections subscribed to the socket.io room of that id (the sockets
that joined the code room of that id, and the socket whose own id it is) other than the joiner,
whether they are in the voice room or not: a member of the code room `A` that is not in the
voice room gets it, and so does the socket `s1` when the voice room is named `s1`. -/
theorem voice_joined_misses_voice_members :
    (isVoiceMember (run (State.init exampleDb) [.voiceJoin "s1" (some "A")]) "s1" "A" ∧
     userJoinedNotices (step (run (State.init exampleDb) [.voiceJoin "s1" (some "A")])
        (.voiceJoin "s2" (some "A"))).2 =
       [([], { socketId := "s2", userId := none, name := "Anonymous" })]) ∧
    (∀ (s : State) (c rid : String), rid ≠ "" →
      userJoinedNotices (step s (.voiceJoin c (some rid))).2 =
        [((subscribers s.subs rid).filter (fun x => decide (x ≠ c)), voiceEntryOf s c)]) ∧
    (¬ isVoiceMember (run (State.init exampleDb) exampleJoins) "s1" "A" ∧
     userJoinedNotices (step (run (State.init exampleDb) exampleJoins)
        (.voiceJoin "s2" (some "A"))).2 =
       [(["s1"], { socketId := "s2", userId := some "u2", name := "Anonymous" })]) ∧
    (userJoinedNotices (step (run (State.init exampleDb)
        [.connect "s1", .connect "s2", .voiceJoin "s1" (some "A")])
        (.voiceJoin "s2" (some "A"))).2 =
       [([], { socketId := "s2", userId := none, name := "Anonymous" })] ∧
     userJoinedNotices (step (run (State.init exampleDb) [.connect "s1", .connect "s2"])
        (.voiceJoin "s2" (some "s1"))).2 =
       [(["s1"], { socketId := "s2", userId := none, name := "Anonymous" })]) := by
  refine ⟨by decide, ?_, by decide, by decide⟩
  intro s c rid hrid
  show userJoinedNotices (voiceJoin s c (some rid)).2 = _
  rw [voiceJoin_eq s c rid hrid]
  rfl

/-! ## C19: no room id is mapped to an empty map -/

/-- C19: after every sequence of events (connections, `join-room`, `code-change`,
`request-code`, `voice:join`, `voice:leave` and disconnects, in any order and from any
connections) no entry of `roomSessions` and no entry of `voiceRooms` is an empty map, so `get`
never returns one. -/
theorem no_empty_presence_map (db : List Room) (evs : List Event) :
    NoEmptyMaps (run (State.init db) evs) ∧
    (∀ r, mapGet (run (State.init db) evs).roomSessions r ≠ some []) ∧
    (∀ r, mapGet (run (State.init db) evs).voiceRooms r ≠ some []) := by
  have h := noEmpty_run _ evs (noEmpty_init db)
  exact ⟨h, fun r e => h.1 _ (mapGet_mem _ _ _ e) rfl, fun r e => h.2 _ (mapGet_mem _ _ _ e) rfl⟩

/-- C19 on a trace: the entries of room `A` exist while `s1` is in the room and its voice
room, and are gone (not left empty) once `s1` has left both. -/
theorem no_empty_presence_map_witness :
    NoEmptyMaps (run (State.init exampleDb) (exampleVoiceMoved.take 2)) ∧
    mapKeys (run (State.init exampleDb) (exampleVoiceMoved.take 2)).roomSessions = ["A"] ∧
    mapKeys (run (State.init exampleDb) (exampleVoiceMoved.take 2)).voiceRooms = ["A"] ∧
    (run (State.init exampleDb)
      (exampleVoiceMoved.take 2 ++ [.voiceLeave "s1" (some "A"), .disconnect "s1"])).roomSessions
      = [] ∧
    (run (State.init exampleDb)
      (exampleVoiceMoved.take 2 ++ [.voiceLeave "s1" (some "A"), .disconnect "s1"])).voiceRooms
      = [] :=
  ⟨(no_empty_presence_map exampleDb (exampleVoiceMoved.take 2)).1, by decide, by decide,
   by decide, by decide⟩

/-! ## C20: the colours of successive joins -/

theorem joinedColor_append (xs ys : List Emit)
    (h : ∀ e, e ∈ xs → ∀ u, e.msg ≠ .userJoined u) :
    joinedColor (xs ++ ys) = joinedColor ys := by
  induction xs with
  | nil => rfl
  | cons x xs ih =>
    have hx := h x (List.mem_cons_self _ _)
    have ih' := ih (fun e he => h e (List.mem_cons_of_mem _ he))
    unfold joinedColor at ih' ⊢
    rw [List.cons_append, List.findSome?_cons]
    cases hm : x.msg with
    | userJoined u => exact absurd hm (hx u)
    | _ => simpa using ih'

theorem joinedColor_none (xs : List Emit) (h : ∀ e, e ∈ xs → ∀ u, e.msg ≠ .userJoined u) :
    joinedColor xs = none := by
  have := joinedColor_append xs [] h
  rw [List.append_nil] at this
  rw [this]; rfl

theorem leaveRoom_noJoined (s : State) (c r : String) (e : Emit)
    (he : e ∈ (_leaveRoom s c r).2) (u : SessionUser) : e.msg ≠ .userJoined u := by
  unfold _leaveRoom at he
  cases hg : mapGet s.roomSessions r with
  | none => simp [hg] at he
  | some session =>
    cases hu : mapGet session c with
    | none => simp [hg, hu] at he
    | some x =>
      simp only [hg, hu, List.mem_cons, List.mem_singleton, List.not_mem_nil, or_false] at he
      rcases he with he | he <;> rw [he] <;> simp [emitOthers, emitAll]

theorem joinLeave_noJoined (s : State) (c : String) (e : Emit)
    (he : e ∈ (joinLeave s c).2) (u : SessionUser) : e.msg ≠ .userJoined u := by
  unfold joinLeave at he
  split at he
  · exact leaveRoom_noJoined _ _ _ e he u
  · exact absurd he (List.not_mem_nil e)

theorem joinLeave_colorIdx (s : State) (c : String) :
    (joinLeave s c).1.colorIdx = s.colorIdx := by
  unfold joinLeave
  split
  · exact leaveRoom_colorIdx _ _ _
  · rfl

theorem joinCore_color (s : State) (c rid : String) (userId name avatar : Option String)
    (room : Room) :
    joinedColor (joinCore s c rid userId name avatar room).2 =
        some (COLORS.getD (s.colorIdx % COLORS.length) "") ∧
      (joinCore s c rid userId name avatar room).1.colorIdx = s.colorIdx + 1 := by
  unfold joinCore
  simp only [State.setCurrentRoomId, State.setSessionUser]
  split_ifs <;> exact ⟨rfl, rfl⟩

theorem joinRoom_color (s : State) (c : String) (roomId userId name avatar : Option String) :
    (joinSucceeds s (.joinRoom c roomId userId name avatar) = true →
      joinedColor (joinRoom s c roomId userId name avatar).2 =
          some (COLORS.getD (s.colorIdx % COLORS.length) "") ∧
        (joinRoom s c roomId userId name avatar).1.colorIdx = s.colorIdx + 1) ∧
    (joinSucceeds s (.joinRoom c roomId userId name avatar) = false →
      joinedColor (joinRoom s c roomId userId name avatar).2 = none ∧
        (joinRoom s c roomId userId name avatar).1.colorIdx = s.colorIdx) := by
  by_cases ht : truthy roomId = true
  · cases roomId with
    | none => simp [truthy] at ht
    | some rid =>
      have hrid : rid ≠ "" := by simpa [truthy] using ht
      have hfi := joinLeave_findById s c rid
      cases hf : rooms.findById (joinLeave s c).1.rooms rid with
      | none =>
        rw [hf] at hfi
        have hs : joinSucceeds s (.joinRoom c (some rid) userId name avatar) = false := by
          simp only [joinSucceeds, ht, Option.getD_some, Bool.true_and]
          exact hfi.symm
        rw [joinRoom_notFound _ _ _ _ _ _ hrid hf, hs]
        refine ⟨fun h => absurd h (by simp), fun _ => ⟨?_, joinLeave_colorIdx s c⟩⟩
        rw [joinedColor_append _ _ (joinLeave_noJoined s c)]
        rfl
      | some room =>
        rw [hf] at hfi
        have hs : joinSucceeds s (.joinRoom c (some rid) userId name avatar) = true := by
          simp only [joinSucceeds, ht, Option.getD_some, Bool.true_and]
          exact hfi.symm
        rw [joinRoom_found _ _ _ _ _ _ room hrid hf, hs]
        refine ⟨fun _ => ?_, fun h => absurd h (by simp)⟩
        rw [joinedColor_append _ _ (joinLeave_noJoined s c)]
        have := joinCore_color (joinLeave s c).1 c rid userId name avatar room
        rw [joinLeave_colorIdx] at this
        exact this
  · have hf : truthy roomId = false := by simpa using ht
    have hs : joinSucceeds s (.joinRoom c roomId userId name avatar) = false := by
      simp [joinSucceeds, hf]
    rw [joinRoom_falsy _ _ _ _ _ _ hf, hs]
    exact ⟨fun h => absurd h (by simp), fun _ => ⟨rfl, rfl⟩⟩

theorem leaveVoice_colorIdx (s : State) (c : String) (roomId : Option String) :
    (_leaveVoice s c roomId).1.colorIdx = s.colorIdx := by
  unfold _leaveVoice
  cases roomId with
  | none => rfl
  | some rid =>
    simp only
    cases mapGet s.voiceRooms rid with
    | none => rfl
    | some vRoom =>
      simp only
      cases mapGet vRoom c <;> rfl

theorem other_color (s : State) (e : Event) (h : ∀ c r u n a, e ≠ .joinRoom c r u n a) :
    joinedColor (step s e).2 = none ∧ (step s e).1.colorIdx = s.colorIdx := by
  cases e with
  | connect c => exact ⟨rfl, rfl⟩
  | joinRoom c roomId userId name avatar => exact absurd rfl (h c roomId userId name avatar)
  | codeChange c roomId code language =>
    show joinedColor (codeChange s c roomId code language).2 = none ∧
      (codeChange s c roomId code language).1.colorIdx = s.colorIdx
    unfold codeChange
    split <;> exact ⟨rfl, rfl⟩
  | requestCode c roomId =>
    show joinedColor (requestCode s c roomId).2 = none ∧
      (requestCode s c roomId).1.colorIdx = s.colorIdx
    unfold requestCode
    split
    · exact ⟨rfl, rfl⟩
    · split <;> exact ⟨rfl, rfl⟩
  | voiceJoin c roomId =>
    show joinedColor (voiceJoin s c roomId).2 = none ∧ (voiceJoin s c roomId).1.colorIdx = s.colorIdx
    unfold voiceJoin
    split
    · exact ⟨rfl, rfl⟩
    · simp only; split_ifs <;> exact ⟨rfl, rfl⟩
  | voiceLeave c roomId =>
    refine ⟨joinedColor_none _ (fun e he u => ?_), leaveVoice_colorIdx s c roomId⟩
    obtain ⟨x, hx⟩ := leaveVoice_emits s c roomId e he
    rw [hx]; simp
  | disconnect c =>
    show joinedColor (disconnect s c).2 = none ∧ (disconnect s c).1.colorIdx = s.colorIdx
    rw [disconnect_eq]
    split
    · refine ⟨joinedColor_none _ (fun e he u => ?_), ?_⟩
      · rcases List.mem_append.mp he with h1 | h1
        · obtain ⟨x, hx⟩ := leaveVoice_emits _ c _ e h1
          rw [hx]; simp
        · exact leaveRoom_noJoined _ _ _ e h1 u
      · rw [leaveRoom_colorIdx]
        exact leaveVoice_colorIdx _ c _
    · exact ⟨rfl, rfl⟩

theorem step_color (s : State) (e : Event) :
    (joinSucceeds s e = true →
      joinedColor (step s e).2 = some (COLORS.getD (s.colorIdx % COLORS.length) "") ∧
        (step s e).1.colorIdx = s.colorIdx + 1) ∧
    (joinSucceeds s e = false →
      joinedColor (step s e).2 = none ∧ (step s e).1.colorIdx = s.colorIdx) := by
  by_cases h : ∃ c r u n a, e = .joinRoom c r u n a
  · obtain ⟨c, r, u, n, a, rfl⟩ := h
    exact joinRoom_color s c r u n a
  · have h' : ∀ c r u n a, e ≠ .joinRoom c r u n a := fun c r u n a he => h ⟨c, r, u, n, a, he⟩
    have hs : joinSucceeds s e = false := by
      cases e with
      | joinRoom c r u n a => exact absurd rfl (h' c r u n a)
      | _ => rfl
    rw [hs]
    exact ⟨fun h => absurd h (by simp), fun _ => other_color s e h'⟩

theorem colorsAssigned_eq (s : State) (evs : List Event) :
    colorsAssigned s evs =
        (List.range (colorsAssigned s evs).length).map
          (fun n => COLORS.getD ((s.colorIdx + n) % COLORS.length) "") ∧
      (run s evs).colorIdx = s.colorIdx + (colorsAssigned s evs).length := by
  induction evs generalizing s with
  | nil => exact ⟨rfl, rfl⟩
  | cons e es ih =>
    have ih' := ih (step s e).1
    have hc := step_color s e
    unfold colorsAssigned
    show _ ∧ (run (step s e).1 es).colorIdx = _
    cases hs : joinSucceeds s e with
    | true =>
      obtain ⟨h1, h2⟩ := hc.1 hs
      rw [h1]
      rw [h2] at ih'
      simp only [Option.toList, List.singleton_append, List.length_cons]
      refine ⟨?_, by rw [ih'.2]; omega⟩
      rw [List.range_succ_eq_map, List.map_cons, List.map_map]
      congr 1
      conv_lhs => rw [ih'.1]
      apply List.map_congr_left
      intro n _
      simp only [Function.comp, Nat.succ_eq_add_one]
      congr 2
      omega
    | false =>
      obtain ⟨h1, h2⟩ := hc.2 hs
      rw [h1]
      rw [h2] at ih'
      simpa [Option.toList] using ih'

theorem palette_distinct :
    ∀ a b : Fin 8, a ≠ b → COLORS.getD a.val "" ≠ COLORS.getD b.val "" := by
  decide

theorem colorsAssigned_length (s : State) (evs : List Event) :
    (colorsAssigned s evs).length = joinCount s evs := by
  induction evs generalizing s with
  | nil => rfl
  | cons e es ih =>
    unfold colorsAssigned joinCount
    rw [List.length_append, ih]
    cases hs : joinSucceeds s e with
    | true => rw [((step_color s e).1 hs).1]; rfl
    | false => rw [((step_color s e).2 hs).1]; rfl

theorem colorsAssigned_get (db : List Room) (evs : List Event) (n : Nat)
    (h : n < (colorsAssigned (State.init db) evs).length) :
    (colorsAssigned (State.init db) evs)[n]? = some (COLORS.getD (n % 8) "") := by
  have h1 := (colorsAssigned_eq (State.init db) evs).1
  rw [h1, List.getElem?_map, List.getElem?_range h]
  show some (COLORS.getD ((0 + n) % 8) "") = _
  rw [Nat.zero_add]

/-- C20: the colours given by the successful joins of any sequence of events are, in order,
the palette entries `0, 1, …, 7, 0, 1, …`: the `n`-th successful join (from 0) gets entry
`n mod 8` of the 8-entry palette, joins `n` and `n + 8` get the same colour, and any two joins
less than 8 apart get different colours. A join that succeeds takes the entry at the counter
and advances the counter by one; a rejected join (room id missing, empty or unknown) and every
other event give no colour and leave the counter as it is. -/
theorem colours_round_robin (db : List Room) (evs : List Event) :
    COLORS.length = 8 ∧
    (colorsAssigned (State.init db) evs).length = joinCount (State.init db) evs ∧
    (∀ n, n < joinCount (State.init db) evs →
      (colorsAssigned (State.init db) evs)[n]? = some (COLORS.getD (n % 8) "")) ∧
    (∀ n, n + 8 < joinCount (State.init db) evs →
      (colorsAssigned (State.init db) evs)[n]? =
        (colorsAssigned (State.init db) evs)[n + 8]?) ∧
    (∀ i j, i < j → j < i + 8 → j < joinCount (State.init db) evs →
      (colorsAssigned (State.init db) evs)[i]? ≠ (colorsAssigned (State.init db) evs)[j]?) ∧
    (∀ (s : State) (e : Event), joinSucceeds s e = true →
      joinedColor (step s e).2 = some (COLORS.getD (s.colorIdx % 8) "") ∧
        (step s e).1.colorIdx = s.colorIdx + 1) ∧
    (∀ (s : State) (e : Event), joinSucceeds s e = false →
      joinedColor (step s e).2 = none ∧ (step s e).1.colorIdx = s.colorIdx) := by
  have hl := colorsAssigned_length (State.init db) evs
  refine ⟨rfl, hl, fun n hn => colorsAssigned_get db evs n (hl ▸ hn), fun n hn => ?_,
    fun i j hij hj8 hj => ?_, fun s e hs => (step_color s e).1 hs,
    fun s e hs => (step_color s e).2 hs⟩
  · rw [colorsAssigned_get db evs n (by omega), colorsAssigned_get db evs (n + 8) (by omega)]
    congr 2
    omega
  · rw [colorsAssigned_get db evs i (by omega), colorsAssigned_get db evs j (by omega)]
    intro e
    have hi : i % 8 < 8 := Nat.mod_lt _ (by decide)
    have hj' : j % 8 < 8 := Nat.mod_lt _ (by decide)
    exact palette_distinct ⟨i % 8, hi⟩ ⟨j % 8, hj'⟩
      (fun e' => by have := congrArg Fin.val e'; simp only at this; omega)
      (Option.some.inj e)

/-- C20 on ten successful joins with two rejected joins in between: the colours are the eight
palette entries in order, then the first two again. -/
theorem colours_round_robin_witness :
    joinCount (State.init exampleDb) exampleTenJoins = 10 ∧
    colorsAssigned (State.init exampleDb) exampleTenJoins = COLORS ++ COLORS.take 2 ∧
    (colorsAssigned (State.init exampleDb) exampleTenJoins)[9]? = some (COLORS.getD (9 % 8) "") :=
  ⟨by decide, by decide,
   (colours_round_robin exampleDb exampleTenJoins).2.2.1 9 (by decide)⟩

/-! ## C21: `leave-room` -/

theorem mapDelete_absent {V : Type} (m : List (String × V)) (k : String)
    (h : k ∉ mapKeys m) : mapDelete m k = m := by
  unfold mapDelete
  rw [List.filter_eq_self]
  intro e he
  have : e.1 ≠ k := fun e1 => h (e1 ▸ List.mem_map_of_mem Prod.fst he)
  simpa using this

theorem mapSet_self {V : Type} (m : List (String × V)) (k : String) (v : V)
    (h : mapGet m k = some v) : mapSet m k v = m := by
  induction m with
  | nil => simp [mapGet] at h
  | cons e m ih =>
    obtain ⟨a, b⟩ := e
    by_cases hk : a = k
    · simp [mapGet, hk] at h
      simp [mapSet, hk, h]
    · simp [mapGet, hk] at h
      simp [mapSet, hk, ih h]

theorem leaveRoom_member (s : State) (c r : String) (h : InvCore s) (hm : isMember s c r) :
    ¬ isMember (_leaveRoom s c r).1 c r ∧
    ((_leaveRoom s c r).1.conn c).currentRoomId = none ∧
    (mapDelete (sessionOf s r) c = [] → mapGet (_leaveRoom s c r).1.roomSessions r = none) := by
  have hcur : (s.conn c).currentRoomId = some r := (h.member_iff c r).mp hm
  refine ⟨?_, ?_, ?_⟩
  · unfold isMember
    rw [leaveRoom_sessionOf, if_pos rfl, mem_mapKeys_mapDelete]
    exact fun e => e.1 rfl
  · rw [leaveRoom_conn, if_pos ⟨rfl, hcur⟩]
  · intro he
    rw [leaveRoom_roomSessions]
    unfold sessionOf at he
    cases hg : mapGet s.roomSessions r with
    | none => simpa using hg
    | some session =>
      rw [hg] at he
      simp only [Option.getD_some] at he
      simp [he, mapGet_mapDelete]

theorem leaveRoom_stranger (s : State) (c r : String) (h : InvCore s) (hn : NoEmptyMaps s)
    (hm : ¬ isMember s c r) :
    (_leaveRoom s c r).1.roomSessions = s.roomSessions ∧
    (_leaveRoom s c r).1.conns = s.conns := by
  have hcur : (s.conn c).currentRoomId ≠ some r := fun e => hm ((h.member_iff c r).mpr e)
  refine ⟨?_, ?_⟩
  · rw [leaveRoom_roomSessions]
    cases hg : mapGet s.roomSessions r with
    | none => rfl
    | some session =>
      have hk : c ∉ mapKeys session := by
        intro hc
        apply hm
        unfold isMember sessionOf
        rw [hg]; exact hc
      have hne : session ≠ [] := hn.1 _ (mapGet_mem _ _ _ hg)
      simp only [mapDelete_absent _ _ hk]
      rw [if_neg (fun e => hne (List.length_eq_zero.mp e))]
      exact mapSet_self _ _ _ hg
  · rw [leaveRoom_conns, if_neg hcur]

/-- C21 fails: `socket.js` registers no listener for `leave-room` (its header comment lists
the event), so the event is dropped: `s1`, a member of room `A`, sends `leave-room` for `A` and
is still a member with `A` as its current room. The helper `_leaveRoom`, which only `join-room`
and `disconnect` call, does what the claim says from every reachable state: for a member it
removes the record, deletes the entry of the room when the map becomes empty and clears the
current room; for a connection that is not in the room it leaves the presence maps and the
current room as they are. -/
theorem leave_room_has_no_listener :
    listenerOf "leave-room" = none ∧
    (∀ (s : State) (c : String) (p : Payload), receive s c "leave-room" p = s) ∧
    (isMember (run (State.init exampleDb) exampleJoins) "s1" "A" ∧
     isMember (receive (run (State.init exampleDb) exampleJoins) "s1" "leave-room"
       (Payload.room "A")) "s1" "A" ∧
     ((receive (run (State.init exampleDb) exampleJoins) "s1" "leave-room"
       (Payload.room "A")).conn "s1").currentRoomId = some "A") ∧
    (∀ (db : List Room) (evs : List Event) (c r : String),
      isMember (run (State.init db) evs) c r →
      ¬ isMember (_leaveRoom (run (State.init db) evs) c r).1 c r ∧
      ((_leaveRoom (run (State.init db) evs) c r).1.conn c).currentRoomId = none ∧
      (mapDelete (sessionOf (run (State.init db) evs) r) c = [] →
        mapGet (_leaveRoom (run (State.init db) evs) c r).1.roomSessions r = none)) ∧
    (∀ (db : List Room) (evs : List Event) (c r : String),
      ¬ isMember (run (State.init db) evs) c r →
      (_leaveRoom (run (State.init db) evs) c r).1.roomSessions =
        (run (State.init db) evs).roomSessions ∧
      (_leaveRoom (run (State.init db) evs) c r).1.conns = (run (State.init db) evs).conns) :=
  ⟨rfl, fun _ _ _ => rfl, by decide,
   fun db evs c r hm => leaveRoom_member _ c r (inv_reach db evs).1 hm,
   fun db evs c r hm =>
     leaveRoom_stranger _ c r (inv_reach db evs).1 (noEmpty_run _ evs (noEmpty_init db)) hm⟩

/-! ## C22: the exit events of a run -/

theorem find_update_eq (f : Proc → Proc) (hf : ∀ p, (f p).pid = p.pid) (pid : Nat) (pa : Proc)
    (l : List Proc) (h : l.find? (fun p => p.pid == pid) = some pa) :
    (l.map (fun p => if p.pid = pid then f p else p)).find? (fun p => p.pid == pid) =
      some (f pa) := by
  induction l with
  | nil => simp at h
  | cons x xs ih =>
    simp only [List.map_cons, List.find?_cons] at h ⊢
    by_cases hx : x.pid = pid
    · have h1 : (x.pid == pid) = true := by rw [hx]; exact beq_self_eq_true pid
      have h2 : ((f x).pid == pid) = true := by rw [hf, hx]; exact beq_self_eq_true pid
      rw [h1] at h
      rw [if_pos hx, h2]
      simp only [Option.some.injEq] at h
      rw [h]
    · have h1 : (x.pid == pid) = false := beq_false_of_ne hx
      rw [h1] at h
      rw [if_neg hx, h1]
      exact ih h

theorem onClose_closed (ts : TermState) (a : Nat) (pa : Proc) (c : Option Int)
    (ha : ts.proc? a = some pa) :
    (onClose ts pa c).1.proc? a = some { pa with closed := true, timer := false } := by
  have hp := proc_pid ts a pa ha
  subst hp
  exact find_update_eq (fun p => { p with closed := true, timer := false }) (fun _ => rfl)
    pa.pid pa ts.procs ha

theorem exits_onClose (ts : TermState) (pa : Proc) (c : Option Int) :
    exits (onClose ts pa c).2 = [exitOf c] := by
  unfold onClose exits
  cases pa.file <;> cases c <;> rfl

theorem exits_timeout (env : Env) (socketId : String) (ts : TermState) (p : Nat) :
    exits (termStep env socketId ts (.timeout p)).2 = [] := by
  simp only [termStep]
  cases ts.proc? p with
  | none => rfl
  | some pr =>
    cases ht : pr.timer with
    | false => simp [ht, exits]
    | true =>
      simp only [ht, if_true, onTimeout]
      cases ts.term._activeProc <;> rfl

/-- C22 fails: a run that is killed with `terminal:kill` gets two `terminal:exit` events,
status 130 from the handler and then the one of the `close` listener; a run whose spawn fails
gets status 1 from the `error` listener and then the one of the `close` Node emits after it. -/
theorem two_exit_events_counterexample :
    exits (termRun exampleEnv "s1" TermState.init [exampleRunA, .kill, .close 0 none]).2 =
      [.exit 130, .exitNull] ∧
    exits (termRun exampleEnv "s1" TermState.init
      [.run none none (some "gradle build"), .error 0 "ENOENT" "gradle" "spawn gradle ENOENT",
       .close 0 (some (-2))]).2 = [.exit 1, .exit (-2)] := by
  decide

/-- C22, amended: for a process that was spawned and has not closed, its close emits exactly
one `terminal:exit`, with the code of the close, and marks it closed, so that it emits none
again; before that, each error event of the process emits one `terminal:exit` with status 1
and each `terminal:kill` that finds a process in the slot emits one with status 130, both
without marking anything closed; the expiry of a timer emits none. -/
theorem exit_events_of_a_run (env : Env) (socketId : String) (ts : TermState) (a : Nat)
    (pa : Proc) (ha : ts.proc? a = some pa) (hopen : pa.closed = false) :
    (∀ c c', exits (termStep env socketId ts (.close a c)).2 = [exitOf c] ∧
      exits (termStep env socketId (termStep env socketId ts (.close a c)).1 (.close a c')).2 =
        []) ∧
    (∀ code path message,
      exits (termStep env socketId ts (.error a code path message)).2 = [.exit 1] ∧
      (termStep env socketId ts (.error a code path message)).1.procs = ts.procs) ∧
    (∀ p, ts.term._activeProc = some p →
      exits (termStep env socketId ts .kill).2 = [.exit 130] ∧
      (termStep env socketId ts .kill).1.procs = ts.procs) ∧
    (∀ p, exits (termStep env socketId ts (.timeout p)).2 = []) := by
  refine ⟨fun c c' => ?_, fun code path message => ?_, fun p hp => ?_,
    fun p => exits_timeout env socketId ts p⟩
  · rw [close_open env socketId ts a pa c ha hopen]
    refine ⟨exits_onClose ts pa c, ?_⟩
    simp only [termStep, onClose_closed ts a pa c ha]
    rfl
  · rw [error_open env socketId ts a pa code path message ha hopen]
    exact ⟨rfl, rfl⟩
  · simp only [termStep, terminalKill, hp]
    exact ⟨rfl, rfl⟩

/-- C22, amended, on a running script: its close gives one exit event, a `terminal:kill`
before the close gives one more. -/
theorem exit_events_of_a_run_witness :
    exits (termStep exampleEnv "s1" (termRun exampleEnv "s1" TermState.init [exampleRunA]).1
      (.close 0 (some 0))).2 = [.exit 0] ∧
    exits (termStep exampleEnv "s1" (termRun exampleEnv "s1" TermState.init [exampleRunA]).1
      .kill).2 = [.exit 130] :=
  ⟨((exit_events_of_a_run exampleEnv "s1"
      (termRun exampleEnv "s1" TermState.init [exampleRunA]).1 0
      { pid := 0, file := some "/tmp/sk_s1.js", timer := true, closed := false,
        stdinDestroyed := false } (by decide) rfl).1 (some 0) none).1,
   ((exit_events_of_a_run exampleEnv "s1"
      (termRun exampleEnv "s1" TermState.init [exampleRunA]).1 0
      { pid := 0, file := some "/tmp/sk_s1.js", timer := true, closed := false,
        stdinDestroyed := false } (by decide) rfl).2.2.1 0 (by decide)).1⟩

/-! ## The temp file of a code run -/

theorem writtenFiles_killPrevious (t : Term) (xs : List Action) :
    writtenFiles (killPrevious t ++ xs) = writtenFiles xs := by
  unfold killPrevious
  cases t._activeProc <;> rfl

theorem terminalRun_written (env : Env) (socketId : String) (t : Term)
    (code language command : Option String) (hcmd : truthy command = false)
    (hc : truthy code = true) :
    writtenFiles (terminalRun env socketId t code language command).2 =
      [env.pathJoin env.tmpDir (tempName env socketId code language)] := by
  unfold terminalRun tempName recipeOf
  simp only [hcmd, hc, Bool.false_eq_true, if_false, if_true]
  cases h1 : langMapGet (langKey language) with
  | own d => simp only [writtenFiles_killPrevious]; rfl
  | inherited => simp only [writtenFiles_killPrevious]; rfl
  | undefined =>
    simp only []
    cases h2 : langMapGet "javascript" with
    | own d => simp only [writtenFiles_killPrevious]; rfl
    | inherited => simp only [writtenFiles_killPrevious]; rfl
    | undefined => simp only [writtenFiles_killPrevious]; rfl

theorem tempName_eq (env : Env) (socketId : String) (code language : Option String) :
    tempName env socketId code language =
      stemOf env socketId code language ++ "." ++ extOf (langKey language) := by
  unfold tempName stemOf extOf
  cases recipeOf (langKey language) <;> rfl

theorem extensions_table :
    ∀ p, p ∈ EXTENSIONS → '.' ∉ p.2.data ∧ (p.2 = "java" ↔ p.1 = "java") := by
  decide

theorem own_in_table (key : String) (d : Recipe) (h : langMapGet key = .own d) :
    (key, d.ext) ∈ EXTENSIONS := by
  unfold langMapGet at h
  cases hg : mapGet LANG_MAP key with
  | none =>
    rw [hg] at h
    simp only at h
    split at h <;> cases h
  | some r =>
    rw [hg] at h
    simp only [Looked.own.injEq] at h
    subst h
    exact List.mem_map_of_mem (fun e => (e.1, e.2.ext)) (mapGet_mem _ _ _ hg)

theorem recipeOf_cases (key : String) :
    (∃ d, langMapGet key = .own d ∧ recipeOf key = .own d) ∨
    (langMapGet key = .inherited ∧ recipeOf key = .inherited) ∨
    (langMapGet key = .undefined ∧ recipeOf key = langMapGet "javascript") := by
  unfold recipeOf
  cases h : langMapGet key with
  | own d => exact Or.inl ⟨d, rfl, rfl⟩
  | inherited => exact Or.inr (Or.inl ⟨rfl, rfl⟩)
  | undefined => exact Or.inr (Or.inr ⟨rfl, rfl⟩)

theorem java_own : ∃ d, langMapGet "java" = .own d ∧ d.ext = "java" ∧ d.pre.isNone = true :=
  ⟨_, rfl, rfl, rfl⟩

theorem javascript_own : ∃ d, langMapGet "javascript" = .own d ∧ d.ext = "js" :=
  ⟨_, rfl, rfl⟩

theorem extOf_spec (key : String) :
    '.' ∉ (extOf key).data ∧ (extOf key = "java" ↔ key = "java") := by
  obtain ⟨dj, hj, _, _⟩ := java_own
  obtain ⟨ds, hs, hsx⟩ := javascript_own
  unfold extOf
  rcases recipeOf_cases key with ⟨d, h1, h2⟩ | ⟨h1, h2⟩ | ⟨h1, h2⟩
  · rw [h2]
    exact extensions_table _ (own_in_table key d h1)
  · rw [h2]
    refine ⟨by decide, fun e => absurd e (by decide), fun e => ?_⟩
    rw [e, hj] at h1
    cases h1
  · rw [h2, hs]
    simp only [hsx]
    refine ⟨by decide, fun e => absurd e (by decide), fun e => ?_⟩
    rw [e, hj] at h1
    cases h1

theorem stemOf_other (env : Env) (socketId : String) (code language : Option String)
    (h : langKey language ≠ "java") :
    stemOf env socketId code language = "sk_" ++ socketId := by
  unfold stemOf
  cases recipeOf (langKey language) <;> simp [filename, h]

theorem stemOf_java (env : Env) (socketId : String) (code language : Option String)
    (h : langKey language = "java") :
    stemOf env socketId code language = filename socketId "java" (code.getD "") := by
  have hr : recipeOf "java" = langMapGet "java" := rfl
  obtain ⟨d, hd, _, hp⟩ := java_own
  unfold stemOf
  rw [h, hr, hd]
  simp only
  cases hpre : d.pre with
  | none => rfl
  | some f => rw [hpre] at hp; cases hp

theorem filename_java (c1 c2 src : String) :
    filename c1 "java" src = filename c2 "java" src := rfl

theorem split_last_dot (s1 s2 e1 e2 : List Char) (h1 : '.' ∉ e1) (h2 : '.' ∉ e2)
    (h : s1 ++ '.' :: e1 = s2 ++ '.' :: e2) : s1 = s2 ∧ e1 = e2 := by
  induction s1 generalizing s2 with
  | nil =>
    cases s2 with
    | nil => exact ⟨rfl, by simpa using h⟩
    | cons y s2 =>
      simp only [List.nil_append, List.cons_append, List.cons.injEq] at h
      exact absurd (h.2 ▸ List.mem_append_right s2 (List.mem_cons_self _ _)) h1
  | cons x s1 ih =>
    cases s2 with
    | nil =>
      simp only [List.nil_append, List.cons_append, List.cons.injEq] at h
      exact absurd (h.2 ▸ List.mem_append_right s1 (List.mem_cons_self _ _)) h2
    | cons y s2 =>
      simp only [List.cons_append, List.cons.injEq] at h
      obtain ⟨r1, r2⟩ := ih s2 h.2
      exact ⟨by rw [h.1, r1], r2⟩

theorem name_split (s1 s2 e1 e2 : String) (h1 : '.' ∉ e1.data) (h2 : '.' ∉ e2.data)
    (h : s1 ++ "." ++ e1 = s2 ++ "." ++ e2) : s1 = s2 ∧ e1 = e2 := by
  have hd := congrArg String.data h
  simp only [String.data_append] at hd
  simp only [List.append_assoc, List.singleton_append] at hd
  obtain ⟨r1, r2⟩ := split_last_dot _ _ _ _ h1 h2 hd
  exact ⟨String.ext r1, String.ext r2⟩

theorem append_left_cancel (p a b : String) (h : p ++ a = p ++ b) : a = b := by
  have hd := congrArg String.data h
  simp only [String.data_append] at hd
  exact String.ext (List.append_cancel_left hd)

/-- The names of the temp files of two code runs of different connections are equal exactly
when both runs have the key `java` and the same file stem. -/
theorem tempName_eq_iff (env : Env) (c1 c2 : String) (code1 code2 l1 l2 : Option String)
    (hne : c1 ≠ c2) :
    tempName env c1 code1 l1 = tempName env c2 code2 l2 ↔
      langKey l1 = "java" ∧ langKey l2 = "java" ∧
        filename c1 "java" (code1.getD "") = filename c2 "java" (code2.getD "") := by
  rw [tempName_eq, tempName_eq]
  have x1 := extOf_spec (langKey l1)
  have x2 := extOf_spec (langKey l2)
  constructor
  · intro h
    obtain ⟨hs, he⟩ := name_split _ _ _ _ x1.1 x2.1 h
    by_cases j1 : langKey l1 = "java"
    · have j2 : langKey l2 = "java" := x2.2.mp (he ▸ x1.2.mpr j1)
      rw [stemOf_java env c1 code1 l1 j1, stemOf_java env c2 code2 l2 j2] at hs
      exact ⟨j1, j2, hs⟩
    · have j2 : langKey l2 ≠ "java" := fun e => j1 (x1.2.mp (he ▸ x2.2.mpr e))
      rw [stemOf_other env c1 code1 l1 j1, stemOf_other env c2 code2 l2 j2] at hs
      exact absurd (append_left_cancel _ _ _ hs) hne
  · rintro ⟨j1, j2, hs⟩
    rw [stemOf_java env c1 code1 l1 j1, stemOf_java env c2 code2 l2 j2, hs, j1, j2]

/-! ## C23: the temp file of the active run -/

theorem filesAfter_onClose (ts : TermState) (pa : Proc) (c : Option Int) (f : String)
    (fs : List String) (hf : pa.file = some f) :
    filesAfter fs (onClose ts pa c).2 = fs.filter (fun g => decide (g ≠ f)) := by
  unfold onClose
  rw [hf]
  cases c <;> rfl

theorem tempName_same_key (env : Env) (socketId : String) (codeA codeB lA lB : Option String)
    (hk : langKey lA = langKey lB) (hj : langKey lA ≠ "java") :
    tempName env socketId codeA lA = tempName env socketId codeB lB := by
  rw [tempName_eq, tempName_eq, stemOf_other env socketId codeA lA hj,
    stemOf_other env socketId codeB lB (hk ▸ hj), hk]

/-- C23 fails: when a process whose `close` listener unlinks the file `f` closes, `f` does not
exist afterwards, whatever else was written to it since, and nothing recorded for any other
process changes; and two code runs of one connection with the same language key other than
`java` write the same file `sk_<socket id>.<ext>`. So in the trace run A, run B, close of A the
file written for B is deleted by A's `close` listener while B's process is open. -/
theorem superseded_close_unlinks_file (env : Env) (socketId : String) (ts : TermState)
    (a : Nat) (pa : Proc) (c : Option Int) (f : String)
    (ha : ts.proc? a = some pa) (hopen : pa.closed = false) (hf : pa.file = some f) :
    (∀ fs, f ∉ filesAfter fs (termStep env socketId ts (.close a c)).2) ∧
    (∀ b, b ≠ a → (termStep env socketId ts (.close a c)).1.proc? b = ts.proc? b) ∧
    (∀ (tA tB : Term) (codeA codeB lA lB : Option String),
      truthy codeA = true → truthy codeB = true → langKey lA = langKey lB →
      langKey lA ≠ "java" →
      writtenFiles (terminalRun env socketId tA codeA lA none).2 =
        writtenFiles (terminalRun env socketId tB codeB lB none).2) := by
  rw [close_open env socketId ts a pa c ha hopen]
  refine ⟨fun fs => ?_, fun b hb => ?_, fun tA tB codeA codeB lA lB hA hB hk hj => ?_⟩
  · rw [filesAfter_onClose ts pa c f fs hf]
    intro hm
    have := (List.mem_filter.mp hm).2
    simp at this
  · exact onClose_other ts pa c b (by rw [proc_pid ts a pa ha]; exact hb)
  · rw [terminalRun_written env socketId tA codeA lA none rfl hA,
      terminalRun_written env socketId tB codeB lB none rfl hB,
      tempName_same_key env socketId codeA codeB lA lB hk hj]

/-- C23 on the trace run A, run B, close of A: both runs write `/tmp/sk_s1.js`; the file exists
after run B, B's process `1` is open, and after the close of A's process `0` the temp directory
is empty. -/
theorem superseded_close_unlinks_file_witness :
    writtenFiles (termRun exampleEnv "s1" TermState.init exampleRuns).2 =
      ["/tmp/sk_s1.js", "/tmp/sk_s1.js"] ∧
    filesAfter [] (termRun exampleEnv "s1" TermState.init exampleRuns).2 = ["/tmp/sk_s1.js"] ∧
    (termRun exampleEnv "s1" TermState.init (exampleRuns ++ [.close 0 none])).1.proc? 1 =
      some { pid := 1, file := some "/tmp/sk_s1.js", timer := true, closed := false,
             stdinDestroyed := false } ∧
    filesAfter [] (termRun exampleEnv "s1" TermState.init (exampleRuns ++ [.close 0 none])).2 =
      [] ∧
    "/tmp/sk_s1.js" ∉ filesAfter ["/tmp/sk_s1.js"]
      (termStep exampleEnv "s1" (termRun exampleEnv "s1" TermState.init exampleRuns).1
        (.close 0 none)).2 :=
  ⟨by decide, by decide, by decide, by decide,
   (superseded_close_unlinks_file exampleEnv "s1"
      (termRun exampleEnv "s1" TermState.init exampleRuns).1 0
      { pid := 0, file := some "/tmp/sk_s1.js", timer := true, closed := false,
        stdinDestroyed := false } none "/tmp/sk_s1.js" (by decide) rfl rfl).1
      ["/tmp/sk_s1.js"]⟩

/-! ## C24: the temp files of different connections -/

/-- C24 fails: `s1` and `s2` both run a Java program with the public class `App`, and both
runs write `/tmp/App.java`; without a public class both write `/tmp/Main.java`, the file a
program with the public class `Main` is written to as well. When `s2` runs its program after
`s1` did and the process of `s2` closes, the file `s1` wrote is deleted. -/
theorem java_temp_file_shared_counterexample :
    writtenFiles (terminalRun exampleEnv "s1" idle (some exampleJava) (some "java") none).2 =
      ["/tmp/App.java"] ∧
    writtenFiles (terminalRun exampleEnv "s2" idle (some exampleJava) (some "Java") none).2 =
      ["/tmp/App.java"] ∧
    writtenFiles (terminalRun exampleEnv "s1" idle (some "class A {}") (some "java") none).2 =
      ["/tmp/Main.java"] ∧
    writtenFiles (terminalRun exampleEnv "s2" idle (some "class B {}") (some "java") none).2 =
      ["/tmp/Main.java"] ∧
    writtenFiles (terminalRun exampleEnv "s1" idle (some "public class Main { }") (some "java")
      none).2 = ["/tmp/Main.java"] ∧
    filesAfter []
      ((termRun exampleEnv "s1" TermState.init [.run (some exampleJava) (some "java") none]).2 ++
        (termRun exampleEnv "s2" TermState.init
          [.run (some exampleJava) (some "java") none, .close 0 (some 0)]).2) = [] := by
  decide

/-- C24, amended: for two connections with different ids and any source texts and language
labels, the names `<stem>.<ext>` of the temp files of their code runs are equal exactly when
both labels give the key `java` and the two sources give the same stem `filename`: the
identifier captured by the first match of `public\s+class\s+(\w+)`, and `Main` for a source
without a match (so a source with the public class `Main` and a source without a public class
have the same stem). When `path.join` sends these two names to different paths unless they are
equal, the same holds of the paths the two runs write. -/
theorem temp_files_of_connections (env : Env) (c1 c2 : String) (t1 t2 : Term)
    (code1 code2 l1 l2 : Option String) (hne : c1 ≠ c2)
    (h1 : truthy code1 = true) (h2 : truthy code2 = true)
    (hjoin : env.pathJoin env.tmpDir (tempName env c1 code1 l1) =
        env.pathJoin env.tmpDir (tempName env c2 code2 l2) →
      tempName env c1 code1 l1 = tempName env c2 code2 l2) :
    (tempName env c1 code1 l1 = tempName env c2 code2 l2 ↔
      langKey l1 = "java" ∧ langKey l2 = "java" ∧
        filename c1 "java" (code1.getD "") = filename c2 "java" (code2.getD "")) ∧
    (writtenFiles (terminalRun env c1 t1 code1 l1 none).2 =
        writtenFiles (terminalRun env c2 t2 code2 l2 none).2 ↔
      langKey l1 = "java" ∧ langKey l2 = "java" ∧
        filename c1 "java" (code1.getD "") = filename c2 "java" (code2.getD "")) := by
  have hn := tempName_eq_iff env c1 c2 code1 code2 l1 l2 hne
  refine ⟨hn, ?_⟩
  rw [terminalRun_written env c1 t1 code1 l1 none rfl h1,
    terminalRun_written env c2 t2 code2 l2 none rfl h2, ← hn]
  constructor
  · intro h
    exact hjoin (List.cons.inj h).1
  · intro h
    rw [h]

/-- C24, amended, on `s1` and `s2` running the same Python program: the paths differ. -/
theorem temp_files_of_connections_witness :
    writtenFiles (terminalRun exampleEnv "s1" idle (some "x = 1") (some "python") none).2 ≠
      writtenFiles (terminalRun exampleEnv "s2" idle (some "x = 1") (some "python") none).2 ∧
    writtenFiles (terminalRun exampleEnv "s1" idle (some "x = 1") (some "python") none).2 =
      ["/tmp/sk_s1.py"] ∧
    writtenFiles (terminalRun exampleEnv "s2" idle (some "x = 1") (some "python") none).2 =
      ["/tmp/sk_s2.py"] :=
  ⟨fun e =>
    absurd (((temp_files_of_connections exampleEnv "s1" "s2" idle idle (some "x = 1")
      (some "x = 1") (some "python") (some "python") (by decide) rfl rfl
      (fun h => append_left_cancel ("/tmp" ++ "/") _ _ h)).2.mp e).1) (by decide),
   by decide, by decide⟩

end SyncKode
